import Mathlib

/-!
CANable firmware core: SLCAN codec, bus controller and transmit queue.

A shallow embedding of `src/src/slcan.c`, of `src/src/can.c` and of the host
receive and transmit paths of `src/src/usbd_cdc_if.c`.  Byte buffers are total
maps from index to byte value, C loops are bounded iterations, machine
arithmetic is `Nat` arithmetic with an explicit reduction modulo `2^8` or
`2^32` wherever the C type can wrap.  The file-scope statics of `can.c` are the
fields of `Firmware`, those of `usbd_cdc_if.c` the fields of `Cdc` and
`HostTx`; calls into collaborators (HAL driver entry points, LEDs, the error
sink, the USB core) are recorded in logs, and what the environment decides (the
answers of the CAN driver, the tick counter, the transfer-complete interrupt)
is an argument of the function that depends on it.
-/

namespace Canable

/-! ## Memory and loops -/

/-- A byte buffer (`uint8_t *`): index to value. -/
abbrev Mem := Nat → Nat

/-- The assignment `m[i] = v`. -/
def write {α : Type} (m : Nat → α) (i : Nat) (v : α) : Nat → α :=
  fun k => if k = i then v else m k

/-- The loop `for (j = lo; j < lo + n; j++) s = body j s`. -/
def forUp {σ : Type} (lo : Nat) : Nat → (Nat → σ → σ) → σ → σ
  | 0, _, s => s
  | n + 1, body, s => forUp (lo + 1) n body (body lo s)

/-- The loop `for (j = n; j > 0; j--) s = body j s`. -/
def forDown {σ : Type} : Nat → (Nat → σ → σ) → σ → σ
  | 0, _, s => s
  | n + 1, body, s => forDown n body (body (n + 1) s)

/-- The first `n` bytes of a buffer, as a list. -/
def bytes (m : Mem) (n : Nat) : List Nat := (List.range n).map m

/-- A buffer holding the list `l` from index 0 and the content `rest` after it
(`rest k` is the byte at index `l.length + k`). -/
def ofList (l : List Nat) (rest : Mem) : Mem :=
  fun k => if k < l.length then l.getD k 0 else rest (k - l.length)

/-- The character codes of a string. -/
def ascii (s : String) : List Nat := s.toList.map Char.toNat

/-! ## Constants declared outside the sources -/

/-- The error codes that the sources report to the error sink (`error.h`). -/
inductive error_flag
  | ERR_USBTX_BUSY
  | ERR_CAN_TXFAIL
  | ERR_CANRXFIFO_OVERFLOW
  | ERR_FULLBUF_CANTX
  | ERR_FULLBUF_USBRX
  deriving DecidableEq, Repr

/-- Constants and tables that the sources use but that are declared in headers,
by the build or in `error.c`, none of which is among the sources: they are
parameters of the model. -/
structure Config where
  /-- Size of an SLCAN line buffer (`slcan.h`). -/
  SLCAN_MTU : Nat
  /-- Number of identifier digits of a standard frame (`slcan.h`). -/
  SLCAN_STD_ID_LEN : Nat
  /-- Number of identifier digits of an extended frame (`slcan.h`). -/
  SLCAN_EXT_ID_LEN : Nat
  /-- Number of slots of the transmit queue (`can.h`). -/
  TXQUEUE_LEN : Nat
  /-- The string `GIT_VERSION " " GIT_REMOTE "\r"` (build system). -/
  fw_id : List Nat
  /-- The value of `error_reg()` (`error.c`) as a function of the codes
  reported so far. -/
  error_reg : List error_flag → Nat

/-- Modelled from the spec: the HAL header that defines `CAN_ID_STD` is not
among the sources; the spec only asks that standard and extended identifiers be
told apart.  The value is the one of the STM32 HAL; the proofs use only that it
differs from `CAN_ID_EXT`. -/
def CAN_ID_STD : Nat := 0

/-- Modelled from the spec: see `CAN_ID_STD`. -/
def CAN_ID_EXT : Nat := 4

/-- Modelled from the spec: the HAL header that defines `CAN_RTR_DATA` is not
among the sources; the spec only asks that data and remote frames be told
apart.  The value is the one of the STM32 HAL; the proofs use only that it
differs from `CAN_RTR_REMOTE`. -/
def CAN_RTR_DATA : Nat := 0

/-- Modelled from the spec: see `CAN_RTR_DATA`. -/
def CAN_RTR_REMOTE : Nat := 2

/-- Modelled from the spec: `enum can_bitrate` is declared in `can.h`, which is
not among the sources.  The wire table gives bitrate indices 0 to 8 and the doc
comment of `can_set_bitrate` lists the members in this order, so the member
after `CAN_BITRATE_1000K` has value 9. -/
def CAN_BITRATE_INVALID : Nat := 9

/-- `FunctionalState` of the HAL. -/
inductive FunctionalState
  | DISABLE
  | ENABLE
  deriving DecidableEq, Repr

/-- Operating modes of the CAN peripheral used by `can.c`. -/
inductive CAN_Mode
  | CAN_MODE_NORMAL
  | CAN_MODE_SILENT
  deriving DecidableEq, Repr

/-- `can_bus_state_t` of `can.h`. -/
inductive can_bus_state_t
  | OFF_BUS
  | ON_BUS
  deriving DecidableEq, Repr

/-- `HAL_StatusTypeDef`, the two values `can.c` returns. -/
inductive HAL_StatusTypeDef
  | HAL_OK
  | HAL_ERROR
  deriving DecidableEq, Repr

/-! ## Frame headers -/

/-- The fields of `CAN_RxHeaderTypeDef` that the encoder reads. -/
structure CAN_RxHeaderTypeDef where
  StdId : Nat
  ExtId : Nat
  IDE : Nat
  RTR : Nat
  DLC : Nat
  deriving DecidableEq, Repr

/-- The fields of `CAN_TxHeaderTypeDef` that the decoder assigns
(`TransmitGlobalTime` is never assigned by the sources and is left out). -/
structure CAN_TxHeaderTypeDef where
  StdId : Nat
  ExtId : Nat
  IDE : Nat
  RTR : Nat
  DLC : Nat
  deriving DecidableEq, Repr

/-! ## State of `can.c` -/

/-- The fields of `can_handle.Init` that `can.c` assigns.  The three timing
fields hold a number of time quanta. -/
structure CAN_InitTypeDef where
  Prescaler : Nat
  Mode : CAN_Mode
  SyncJumpWidth : Nat
  TimeSeg1 : Nat
  TimeSeg2 : Nat
  TimeTriggeredMode : FunctionalState
  AutoBusOff : FunctionalState
  AutoWakeUp : FunctionalState
  AutoRetransmission : FunctionalState
  ReceiveFifoLocked : FunctionalState
  TransmitFifoPriority : FunctionalState
  deriving DecidableEq, Repr

/-- The transmit queue `can_txbuf_t`: per-slot header, per-slot data bytes,
and the two indices. -/
structure can_txbuf_t where
  header : Nat → CAN_TxHeaderTypeDef
  data : Nat → Mem
  head : Nat
  tail : Nat

/-- A call into the CAN driver made by `can.c`. -/
inductive DriverCall
  | HAL_CAN_Init (init : CAN_InitTypeDef)
  | HAL_CAN_ConfigFilter
  | HAL_CAN_Start
  | CAN_MCR_RESET
  | HAL_CAN_AddTxMessage (header : CAN_TxHeaderTypeDef) (aData : List Nat)
  deriving DecidableEq, Repr

/-- A call into the LED module. -/
inductive LedCall
  | led_blue_on
  | led_green_on
  deriving DecidableEq, Repr

/-- The file-scope state of `can.c` together with the logs of the calls made
into collaborators (oldest call first). -/
structure Firmware where
  can_handle_Init : CAN_InitTypeDef
  prescaler : Nat
  bus_state : can_bus_state_t
  can_autoretransmit : FunctionalState
  txqueue : can_txbuf_t
  /-- Calls into the CAN driver. -/
  driver : List DriverCall
  /-- Calls into the LED module. -/
  leds : List LedCall
  /-- Codes passed to `error_assert`. -/
  errors : List error_flag
  /-- Messages passed to `CDC_Transmit_FS`. -/
  host : List (List Nat)

/-- The power-on state: every static zero-initialised, `bus_state = OFF_BUS`,
`can_autoretransmit = ENABLE`, then `can_init`, which sets the prescaler to 48
(125 kbit/s). -/
def Firmware.initial : Firmware where
  can_handle_Init :=
    { Prescaler := 0, Mode := .CAN_MODE_NORMAL, SyncJumpWidth := 0, TimeSeg1 := 0,
      TimeSeg2 := 0, TimeTriggeredMode := .DISABLE, AutoBusOff := .DISABLE,
      AutoWakeUp := .DISABLE, AutoRetransmission := .DISABLE,
      ReceiveFifoLocked := .DISABLE, TransmitFifoPriority := .DISABLE }
  prescaler := 48
  bus_state := .OFF_BUS
  can_autoretransmit := .ENABLE
  txqueue := { header := fun _ => ⟨0, 0, 0, 0, 0⟩, data := fun _ _ => 0, head := 0, tail := 0 }
  driver := []
  leds := []
  errors := []
  host := []

/-! ## Collaborators -/

/-- Modelled from the spec: `error_assert` is defined in `error.c`, which is not
among the sources; the spec describes it as a fire-and-forget diagnostic sink
that records the reported code. -/
def error_assert (st : Firmware) (e : error_flag) : Firmware :=
  { st with errors := st.errors ++ [e] }

/-- The call `error_reg()`: the register kept by `error.c`, read through the
parameter `Config.error_reg`. -/
def error_reg (cfg : Config) (st : Firmware) : Nat :=
  cfg.error_reg st.errors

/-- The call `led_blue_on()` (module `led.c`, outside the sources). -/
def led_blue_on (st : Firmware) : Firmware :=
  { st with leds := st.leds ++ [LedCall.led_blue_on] }

/-- The call `led_green_on()` (module `led.c`, outside the sources). -/
def led_green_on (st : Firmware) : Firmware :=
  { st with leds := st.leds ++ [LedCall.led_green_on] }

/-- A call of `CDC_Transmit_FS(msg, len)` made by the codec.  The body of the
function (busy wait, size check, copy into the transmit buffer) is not unfolded
here: the host log records that the call was made and with which message, not
that the message was transmitted (with `TxState` set the body waits and may
drop it).  The body itself is `HostTx.CDC_Transmit_FS`. -/
def CDC_Transmit_FS (st : Firmware) (msg : List Nat) : Firmware :=
  { st with host := st.host ++ [msg] }

/-- The conversion `%X` of `snprintf_`: upper-case hexadecimal digits without
leading zeros. -/
def hexUpper (n : Nat) : List Nat :=
  (Nat.toDigits 16 n).map (fun c => c.toUpper.toNat)

/-! ## `can.c` -/

/-- `can_enable`: when off the bus, fill `can_handle.Init`, initialise the
driver, install the filter, start the peripheral, go on the bus. -/
def can_enable (st : Firmware) : Firmware :=
  if st.bus_state = .OFF_BUS then
    let init : CAN_InitTypeDef :=
      { st.can_handle_Init with
        Prescaler := st.prescaler
        Mode := .CAN_MODE_NORMAL
        SyncJumpWidth := 1
        TimeSeg1 := 4
        TimeSeg2 := 3
        TimeTriggeredMode := .DISABLE
        AutoBusOff := .ENABLE
        AutoWakeUp := .DISABLE
        AutoRetransmission := st.can_autoretransmit
        ReceiveFifoLocked := .DISABLE
        TransmitFifoPriority := .ENABLE }
    let st := { st with can_handle_Init := init }
    let st := { st with driver := st.driver ++ [DriverCall.HAL_CAN_Init st.can_handle_Init] }
    let st := { st with driver := st.driver ++ [DriverCall.HAL_CAN_ConfigFilter] }
    let st := { st with driver := st.driver ++ [DriverCall.HAL_CAN_Start] }
    let st := { st with bus_state := .ON_BUS }
    led_blue_on st
  else st

/-- `can_disable`: when on the bus, reset the peripheral and go off the bus. -/
def can_disable (st : Firmware) : Firmware :=
  if st.bus_state = .ON_BUS then
    let st := { st with driver := st.driver ++ [DriverCall.CAN_MCR_RESET] }
    let st := { st with bus_state := .OFF_BUS }
    led_green_on st
  else st

/-- `can_set_bitrate`: ignored on the bus; otherwise the prescaler of the
selected bitrate, 6 for any selector outside the table. -/
def can_set_bitrate (st : Firmware) (bitrate : Nat) : Firmware :=
  if st.bus_state = .ON_BUS then st
  else
    let prescaler :=
      match bitrate with
      | 0 => 600
      | 1 => 300
      | 2 => 120
      | 3 => 60
      | 4 => 48
      | 5 => 24
      | 6 => 12
      | 7 => 8
      | 8 => 6
      | _ => 6
    led_green_on { st with prescaler := prescaler }

/-- `can_set_silent`: ignored on the bus; otherwise sets `can_handle.Init.Mode`. -/
def can_set_silent (st : Firmware) (silent : Nat) : Firmware :=
  if st.bus_state = .ON_BUS then st
  else
    let st :=
      if silent ≠ 0 then
        { st with can_handle_Init := { st.can_handle_Init with Mode := .CAN_MODE_SILENT } }
      else
        { st with can_handle_Init := { st.can_handle_Init with Mode := .CAN_MODE_NORMAL } }
    led_green_on st

/-- `can_set_autoretransmit`: ignored on the bus; otherwise sets the flag. -/
def can_set_autoretransmit (st : Firmware) (autoretransmit : Nat) : Firmware :=
  if st.bus_state = .ON_BUS then st
  else
    let st :=
      if autoretransmit ≠ 0 then { st with can_autoretransmit := .ENABLE }
      else { st with can_autoretransmit := .DISABLE }
    led_green_on st

/-- `can_tx`: when the slot after `head` is `tail` the queue is full, the error
is reported and nothing is stored; otherwise the header and the first `DLC`
data bytes are stored in slot `head` and `head` advances.  (Every caller passes
`DLC <= 8`, the size of a data row.) -/
def can_tx (cfg : Config) (st : Firmware) (tx_msg_header : CAN_TxHeaderTypeDef)
    (tx_msg_data : Mem) : HAL_StatusTypeDef × Firmware :=
  if (st.txqueue.head + 1) % cfg.TXQUEUE_LEN = st.txqueue.tail then
    (.HAL_ERROR, error_assert st .ERR_FULLBUF_CANTX)
  else
    let q := st.txqueue
    let q := { q with header := write q.header q.head tx_msg_header }
    let q := forUp 0 tx_msg_header.DLC
      (fun i (q : can_txbuf_t) =>
        { q with data := write q.data q.head (write (q.data q.head) i (tx_msg_data i)) }) q
    let q := { q with head := (q.head + 1) % cfg.TXQUEUE_LEN }
    (.HAL_OK, { st with txqueue := q })

/-! ## `slcan.c`: encoder -/

/-- The function `slcan_parse_frame`: writes the SLCAN line of a received frame
into `buf` and returns the buffer and the returned count.  `msg_position` is
threaded through the loops as in the source. -/
def slcan_parse_frame (cfg : Config) (buf : Mem) (frame_header : CAN_RxHeaderTypeDef)
    (frame_data : Mem) : Mem × Nat :=
  let msg_position := 0
  -- clear the buffer
  let buf := forUp 0 cfg.SLCAN_MTU (fun j b => write b j 0) buf
  -- frame type character
  let buf :=
    if frame_header.RTR = CAN_RTR_DATA then write buf msg_position 't'.toNat
    else if frame_header.RTR = CAN_RTR_REMOTE then write buf msg_position 'r'.toNat
    else buf
  let msg_position := msg_position + 1
  let id_len := cfg.SLCAN_STD_ID_LEN
  let can_id := frame_header.StdId
  -- extended frame: `buf[msg_position] -= 32`, with `uint8_t` wrap-around
  let buf :=
    if frame_header.IDE = CAN_ID_EXT then
      write buf msg_position ((buf msg_position + 256 - 32) % 256)
    else buf
  let id_len := if frame_header.IDE = CAN_ID_EXT then cfg.SLCAN_EXT_ID_LEN else id_len
  let can_id := if frame_header.IDE = CAN_ID_EXT then frame_header.ExtId else can_id
  let msg_position := msg_position + 1
  -- identifier nibbles, `j` from `id_len` down to 1
  let r := forDown id_len
    (fun j (s : Mem × Nat × Nat) => (write s.1 j (s.2.1 % 16), s.2.1 / 16, s.2.2 + 1))
    (buf, can_id, msg_position)
  let buf := r.1
  let msg_position := r.2.2
  -- data length code
  let buf := write buf msg_position (frame_header.DLC % 256)
  let msg_position := msg_position + 1
  -- data bytes, high nibble first
  let r := forUp 0 frame_header.DLC
    (fun j (s : Mem × Nat) =>
      (write (write s.1 s.2 (frame_data j / 16)) (s.2 + 1) (frame_data j % 16), s.2 + 2))
    (buf, msg_position)
  let buf := r.1
  let msg_position := r.2
  -- binary to ASCII, `j` from 1 to `msg_position - 1`
  let buf := forUp 1 (msg_position - 1)
    (fun j b => if b j < 0xA then write b j ((b j + 0x30) % 256)
                else write b j ((b j + 0x37) % 256)) buf
  let buf := write buf msg_position '\r'.toNat
  let msg_position := msg_position + 1
  (buf, msg_position)

/-! ## `slcan.c`: decoder -/

/-- The body of the first loop of `slcan_parse_str` on one byte: ASCII to
numeric value, in `uint8_t` arithmetic. -/
def asciiToValue (b : Nat) : Nat :=
  if b ≥ 'a'.toNat then (b - 'a'.toNat + 10) % 256
  else if b ≥ 'A'.toNat then (b - 'A'.toNat + 10) % 256
  else (b + 256 - '0'.toNat) % 256

/-- The part of `slcan_parse_str` after the `switch`: parses identifier, length
and data of a transmit command from the converted buffer and queues the frame.
The two `while` loops run `msg_position` from 1 to the identifier length. -/
def slcan_parse_str_frame (cfg : Config) (st : Firmware) (buf : Mem)
    (frame_header : CAN_TxHeaderTypeDef) : Int × Firmware :=
  let frame_header :=
    if frame_header.IDE = CAN_ID_EXT then
      forUp 1 cfg.SLCAN_EXT_ID_LEN
        (fun msg_position (h : CAN_TxHeaderTypeDef) =>
          { h with ExtId := ((h.ExtId * 16) % 2 ^ 32 + buf msg_position) % 2 ^ 32 })
        frame_header
    else
      forUp 1 cfg.SLCAN_STD_ID_LEN
        (fun msg_position (h : CAN_TxHeaderTypeDef) =>
          { h with StdId := ((h.StdId * 16) % 2 ^ 32 + buf msg_position) % 2 ^ 32 })
        frame_header
  let msg_position :=
    if frame_header.IDE = CAN_ID_EXT then cfg.SLCAN_EXT_ID_LEN + 1
    else cfg.SLCAN_STD_ID_LEN + 1
  let frame_header := { frame_header with DLC := buf msg_position }
  let msg_position := msg_position + 1
  if frame_header.DLC > 8 then (-1, st)
  else
    let frame_data : Mem := fun _ => 0
    let r := forUp 0 frame_header.DLC
      (fun j (s : Mem × Nat) =>
        (write s.1 j ((buf s.2 * 16 + buf (s.2 + 1)) % 256), s.2 + 2))
      (frame_data, msg_position)
    let frame_data := r.1
    (0, (can_tx cfg st frame_header frame_data).2)

/-- The function `slcan_parse_str`: converts the bytes `buf[1..len-1]` in place,
then dispatches on `buf[0]`.  Returns the return value, the new firmware state
and the buffer as the call leaves it.  (`RTR` and `DLC` of the local header are
indeterminate in C until the switch and the length parsing assign them; they
start at 0 here and are written before they are read.) -/
def slcan_parse_str (cfg : Config) (st : Firmware) (buf : Mem) (len : Nat) :
    Int × Firmware × Mem :=
  let frame_header : CAN_TxHeaderTypeDef :=
    { IDE := CAN_ID_STD, StdId := 0, ExtId := 0, RTR := 0, DLC := 0 }
  let buf := forUp 1 (len - 1) (fun i b => write b i (asciiToValue (b i))) buf
  let c := buf 0
  if c = 'O'.toNat then (0, can_enable st, buf)
  else if c = 'C'.toNat then (0, can_disable st, buf)
  else if c = 'S'.toNat then
    if buf 1 ≥ CAN_BITRATE_INVALID then (-1, st, buf)
    else (0, can_set_bitrate st (buf 1), buf)
  else if c = 'm'.toNat ∨ c = 'M'.toNat then
    if buf 1 = 1 then (0, can_set_silent st 1, buf)
    else (0, can_set_silent st 0, buf)
  else if c = 'a'.toNat ∨ c = 'A'.toNat then
    if buf 1 = 1 then (0, can_set_autoretransmit st 1, buf)
    else (0, can_set_autoretransmit st 0, buf)
  else if c = 'V'.toNat then (0, CDC_Transmit_FS st cfg.fw_id, buf)
  else if c = 'E'.toNat then
    (0, CDC_Transmit_FS st (ascii "CANable Error Register: " ++ hexUpper (error_reg cfg st)), buf)
  else if c = 'T'.toNat ∨ c = 't'.toNat then
    let frame_header :=
      if c = 'T'.toNat then { frame_header with IDE := CAN_ID_EXT } else frame_header
    let frame_header := { frame_header with RTR := CAN_RTR_DATA }
    let r := slcan_parse_str_frame cfg st buf frame_header
    (r.1, r.2, buf)
  else if c = 'R'.toNat ∨ c = 'r'.toNat then
    let frame_header :=
      if c = 'R'.toNat then { frame_header with IDE := CAN_ID_EXT } else frame_header
    let frame_header := { frame_header with RTR := CAN_RTR_REMOTE }
    let r := slcan_parse_str_frame cfg st buf frame_header
    (r.1, r.2, buf)
  else (-1, st, buf)

/-! ## Sample constants -/

/-- Sample constants: the identifier widths the spec states (4 and 8 digits),
the queue capacity of its scenario (8), a line buffer of 30 bytes, a short
version string and an error register that reads 0. -/
def cfg4 : Config :=
  { SLCAN_MTU := 30, SLCAN_STD_ID_LEN := 4, SLCAN_EXT_ID_LEN := 8, TXQUEUE_LEN := 8,
    fw_id := ascii "fw\r", error_reg := fun _ => 0 }

/-- Sample constants with a standard identifier of 3 digits, the width that the
spec's lines `r7FF0` and `t04631122` are written with. -/
def cfg3 : Config := { cfg4 with SLCAN_STD_ID_LEN := 3 }

/-- Consecutive calls of `can_tx`, one per frame of the list, with no dequeue in
between: the returned statuses and the final state. -/
def can_tx_seq (cfg : Config) (st : Firmware) :
    List (CAN_TxHeaderTypeDef × Mem) → List HAL_StatusTypeDef × Firmware
  | [] => ([], st)
  | f :: fs =>
    let r := can_tx cfg st f.1 f.2
    let rs := can_tx_seq cfg r.2 fs
    (r.1 :: rs.1, rs.2)

/-- The line buffer as the first loop of `slcan_parse_str` leaves it: the bytes
at indices `1..len-1` converted, all others as they were. -/
def converted (buf : Mem) (len : Nat) : Mem :=
  fun k => if 1 ≤ k ∧ k < len then asciiToValue (buf k) else buf k

/-- The identifier accumulated by a `while` loop of `slcan_parse_str` over the
cells `1..n` of the converted buffer, in `uint32_t` arithmetic. -/
def idAccum (buf : Mem) (n : Nat) (init : Nat) : Nat :=
  forUp 1 n (fun msg_position v => ((v * 16) % 2 ^ 32 + buf msg_position) % 2 ^ 32) init

/-- The data bytes that `slcan_parse_str` builds from the converted buffer when
the data digits start at index `p` and the length is `n`. -/
def dataBytes (buf : Mem) (p n : Nat) : Mem :=
  fun k => if k < n then (buf (p + 2 * k) * 16 + buf (p + 2 * k + 1)) % 256 else 0

/-- Number of identifier digits for a command letter: the extended width for
`T` and `R`, the standard width otherwise. -/
def idLen (cfg : Config) (tag : Nat) : Nat :=
  if tag = 'T'.toNat ∨ tag = 'R'.toNat then cfg.SLCAN_EXT_ID_LEN else cfg.SLCAN_STD_ID_LEN

/-- The header that `slcan_parse_str` builds for a transmit command `tag` from
the converted buffer `b` (before the length check). -/
def parsedHeader (cfg : Config) (tag : Nat) (b : Mem) : CAN_TxHeaderTypeDef :=
  { StdId := if tag = 'T'.toNat ∨ tag = 'R'.toNat then 0 else idAccum b cfg.SLCAN_STD_ID_LEN 0
    ExtId := if tag = 'T'.toNat ∨ tag = 'R'.toNat then idAccum b cfg.SLCAN_EXT_ID_LEN 0 else 0
    IDE := if tag = 'T'.toNat ∨ tag = 'R'.toNat then CAN_ID_EXT else CAN_ID_STD
    RTR := if tag = 'T'.toNat ∨ tag = 't'.toNat then CAN_RTR_DATA else CAN_RTR_REMOTE
    DLC := b (idLen cfg tag + 1) }

/-- The body of the last loop of `slcan_parse_frame` on one cell: a value
below 10 becomes a decimal digit, any other value is shifted into the letters. -/
def nibbleToAscii (v : Nat) : Nat :=
  if v < 0xA then (v + 0x30) % 256 else (v + 0x37) % 256

/-- The buffer and count that `slcan_parse_frame` produces, written cell by
cell: `L` identifier digits in cells `1..L`, cell `L + 1` never assigned after
the clearing, the length in cell `L + 2`, the data nibbles from cell `L + 3`. -/
def encoded (cfg : Config) (buf : Mem) (h : CAN_RxHeaderTypeDef) (d : Mem) : Mem × Nat :=
  let L := if h.IDE = CAN_ID_EXT then cfg.SLCAN_EXT_ID_LEN else cfg.SLCAN_STD_ID_LEN
  let id := if h.IDE = CAN_ID_EXT then h.ExtId else h.StdId
  let b0 : Mem := fun k => if k < cfg.SLCAN_MTU then 0 else buf k
  let b1 : Mem :=
    if h.RTR = CAN_RTR_DATA then write b0 0 't'.toNat
    else if h.RTR = CAN_RTR_REMOTE then write b0 0 'r'.toNat
    else b0
  let b2 : Mem := if h.IDE = CAN_ID_EXT then write b1 1 ((b1 1 + 256 - 32) % 256) else b1
  let b3 : Mem := fun k => if 1 ≤ k ∧ k ≤ L then id / 16 ^ (L - k) % 16 else b2 k
  let b4 : Mem := write b3 (L + 2) (h.DLC % 256)
  let b5 : Mem := fun k =>
    if L + 3 ≤ k ∧ k < L + 3 + 2 * h.DLC then
      (if (k - (L + 3)) % 2 = 0 then d (0 + (k - (L + 3)) / 2) / 16
       else d (0 + (k - (L + 3)) / 2) % 16)
    else b4 k
  let b6 : Mem := fun k =>
    if 1 ≤ k ∧ k < L + 3 + 2 * h.DLC then nibbleToAscii (b5 k) else b5 k
  (write b6 (L + 3 + 2 * h.DLC) '\r'.toNat, L + 3 + 2 * h.DLC + 1)

/-! ## `can.c`: queue service -/

/-- `can_process`: when the queue is not empty and the driver reports a free
transmit mailbox, the frame in slot `tail` is passed to `HAL_CAN_AddTxMessage`
(which reads the header and the 8 bytes of the data row), `tail` advances, and
a failure of the driver is reported.  `free` is the value returned by
`HAL_CAN_GetTxMailboxesFreeLevel` and `status` the value returned by
`HAL_CAN_AddTxMessage`; both come from the driver. -/
def can_process (cfg : Config) (st : Firmware) (free : Nat) (status : HAL_StatusTypeDef) :
    Firmware :=
  if st.txqueue.tail ≠ st.txqueue.head ∧ free > 0 then
    let st := { st with driver := st.driver ++
      [DriverCall.HAL_CAN_AddTxMessage (st.txqueue.header st.txqueue.tail)
        (bytes (st.txqueue.data st.txqueue.tail) 8)] }
    let st := { st with txqueue :=
      { st.txqueue with tail := (st.txqueue.tail + 1) % cfg.TXQUEUE_LEN } }
    let st := led_green_on st
    if status ≠ .HAL_OK then error_assert st .ERR_CAN_TXFAIL else st
  else st

/-- A call made on the transmit queue by the foreground loop: `can_tx` with a
frame, or `can_process` with the answers of the driver. -/
inductive QueueOp
  | tx (header : CAN_TxHeaderTypeDef) (data : Mem)
  | process (free : Nat) (status : HAL_StatusTypeDef)

/-- A frame as it is compared in the queue claims: its header and its first
`DLC` data bytes. -/
def frameKey (header : CAN_TxHeaderTypeDef) (data : Mem) : CAN_TxHeaderTypeDef × List Nat :=
  (header, (bytes data 8).take header.DLC)

/-- An interleaving of `can_tx` and `can_process` calls: the final state and
the frames whose `can_tx` succeeded, in call order. -/
def runQueue (cfg : Config) : Firmware → List QueueOp → Firmware × List (CAN_TxHeaderTypeDef × List Nat)
  | st, [] => (st, [])
  | st, QueueOp.tx h d :: ops =>
    let r := can_tx cfg st h d
    let rs := runQueue cfg r.2 ops
    (rs.1, if r.1 = .HAL_OK then frameKey h d :: rs.2 else rs.2)
  | st, QueueOp.process free status :: ops => runQueue cfg (can_process cfg st free status) ops

/-- The frames that were handed to `HAL_CAN_AddTxMessage`, in call order. -/
def handed : List DriverCall → List (CAN_TxHeaderTypeDef × List Nat)
  | [] => []
  | DriverCall.HAL_CAN_AddTxMessage h d :: cs => (h, d.take h.DLC) :: handed cs
  | _ :: cs => handed cs

/-- The frames in the `k` slots from slot `t` on, cyclically. -/
def slotsFrom (cfg : Config) (q : can_txbuf_t) (t k : Nat) :
    List (CAN_TxHeaderTypeDef × List Nat) :=
  (List.range k).map (fun j =>
    frameKey (q.header ((t + j) % cfg.TXQUEUE_LEN)) (q.data ((t + j) % cfg.TXQUEUE_LEN)))

/-- The frames still queued: the slots from `tail` up to `head`, oldest first. -/
def queued (cfg : Config) (q : can_txbuf_t) : List (CAN_TxHeaderTypeDef × List Nat) :=
  slotsFrom cfg q q.tail ((q.head + cfg.TXQUEUE_LEN - q.tail) % cfg.TXQUEUE_LEN)

/-! ## `usbd_cdc_if.c`: host receive ring and line reassembly -/

/-- `NUM_RX_BUFS` of `usbd_cdc_if.h`. -/
def NUM_RX_BUFS : Nat := 6

/-- `RX_BUF_SIZE` of `usbd_cdc_if.h`, the packet size `CDC_DATA_FS_MAX_PACKET_SIZE`. -/
def RX_BUF_SIZE : Nat := 64

/-- The receive ring `usbrx_buf_t`. -/
structure usbrx_buf_t where
  buf : Nat → Mem
  msglen : Nat → Nat
  head : Nat
  tail : Nat

/-- The two values `CDC_Receive_FS` returns. -/
inductive RxStatus
  | USBD_OK
  | HAL_ERROR
  deriving DecidableEq, Repr

/-- The state of `usbd_cdc_if.c` next to that of `can.c`: the receive ring, the
slot whose buffer was last given to `USBD_CDC_SetRxBuffer` and armed with
`USBD_CDC_ReceivePacket`, the line accumulator `slcan_str` with its write
index, and the log of the calls of `slcan_parse_str` (the first `len` bytes of
the buffer passed, as they are at the call). -/
structure Cdc where
  fw : Firmware
  rxbuf : usbrx_buf_t
  armed : Nat
  slcan_str : Mem
  slcan_str_index : Nat
  decoded : List (List Nat)

/-- The power-on state: statics zeroed, `CDC_Init_FS` has armed slot `head`. -/
def Cdc.initial : Cdc where
  fw := Firmware.initial
  rxbuf := { buf := fun _ _ => 0, msglen := fun _ => 0, head := 0, tail := 0 }
  armed := 0
  slcan_str := fun _ => 0
  slcan_str_index := 0
  decoded := []

/-- The USB core stores a received packet in the armed buffer before it calls
the receive callback. -/
def usb_data_out (s : Cdc) (pkt : List Nat) : Cdc :=
  { s with rxbuf := { s.rxbuf with buf := write s.rxbuf.buf s.armed (ofList pkt (s.rxbuf.buf s.armed)) } }

/-- `CDC_Receive_FS` with `*Len = len`: on a full ring the error is reported
and the same slot is armed again; otherwise the length is recorded in slot
`head`, `head` advances and the new head slot is armed. -/
def CDC_Receive_FS (s : Cdc) (len : Nat) : RxStatus × Cdc :=
  if (s.rxbuf.head + 1) % NUM_RX_BUFS = s.rxbuf.tail then
    let s := { s with fw := error_assert s.fw .ERR_FULLBUF_USBRX }
    let s := { s with armed := s.rxbuf.head }
    (.HAL_ERROR, s)
  else
    let s := { s with rxbuf := { s.rxbuf with msglen := write s.rxbuf.msglen s.rxbuf.head len } }
    let s := { s with rxbuf := { s.rxbuf with head := (s.rxbuf.head + 1) % NUM_RX_BUFS } }
    let s := { s with armed := s.rxbuf.head }
    (.USBD_OK, s)

/-- The body of the loop of `cdc_process` on the byte `c`: a CR passes the
accumulator to `slcan_parse_str` and resets the index; any other byte is
stored at the index, after the index was reset when it had reached
`SLCAN_MTU`. -/
def cdc_byte (cfg : Config) (s : Cdc) (c : Nat) : Cdc :=
  if c = '\r'.toNat then
    let r := slcan_parse_str cfg s.fw s.slcan_str s.slcan_str_index
    { s with
      fw := r.2.1
      slcan_str := r.2.2
      decoded := s.decoded ++ [bytes s.slcan_str s.slcan_str_index]
      slcan_str_index := 0 }
  else
    let s := if s.slcan_str_index ≥ cfg.SLCAN_MTU then { s with slcan_str_index := 0 } else s
    { s with
      slcan_str := write s.slcan_str s.slcan_str_index c
      slcan_str_index := s.slcan_str_index + 1 }

/-- `cdc_process`: when the ring is not empty, the first `msglen[tail]` bytes of
slot `tail` go through `cdc_byte` in order and `tail` advances. -/
def cdc_process (cfg : Config) (s : Cdc) : Cdc :=
  if s.rxbuf.tail ≠ s.rxbuf.head then
    let s := forUp 0 (s.rxbuf.msglen s.rxbuf.tail)
      (fun i (s : Cdc) => cdc_byte cfg s (s.rxbuf.buf s.rxbuf.tail i)) s
    { s with rxbuf := { s.rxbuf with tail := (s.rxbuf.tail + 1) % NUM_RX_BUFS } }
  else s

/-- A call on the receive ring: a packet arrives (the USB core stores it and
calls `CDC_Receive_FS`), or the foreground loop calls `cdc_process`. -/
inductive RingOp
  | receive (pkt : List Nat)
  | process

/-- One call on the receive ring. -/
def ringStep (cfg : Config) (s : Cdc) : RingOp → Cdc
  | RingOp.receive pkt => (CDC_Receive_FS (usb_data_out s pkt) pkt.length).2
  | RingOp.process => cdc_process cfg s

/-- A sequence of calls on the receive ring. -/
def runRing (cfg : Config) (s : Cdc) (ops : List RingOp) : Cdc :=
  ops.foldl (ringStep cfg) s

/-- The bytes of a list of packets pass through `cdc_byte` in order. -/
def feedBytes (cfg : Config) (s : Cdc) (l : List Nat) : Cdc :=
  l.foldl (cdc_byte cfg) s

/-- Each packet of the list arrives and is drained by one `cdc_process` call. -/
def feedPackets (cfg : Config) (s : Cdc) (pkts : List (List Nat)) : Cdc :=
  pkts.foldl (fun s pkt => cdc_process cfg (CDC_Receive_FS (usb_data_out s pkt) pkt.length).2) s

/-- The `n` bytes of a buffer from index `lo` on, as a list. -/
def slice (m : Mem) (lo : Nat) : Nat → List Nat
  | 0 => []
  | n + 1 => m lo :: slice m (lo + 1) n

/-- The number of slots of the receive ring that hold a packet not yet drained:
the distance from `tail` to `head`, cyclically. -/
def pending (q : usbrx_buf_t) : Nat :=
  (q.head + NUM_RX_BUFS - q.tail) % NUM_RX_BUFS

/-- For a sequence of calls on the receive ring: how many packets
`CDC_Receive_FS` accepted and how many `cdc_process` drained. -/
def ringCounts (cfg : Config) : Cdc → List RingOp → Nat × Nat
  | _, [] => (0, 0)
  | s, RingOp.receive pkt :: ops =>
    let r := CDC_Receive_FS (usb_data_out s pkt) pkt.length
    let c := ringCounts cfg r.2 ops
    (c.1 + (if r.1 = .USBD_OK then 1 else 0), c.2)
  | s, RingOp.process :: ops =>
    let c := ringCounts cfg (cdc_process cfg s) ops
    (c.1, c.2 + (if s.rxbuf.tail ≠ s.rxbuf.head then 1 else 0))

/-- Two states agree on what the line reassembler reads and writes: the
firmware state, the accumulator, its index and the log of decoder calls. -/
def sameLine (s t : Cdc) : Prop :=
  s.fw = t.fw ∧ s.slcan_str = t.slcan_str ∧ s.slcan_str_index = t.slcan_str_index ∧
    s.decoded = t.decoded

/-- The packets held by the `k` slots of the receive ring from slot `t` on,
cyclically: of each slot the first `msglen` bytes. -/
def packetsFrom (q : usbrx_buf_t) (t k : Nat) : List (List Nat) :=
  (List.range k).map (fun j =>
    slice (q.buf ((t + j) % NUM_RX_BUFS)) 0 (q.msglen ((t + j) % NUM_RX_BUFS)))

/-- The packets not yet drained: the slots from `tail` up to `head`, oldest
first. -/
def pendingPackets (q : usbrx_buf_t) : List (List Nat) :=
  packetsFrom q q.tail (pending q)

/-- For a sequence of calls on the receive ring: the packets that
`CDC_Receive_FS` accepted, in arrival order, and the byte runs that the
`cdc_process` calls took from slot `tail` (its first `msglen[tail]` bytes), in
call order. -/
def ringTrace (cfg : Config) : Cdc → List RingOp → List (List Nat) × List (List Nat)
  | _, [] => ([], [])
  | s, RingOp.receive pkt :: ops =>
    let r := CDC_Receive_FS (usb_data_out s pkt) pkt.length
    let c := ringTrace cfg r.2 ops
    (if r.1 = .USBD_OK then pkt :: c.1 else c.1, c.2)
  | s, RingOp.process :: ops =>
    let c := ringTrace cfg (cdc_process cfg s) ops
    (c.1,
     if s.rxbuf.tail ≠ s.rxbuf.head then
       slice (s.rxbuf.buf s.rxbuf.tail) 0 (s.rxbuf.msglen s.rxbuf.tail) :: c.2
     else c.2)

/-! ## `usbd_cdc_if.c`: host transmit path -/

/-- `TX_BUF_SIZE` of `usbd_cdc_if.h`. -/
def TX_BUF_SIZE : Nat := 64

/-- Modelled from the spec: `USBD_StatusTypeDef` is declared in `usbd_def.h`,
which is not among the sources; the spec only asks that a busy transmit path be
told apart from a successful send.  The value is the one of the ST USB device
library; the proofs use only that it differs from `USBD_BUSY`. -/
def USBD_OK : Nat := 0

/-- Modelled from the spec: see `USBD_OK`. -/
def USBD_BUSY : Nat := 1

/-- The state of the host transmit path: the state of `can.c` (for the error
sink), the static `txbuf`, the fields `TxState` and `TxLength` of the CDC class
handle (its `TxBuffer` is always `txbuf`), and the log of the packets passed to
`USBD_LL_Transmit` (the first `TxLength` bytes of `TxBuffer` at the call). -/
structure HostTx where
  fw : Firmware
  txbuf : Mem
  TxState : Nat
  TxLength : Nat
  transmitted : List (List Nat)

/-- One turn of the wait loop of `CDC_Transmit_FS`, as the environment decides
it: the value that `HAL_GetTick()` returns in the loop body, and whether the
transfer-complete interrupt (`USBD_CDC_DataIn`, which clears `TxState`) arrives
before the loop condition is tested again. -/
structure Turn where
  tick : Nat
  complete : Bool

/-- The difference `HAL_GetTick() - start_wait` in `uint32_t` arithmetic. -/
def elapsed (start_wait tick : Nat) : Nat :=
  (tick + 2 ^ 32 - start_wait) % 2 ^ 32

/-- `USBD_CDC_TransmitPacket` (with the class data present): when `TxState` is
clear it is set and `TxLength` bytes of `TxBuffer` go to `USBD_LL_Transmit`;
otherwise the call returns `USBD_BUSY`. -/
def USBD_CDC_TransmitPacket (s : HostTx) : Nat × HostTx :=
  if s.TxState = 0 then
    (USBD_OK, { s with TxState := 1, transmitted := s.transmitted ++ [bytes s.txbuf s.TxLength] })
  else (USBD_BUSY, s)

/-- The wait loop of `CDC_Transmit_FS`: while `TxState` is set, read the tick
and give up (report `ERR_USBTX_BUSY`) once 10 ticks have elapsed since
`start_wait`.  The result is `true` on a timeout, `false` when the flag was
seen clear, and `none` when the listed turns are used up with the loop still
spinning. -/
def CDC_Transmit_FS_wait (start_wait : Nat) : List Turn → HostTx → Option (Bool × HostTx)
  | [], s => if s.TxState ≠ 0 then none else some (false, s)
  | t :: ts, s =>
    if s.TxState ≠ 0 then
      if elapsed start_wait t.tick ≥ 10 then
        some (true, { s with fw := error_assert s.fw .ERR_USBTX_BUSY })
      else CDC_Transmit_FS_wait start_wait ts (if t.complete then { s with TxState := 0 } else s)
    else some (false, s)

/-- The body of `CDC_Transmit_FS(Buf, Len)`: the wait loop, the size check
(`return 0`), the copy into `txbuf`, `USBD_CDC_SetTxBuffer(txbuf, Len)` and
`USBD_CDC_TransmitPacket`.  `start_wait` is the first value of `HAL_GetTick()`
and `turns` what the environment does during the wait.  (The codec model
records calls of this function in the log `Firmware.host` without unfolding
them.) -/
def HostTx.CDC_Transmit_FS (s : HostTx) (start_wait : Nat) (turns : List Turn) (Buf : Mem)
    (Len : Nat) : Option (Nat × HostTx) :=
  match CDC_Transmit_FS_wait start_wait turns s with
  | none => none
  | some (true, s) => some (USBD_BUSY, s)
  | some (false, s) =>
    if Len > TX_BUF_SIZE then some (0, s)
    else
      let s := forUp 0 Len (fun i (s : HostTx) => { s with txbuf := write s.txbuf i (Buf i) }) s
      let s := { s with TxLength := Len }
      some (USBD_CDC_TransmitPacket s)

/-- A transmit path at rest: nothing in flight, nothing sent yet. -/
def HostTx.initial : HostTx where
  fw := Firmware.initial
  txbuf := fun _ => 0
  TxState := 0
  TxLength := 0
  transmitted := []

/-! ## Vocabulary of the claims -/

/-- A byte of `[0-9a-fA-F]`. -/
def isHexDigit (c : Nat) : Prop :=
  ('0'.toNat ≤ c ∧ c ≤ '9'.toNat) ∨ ('a'.toNat ≤ c ∧ c ≤ 'f'.toNat) ∨
    ('A'.toNat ≤ c ∧ c ≤ 'F'.toNat)

instance : DecidablePred isHexDigit := fun c => by
  unfold isHexDigit
  exact inferInstance

/-- The value of a hexadecimal digit character. -/
def hexDigitValue (c : Nat) : Nat :=
  if c ≤ '9'.toNat then c - '0'.toNat
  else if c ≤ 'F'.toNat then c - 'A'.toNat + 10
  else c - 'a'.toNat + 10

/-- The base-16 value of a string of hexadecimal digit characters. -/
def hexValue (l : List Nat) : Nat :=
  l.foldl (fun v c => 16 * v + hexDigitValue c) 0

/-- The command letters of a transmit command. -/
def transmitTags : List Nat := ['t'.toNat, 'T'.toNat, 'r'.toNat, 'R'.toNat]

/-- The command letters that `slcan_parse_str` knows. -/
def knownTags : List Nat :=
  ['O'.toNat, 'C'.toNat, 'S'.toNat, 'M'.toNat, 'm'.toNat, 'A'.toNat, 'a'.toNat, 'V'.toNat,
   'E'.toNat, 't'.toNat, 'T'.toNat, 'r'.toNat, 'R'.toNat]

/-! ## Loop lemmas -/

theorem write_same {α : Type} (m : Nat → α) (i : Nat) (v : α) : write m i v i = v := by
  simp [write]

theorem write_other {α : Type} (m : Nat → α) (i k : Nat) (v : α) (h : k ≠ i) :
    write m i v k = m k := by
  simp [write, h]

/-- A loop that rewrites cell `i` as a function of its content: cells in range
are mapped, the others are untouched. -/
theorem forUp_map (g : Nat → Nat) (n : Nat) :
    ∀ (lo : Nat) (buf : Mem),
      forUp lo n (fun i b => write b i (g (b i))) buf =
        fun k => if lo ≤ k ∧ k < lo + n then g (buf k) else buf k := by
  induction n with
  | zero =>
    intro lo buf
    funext k
    have h : ¬ (lo ≤ k ∧ k < lo + 0) := by omega
    rw [forUp, if_neg h]
  | succ n ih =>
    intro lo buf
    funext k
    rw [forUp, ih]
    beta_reduce
    by_cases h1 : k = lo
    · subst h1
      have h2 : ¬ (k + 1 ≤ k ∧ k < k + 1 + n) := by omega
      have h3 : k ≤ k ∧ k < k + (n + 1) := by omega
      rw [if_neg h2, if_pos h3, write_same]
    · by_cases h4 : lo ≤ k ∧ k < lo + (n + 1)
      · have h5 : lo + 1 ≤ k ∧ k < lo + 1 + n := by omega
        rw [if_pos h4, if_pos h5, write_other _ _ _ _ h1]
      · have h5 : ¬ (lo + 1 ≤ k ∧ k < lo + 1 + n) := by omega
        rw [if_neg h4, if_neg h5, write_other _ _ _ _ h1]

/-- The identifier loop of the encoder: cell `k` in `1..n` receives nibble
`n - k` of the identifier, and `msg_position` advances by `n`. -/
theorem forDown_id (n : Nat) :
    ∀ (b : Mem) (id mp : Nat),
      forDown n
        (fun j (s : Mem × Nat × Nat) => (write s.1 j (s.2.1 % 16), s.2.1 / 16, s.2.2 + 1))
        (b, id, mp) =
      (fun k => if 1 ≤ k ∧ k ≤ n then id / 16 ^ (n - k) % 16 else b k, id / 16 ^ n, mp + n) := by
  induction n with
  | zero =>
    intro b id mp
    rw [forDown]
    refine Prod.ext ?_ (Prod.ext ?_ ?_)
    · funext k
      have h : ¬ (1 ≤ k ∧ k ≤ 0) := by omega
      show b k = if 1 ≤ k ∧ k ≤ 0 then _ else b k
      rw [if_neg h]
    · simp
    · simp
  | succ n ih =>
    intro b id mp
    rw [forDown, ih]
    refine Prod.ext ?_ (Prod.ext ?_ ?_)
    · funext k
      show (if 1 ≤ k ∧ k ≤ n then id / 16 / 16 ^ (n - k) % 16 else write b (n + 1) (id % 16) k) =
        (if 1 ≤ k ∧ k ≤ n + 1 then id / 16 ^ (n + 1 - k) % 16 else b k)
      by_cases h1 : 1 ≤ k ∧ k ≤ n
      · have h2 : 1 ≤ k ∧ k ≤ n + 1 := by omega
        have h3 : n + 1 - k = (n - k) + 1 := by omega
        rw [if_pos h1, if_pos h2, h3, Nat.div_div_eq_div_mul, pow_succ, Nat.mul_comm]
      · by_cases h4 : k = n + 1
        · subst h4
          have h5 : 1 ≤ n + 1 ∧ n + 1 ≤ n + 1 := by omega
          rw [if_neg h1, if_pos h5, write_same]
          simp
        · have h5 : ¬ (1 ≤ k ∧ k ≤ n + 1) := by omega
          rw [if_neg h1, if_neg h5, write_other _ _ _ _ h4]
    · show id / 16 / 16 ^ n = id / 16 ^ (n + 1)
      rw [Nat.div_div_eq_div_mul, pow_succ, Nat.mul_comm]
    · show mp + 1 + n = mp + (n + 1)
      omega

/-- The data loop of the encoder: two nibbles per data byte from
`msg_position` on, high nibble first. -/
theorem forUp_data_nibbles (d : Mem) (n : Nat) :
    ∀ (lo : Nat) (b : Mem) (mp : Nat),
      forUp lo n
        (fun j (s : Mem × Nat) =>
          (write (write s.1 s.2 (d j / 16)) (s.2 + 1) (d j % 16), s.2 + 2))
        (b, mp) =
      (fun k => if mp ≤ k ∧ k < mp + 2 * n then
                  (if (k - mp) % 2 = 0 then d (lo + (k - mp) / 2) / 16
                   else d (lo + (k - mp) / 2) % 16)
                else b k, mp + 2 * n) := by
  induction n with
  | zero =>
    intro lo b mp
    rw [forUp]
    refine Prod.ext ?_ rfl
    funext k
    have h : ¬ (mp ≤ k ∧ k < mp + 2 * 0) := by omega
    show b k = if mp ≤ k ∧ k < mp + 2 * 0 then _ else b k
    rw [if_neg h]
  | succ n ih =>
    intro lo b mp
    rw [forUp, ih]
    refine Prod.ext ?_ ?_
    · funext k
      dsimp only
      by_cases h1 : mp + 2 ≤ k ∧ k < mp + 2 + 2 * n
      · have h2 : mp ≤ k ∧ k < mp + 2 * (n + 1) := by omega
        have h3 : (k - (mp + 2)) % 2 = (k - mp) % 2 := by omega
        have h4 : lo + 1 + (k - (mp + 2)) / 2 = lo + (k - mp) / 2 := by omega
        rw [if_pos h1, if_pos h2, h3, h4]
      · rw [if_neg h1]
        by_cases h5 : k = mp + 1
        · subst h5
          have h2 : mp ≤ mp + 1 ∧ mp + 1 < mp + 2 * (n + 1) := by omega
          have h3 : ¬ ((mp + 1 - mp) % 2 = 0) := by omega
          have h4 : lo + (mp + 1 - mp) / 2 = lo := by omega
          rw [if_pos h2, if_neg h3, h4, write_same]
        · by_cases h6 : k = mp
          · subst h6
            have h2 : k ≤ k ∧ k < k + 2 * (n + 1) := by omega
            have h3 : (k - k) % 2 = 0 := by omega
            have h4 : lo + (k - k) / 2 = lo := by omega
            rw [if_pos h2, if_pos h3, h4, write_other _ _ _ _ h5, write_same]
          · have h2 : ¬ (mp ≤ k ∧ k < mp + 2 * (n + 1)) := by omega
            rw [if_neg h2, write_other _ _ _ _ h5, write_other _ _ _ _ h6]
    · show mp + 2 + 2 * n = mp + 2 * (n + 1)
      omega

/-- The data loop of the decoder: data byte `k` is built from the two buffer
cells at `msg_position + 2 * k`. -/
theorem forUp_data_bytes (buf : Mem) (n : Nat) :
    ∀ (lo : Nat) (fd : Mem) (mp : Nat),
      forUp lo n
        (fun j (s : Mem × Nat) =>
          (write s.1 j ((buf s.2 * 16 + buf (s.2 + 1)) % 256), s.2 + 2))
        (fd, mp) =
      (fun k => if lo ≤ k ∧ k < lo + n then
                  (buf (mp + 2 * (k - lo)) * 16 + buf (mp + 2 * (k - lo) + 1)) % 256
                else fd k, mp + 2 * n) := by
  induction n with
  | zero =>
    intro lo fd mp
    rw [forUp]
    refine Prod.ext ?_ rfl
    funext k
    have h : ¬ (lo ≤ k ∧ k < lo + 0) := by omega
    show fd k = if lo ≤ k ∧ k < lo + 0 then _ else fd k
    rw [if_neg h]
  | succ n ih =>
    intro lo fd mp
    rw [forUp, ih]
    refine Prod.ext ?_ ?_
    · funext k
      dsimp only
      by_cases h1 : lo + 1 ≤ k ∧ k < lo + 1 + n
      · have h2 : lo ≤ k ∧ k < lo + (n + 1) := by omega
        have h3 : mp + 2 + 2 * (k - (lo + 1)) = mp + 2 * (k - lo) := by omega
        rw [if_pos h1, if_pos h2, h3]
      · rw [if_neg h1]
        by_cases h5 : k = lo
        · subst h5
          have h2 : k ≤ k ∧ k < k + (n + 1) := by omega
          have h3 : mp + 2 * (k - k) = mp := by omega
          rw [if_pos h2, h3, write_same]
        · have h2 : ¬ (lo ≤ k ∧ k < lo + (n + 1)) := by omega
          rw [if_neg h2, write_other _ _ _ _ h5]
    · show mp + 2 + 2 * n = mp + 2 * (n + 1)
      omega

/-- The copy loop of `can_tx`: only the data row of slot `head` changes, in
the cells the loop visits. -/
theorem forUp_queue_data (d : Mem) (n : Nat) :
    ∀ (lo : Nat) (q : can_txbuf_t),
      forUp lo n
        (fun i (q : can_txbuf_t) =>
          { q with data := write q.data q.head (write (q.data q.head) i (d i)) }) q =
      { q with data := fun s k =>
          if s = q.head ∧ lo ≤ k ∧ k < lo + n then d k else q.data s k } := by
  induction n with
  | zero =>
    intro lo q
    rw [forUp]
    have h : ∀ s k, ¬ (s = q.head ∧ lo ≤ k ∧ k < lo + 0) := by intro s k; omega
    simp only [h, if_false]
  | succ n ih =>
    intro lo q
    rw [forUp, ih]
    congr 1
    funext s k
    dsimp only
    by_cases h1 : s = q.head ∧ lo + 1 ≤ k ∧ k < lo + 1 + n
    · have h2 : s = q.head ∧ lo ≤ k ∧ k < lo + (n + 1) := by omega
      rw [if_pos h1, if_pos h2]
    · rw [if_neg h1]
      by_cases h3 : s = q.head
      · subst h3
        rw [write_same]
        by_cases h4 : k = lo
        · subst h4
          have h2 : q.head = q.head ∧ k ≤ k ∧ k < k + (n + 1) := by omega
          rw [if_pos h2, write_same]
        · have h2 : ¬ (q.head = q.head ∧ lo ≤ k ∧ k < lo + (n + 1)) := by omega
          rw [if_neg h2, write_other _ _ _ _ h4]
      · have h2 : ¬ (s = q.head ∧ lo ≤ k ∧ k < lo + (n + 1)) := by
          intro h; exact h3 h.1
        rw [if_neg h2, write_other _ _ _ _ h3]

/-- The extended-identifier loop of the decoder only changes `ExtId`. -/
theorem forUp_ExtId (f : Nat → Nat → Nat) (n : Nat) :
    ∀ (lo : Nat) (h : CAN_TxHeaderTypeDef),
      forUp lo n (fun mp (h : CAN_TxHeaderTypeDef) => { h with ExtId := f mp h.ExtId }) h =
        { h with ExtId := forUp lo n f h.ExtId } := by
  induction n with
  | zero => intro lo h; rfl
  | succ n ih => intro lo h; rw [forUp, ih, forUp]

/-- The standard-identifier loop of the decoder only changes `StdId`. -/
theorem forUp_StdId (f : Nat → Nat → Nat) (n : Nat) :
    ∀ (lo : Nat) (h : CAN_TxHeaderTypeDef),
      forUp lo n (fun mp (h : CAN_TxHeaderTypeDef) => { h with StdId := f mp h.StdId }) h =
        { h with StdId := forUp lo n f h.StdId } := by
  induction n with
  | zero => intro lo h; rfl
  | succ n ih => intro lo h; rw [forUp, ih, forUp]

/-! ## The transmit queue -/

/-- What `can_tx` does on a full queue. -/
theorem can_tx_full (cfg : Config) (st : Firmware) (h : CAN_TxHeaderTypeDef) (d : Mem)
    (hfull : (st.txqueue.head + 1) % cfg.TXQUEUE_LEN = st.txqueue.tail) :
    can_tx cfg st h d = (.HAL_ERROR, error_assert st .ERR_FULLBUF_CANTX) := by
  rw [can_tx, if_pos hfull]

/-- What `can_tx` does on a queue that is not full. -/
theorem can_tx_ok (cfg : Config) (st : Firmware) (h : CAN_TxHeaderTypeDef) (d : Mem)
    (hroom : (st.txqueue.head + 1) % cfg.TXQUEUE_LEN ≠ st.txqueue.tail) :
    can_tx cfg st h d =
      (.HAL_OK,
        { st with txqueue :=
          { header := write st.txqueue.header st.txqueue.head h
            data := fun s k =>
              if s = st.txqueue.head ∧ k < h.DLC then d k else st.txqueue.data s k
            head := (st.txqueue.head + 1) % cfg.TXQUEUE_LEN
            tail := st.txqueue.tail } }) := by
  rw [can_tx, if_neg hroom]
  dsimp only
  rw [forUp_queue_data]
  have e : ∀ (s k : Nat), (s = st.txqueue.head ∧ 0 ≤ k ∧ k < 0 + h.DLC) ↔
      (s = st.txqueue.head ∧ k < h.DLC) := by
    intro s k; constructor <;> intro hh <;> omega
  simp only [e]

/-- With `k + 1 < C` slots in use after the next store, the slot after `head`
is not `tail`. -/
theorem mod_succ_ne (C t k : Nat) (ht : t < C) (hk : k + 1 < C) :
    (t + k + 1) % C ≠ t := by
  intro h
  by_cases h1 : t + k + 1 < C
  · rw [Nat.mod_eq_of_lt h1] at h
    omega
  · have h2 : t + k + 1 = (t + k + 1 - C) + C := by omega
    rw [h2, Nat.add_mod_right, Nat.mod_eq_of_lt (by omega)] at h
    omega

/-- With `C - 1` slots in use, the slot after `head` is `tail`. -/
theorem mod_succ_eq (C t : Nat) (ht : t < C) (hC : 0 < C) :
    (t + (C - 1) + 1) % C = t := by
  have h2 : t + (C - 1) + 1 = t + C := by omega
  rw [h2, Nat.add_mod_right, Nat.mod_eq_of_lt ht]

/-- Consecutive enqueues into a queue with `k` slots in use: the first
`C - 1 - k` succeed, all later ones fail and leave the queue as it was. -/
theorem can_tx_seq_from (cfg : Config) (frames : List (CAN_TxHeaderTypeDef × Mem)) :
    ∀ (st : Firmware) (k : Nat), k ≤ cfg.TXQUEUE_LEN - 1 → 1 < cfg.TXQUEUE_LEN →
      st.txqueue.tail < cfg.TXQUEUE_LEN →
      st.txqueue.head = (st.txqueue.tail + k) % cfg.TXQUEUE_LEN →
      (can_tx_seq cfg st frames).1 =
          List.replicate (min (cfg.TXQUEUE_LEN - 1 - k) frames.length) HAL_StatusTypeDef.HAL_OK ++
          List.replicate (frames.length - (cfg.TXQUEUE_LEN - 1 - k)) HAL_StatusTypeDef.HAL_ERROR ∧
      (can_tx_seq cfg st frames).2.txqueue =
        (can_tx_seq cfg st (frames.take (cfg.TXQUEUE_LEN - 1 - k))).2.txqueue := by
  induction frames with
  | nil =>
    intro st k _ _ _ _
    simp [can_tx_seq]
  | cons f fs ih =>
    intro st k hk hC ht hh
    by_cases hfull : k = cfg.TXQUEUE_LEN - 1
    · -- the queue is full
      have hf : (st.txqueue.head + 1) % cfg.TXQUEUE_LEN = st.txqueue.tail := by
        rw [hh, Nat.mod_add_mod, hfull]
        exact mod_succ_eq _ _ ht (by omega)
      have h0 : cfg.TXQUEUE_LEN - 1 - k = 0 := by omega
      have ih1 := ih (error_assert st .ERR_FULLBUF_CANTX) k hk hC ht hh
      rw [h0] at ih1
      simp only [can_tx_seq, can_tx_full cfg st f.1 f.2 hf, h0]
      constructor
      · rw [ih1.1]
        simp [List.replicate_succ]
      · rw [ih1.2]
        simp [can_tx_seq, error_assert]
    · -- there is room
      have hr : (st.txqueue.head + 1) % cfg.TXQUEUE_LEN ≠ st.txqueue.tail := by
        rw [hh, Nat.mod_add_mod]
        exact mod_succ_ne _ _ _ ht (by omega)
      obtain ⟨m, hm⟩ : ∃ m, cfg.TXQUEUE_LEN - 1 - k = m + 1 := ⟨cfg.TXQUEUE_LEN - 1 - k - 1, by omega⟩
      have hm1 : cfg.TXQUEUE_LEN - 1 - (k + 1) = m := by omega
      have ih1 := ih (can_tx cfg st f.1 f.2).2 (k + 1) (by omega) hC
        (by rw [can_tx_ok cfg st f.1 f.2 hr]; exact ht)
        (by rw [can_tx_ok cfg st f.1 f.2 hr]
            show (st.txqueue.head + 1) % cfg.TXQUEUE_LEN = _
            rw [hh, Nat.mod_add_mod]; rfl)
      rw [hm1] at ih1
      rw [hm]
      simp only [can_tx_seq, List.take_succ_cons, List.length_cons]
      constructor
      · rw [ih1.1, can_tx_ok cfg st f.1 f.2 hr]
        simp [List.replicate_succ, Nat.succ_min_succ]
      · exact ih1.2

/-! ## The decoder, step by step -/

/-- The first loop of `slcan_parse_str` computes `converted`. -/
theorem conversion_loop (buf : Mem) (len : Nat) :
    forUp 1 (len - 1) (fun i b => write b i (asciiToValue (b i))) buf = converted buf len := by
  rw [forUp_map]
  funext k
  unfold converted
  by_cases h : 1 ≤ k ∧ k < len
  · have h2 : 1 ≤ k ∧ k < 1 + (len - 1) := by omega
    rw [if_pos h, if_pos h2]
  · have h2 : ¬ (1 ≤ k ∧ k < 1 + (len - 1)) := by omega
    rw [if_neg h, if_neg h2]

/-- The frame part of the decoder on an extended header. -/
theorem slcan_parse_str_frame_ext (cfg : Config) (st : Firmware) (b : Mem) (rtr : Nat) :
    slcan_parse_str_frame cfg st b
        { IDE := CAN_ID_EXT, StdId := 0, ExtId := 0, RTR := rtr, DLC := 0 } =
      if b (cfg.SLCAN_EXT_ID_LEN + 1) > 8 then (-1, st)
      else (0, (can_tx cfg st
        { IDE := CAN_ID_EXT, StdId := 0, ExtId := idAccum b cfg.SLCAN_EXT_ID_LEN 0, RTR := rtr,
          DLC := b (cfg.SLCAN_EXT_ID_LEN + 1) }
        (dataBytes b (cfg.SLCAN_EXT_ID_LEN + 2) (b (cfg.SLCAN_EXT_ID_LEN + 1)))).2) := by
  unfold slcan_parse_str_frame
  simp only [if_true]
  rw [forUp_ExtId (fun msg_position v => ((v * 16) % 2 ^ 32 + b msg_position) % 2 ^ 32)]
  simp only [if_true, forUp_data_bytes]
  have e : (fun k => if 0 ≤ k ∧ k < 0 + b (cfg.SLCAN_EXT_ID_LEN + 1) then
        (b (cfg.SLCAN_EXT_ID_LEN + 1 + 1 + 2 * (k - 0)) * 16 +
          b (cfg.SLCAN_EXT_ID_LEN + 1 + 1 + 2 * (k - 0) + 1)) % 256 else 0) =
      dataBytes b (cfg.SLCAN_EXT_ID_LEN + 2) (b (cfg.SLCAN_EXT_ID_LEN + 1)) := by
    funext k
    unfold dataBytes
    simp
  rw [e]
  rfl

/-- The frame part of the decoder on a standard header. -/
theorem slcan_parse_str_frame_std (cfg : Config) (st : Firmware) (b : Mem) (rtr : Nat) :
    slcan_parse_str_frame cfg st b
        { IDE := CAN_ID_STD, StdId := 0, ExtId := 0, RTR := rtr, DLC := 0 } =
      if b (cfg.SLCAN_STD_ID_LEN + 1) > 8 then (-1, st)
      else (0, (can_tx cfg st
        { IDE := CAN_ID_STD, StdId := idAccum b cfg.SLCAN_STD_ID_LEN 0, ExtId := 0, RTR := rtr,
          DLC := b (cfg.SLCAN_STD_ID_LEN + 1) }
        (dataBytes b (cfg.SLCAN_STD_ID_LEN + 2) (b (cfg.SLCAN_STD_ID_LEN + 1)))).2) := by
  unfold slcan_parse_str_frame
  have hne : ¬ (CAN_ID_STD = CAN_ID_EXT) := by decide
  simp only [if_neg hne]
  rw [forUp_StdId (fun msg_position v => ((v * 16) % 2 ^ 32 + b msg_position) % 2 ^ 32)]
  simp only [if_neg hne, forUp_data_bytes]
  have e : (fun k => if 0 ≤ k ∧ k < 0 + b (cfg.SLCAN_STD_ID_LEN + 1) then
        (b (cfg.SLCAN_STD_ID_LEN + 1 + 1 + 2 * (k - 0)) * 16 +
          b (cfg.SLCAN_STD_ID_LEN + 1 + 1 + 2 * (k - 0) + 1)) % 256 else 0) =
      dataBytes b (cfg.SLCAN_STD_ID_LEN + 2) (b (cfg.SLCAN_STD_ID_LEN + 1)) := by
    funext k
    unfold dataBytes
    simp
  rw [e]
  rfl

/-- The conversion loop leaves the command letter alone. -/
theorem converted_zero (buf : Mem) (len : Nat) : converted buf len 0 = buf 0 := by
  simp [converted]

/-- The decoder on a transmit command, in closed form: the length check on the
converted byte after the identifier, then `can_tx` on the parsed frame. -/
theorem slcan_parse_str_transmit (cfg : Config) (st : Firmware) (buf : Mem) (len : Nat)
    (htag : buf 0 ∈ transmitTags) :
    slcan_parse_str cfg st buf len =
      if converted buf len (idLen cfg (buf 0) + 1) > 8 then (-1, st, converted buf len)
      else (0,
        (can_tx cfg st (parsedHeader cfg (buf 0) (converted buf len))
          (dataBytes (converted buf len) (idLen cfg (buf 0) + 2)
            (converted buf len (idLen cfg (buf 0) + 1)))).2,
        converted buf len) := by
  unfold slcan_parse_str
  simp only [conversion_loop, converted_zero]
  simp only [transmitTags, List.mem_cons, List.mem_singleton, List.not_mem_nil, or_false] at htag
  rcases htag with h | h | h | h
  · rw [h]
    simp [slcan_parse_str_frame_std, idLen, parsedHeader]
    split_ifs <;> rfl
  · rw [h]
    simp [slcan_parse_str_frame_ext, idLen, parsedHeader]
    split_ifs <;> rfl
  · rw [h]
    simp [slcan_parse_str_frame_std, idLen, parsedHeader]
    split_ifs <;> rfl
  · rw [h]
    simp [slcan_parse_str_frame_ext, idLen, parsedHeader]
    split_ifs <;> rfl

/-! ## The encoder, in closed form -/

/-- The clearing loop of the encoder. -/
theorem clear_loop (n : Nat) (buf : Mem) :
    forUp 0 n (fun j b => write b j 0) buf = fun k => if k < n then 0 else buf k := by
  have h := forUp_map (fun _ => 0) n 0 buf
  rw [h]
  funext k
  by_cases hk : k < n
  · have h2 : 0 ≤ k ∧ k < 0 + n := by omega
    rw [if_pos hk, if_pos h2]
  · have h2 : ¬ (0 ≤ k ∧ k < 0 + n) := by omega
    rw [if_neg hk, if_neg h2]

/-- The last loop of the encoder. -/
theorem ascii_loop (m : Nat) (buf : Mem) :
    forUp 1 (m - 1)
      (fun j b => if b j < 0xA then write b j ((b j + 0x30) % 256)
                  else write b j ((b j + 0x37) % 256)) buf =
    fun k => if 1 ≤ k ∧ k < m then nibbleToAscii (buf k) else buf k := by
  have e : (fun j (b : Mem) => if b j < 0xA then write b j ((b j + 0x30) % 256)
                  else write b j ((b j + 0x37) % 256)) =
      fun j b => write b j (nibbleToAscii (b j)) := by
    funext j b
    unfold nibbleToAscii
    split_ifs <;> rfl
  rw [e, forUp_map]
  funext k
  by_cases hk : 1 ≤ k ∧ k < m
  · have h2 : 1 ≤ k ∧ k < 1 + (m - 1) := by omega
    rw [if_pos hk, if_pos h2]
  · have h2 : ¬ (1 ≤ k ∧ k < 1 + (m - 1)) := by omega
    rw [if_neg hk, if_neg h2]

/-- The encoder computes `encoded`. -/
theorem slcan_parse_frame_eq (cfg : Config) (buf : Mem) (h : CAN_RxHeaderTypeDef) (d : Mem) :
    slcan_parse_frame cfg buf h d = encoded cfg buf h d := by
  unfold slcan_parse_frame encoded
  simp only [clear_loop, forDown_id, forUp_data_nibbles]
  have e1 : ∀ L : Nat, 0 + 1 + 1 + L + 1 = L + 3 := by intro L; omega
  have e2 : ∀ L : Nat, 0 + 1 + 1 + L = L + 2 := by intro L; omega
  simp only [e1, e2]
  simp only [ascii_loop]

/-- On a hexadecimal digit the conversion of the decoder gives the digit value,
which is below 16. -/
theorem asciiToValue_hex (c : Nat) (h : isHexDigit c) :
    asciiToValue c = hexDigitValue c ∧ hexDigitValue c < 16 := by
  unfold isHexDigit at h
  unfold asciiToValue hexDigitValue
  simp only [Char.reduceToNat] at h ⊢
  rcases h with h | h | h
  · have h1 : ¬ (c ≥ 97) := by omega
    have h2 : ¬ (c ≥ 65) := by omega
    have h3 : c ≤ 57 := by omega
    rw [if_neg h1, if_neg h2, if_pos h3]
    omega
  · have h1 : c ≥ 97 := by omega
    have h3 : ¬ (c ≤ 57) := by omega
    have h4 : ¬ (c ≤ 70) := by omega
    rw [if_pos h1, if_neg h3, if_neg h4]
    omega
  · have h1 : ¬ (c ≥ 97) := by omega
    have h2 : c ≥ 65 := by omega
    have h3 : ¬ (c ≤ 57) := by omega
    have h4 : c ≤ 70 := by omega
    rw [if_neg h1, if_pos h2, if_neg h3, if_pos h4]
    omega

/-- On a byte outside `[0-9a-fA-F]` the conversion of the decoder gives a value
of at least 10. -/
theorem asciiToValue_nonhex (c : Nat) (hc : c < 256) (h : ¬ isHexDigit c) :
    10 ≤ asciiToValue c := by
  unfold isHexDigit at h
  unfold asciiToValue
  simp only [Char.reduceToNat] at h ⊢
  split_ifs <;> omega

/-- On the digits `9`, `A`-`F` and `a`-`f` the conversion of the decoder gives
a value above 8. -/
theorem asciiToValue_big (c : Nat)
    (h : c = '9'.toNat ∨ ('A'.toNat ≤ c ∧ c ≤ 'F'.toNat) ∨ ('a'.toNat ≤ c ∧ c ≤ 'f'.toNat)) :
    8 < asciiToValue c := by
  unfold asciiToValue
  simp only [Char.reduceToNat] at h ⊢
  split_ifs <;> omega

/-- Inside the line, the converted buffer holds the converted byte. -/
theorem converted_inside (buf : Mem) (len k : Nat) (h1 : 1 ≤ k) (h2 : k < len) :
    converted buf len k = asciiToValue (buf k) := by
  unfold converted
  rw [if_pos ⟨h1, h2⟩]

/-- Outside the line, the converted buffer holds the old byte. -/
theorem converted_outside (buf : Mem) (len k : Nat) (h : len ≤ k) :
    converted buf len k = buf k := by
  unfold converted
  have : ¬ (1 ≤ k ∧ k < len) := by omega
  rw [if_neg this]

/-- Inside the list, `ofList` reads the list. -/
theorem ofList_inside (l : List Nat) (rest : Mem) (k : Nat) (h : k < l.length) :
    ofList l rest k = l.getD k 0 := by
  unfold ofList
  rw [if_pos h]

/-- The identifier loop of the decoder over cells that hold the values of the
digits `ids` computes their base-16 value, as long as it fits 32 bits. -/
theorem forUp_id_digits (b : Mem) (ids : List Nat) :
    ∀ (lo init : Nat),
      (∀ j, j < ids.length → b (lo + j) = hexDigitValue (ids.getD j 0)) →
      (∀ c ∈ ids, hexDigitValue c < 16) →
      (init + 1) * 16 ^ ids.length ≤ 2 ^ 32 →
      forUp lo ids.length (fun mp v => ((v * 16) % 2 ^ 32 + b mp) % 2 ^ 32) init =
        ids.foldl (fun v c => 16 * v + hexDigitValue c) init := by
  induction ids with
  | nil => intro lo init _ _ _; rfl
  | cons c cs ih =>
    intro lo init hb hhex hfit
    have hc : hexDigitValue c < 16 := hhex c (List.mem_cons_self c cs)
    have hb0 : b lo = hexDigitValue c := by
      have := hb 0 (by simp)
      simpa using this
    have hpow : (init + 1) * 16 * 16 ^ cs.length ≤ 2 ^ 32 := by
      have e : (init + 1) * 16 ^ (c :: cs).length = (init + 1) * 16 * 16 ^ cs.length := by
        rw [List.length_cons, pow_succ]; ring
      rw [← e]; exact hfit
    have hone : 1 ≤ 16 ^ cs.length := Nat.one_le_pow _ _ (by norm_num)
    have hsmall : (init + 1) * 16 ≤ 2 ^ 32 := by
      calc (init + 1) * 16 = (init + 1) * 16 * 1 := by ring
        _ ≤ (init + 1) * 16 * 16 ^ cs.length := Nat.mul_le_mul_left _ hone
        _ ≤ 2 ^ 32 := hpow
    have hstep : ((init * 16) % 2 ^ 32 + b lo) % 2 ^ 32 = 16 * init + hexDigitValue c := by
      rw [hb0]
      norm_num at hsmall ⊢
      omega
    show forUp (lo + 1) cs.length _ (((init * 16) % 2 ^ 32 + b lo) % 2 ^ 32) = _
    rw [hstep, List.foldl_cons]
    apply ih
    · intro j hj
      have := hb (j + 1) (by simp; omega)
      rw [List.getD_cons_succ] at this
      rw [← this]
      congr 1
      omega
    · intro x hx
      exact hhex x (List.mem_cons_of_mem c hx)
    · calc (16 * init + hexDigitValue c + 1) * 16 ^ cs.length
          ≤ ((init + 1) * 16) * 16 ^ cs.length := Nat.mul_le_mul_right _ (by omega)
        _ ≤ 2 ^ 32 := hpow

/-- The cells of a buffer that holds a line made of a tag, identifier digits,
a length digit and data digits. -/
theorem line_cells (tag ld : Nat) (ids dat : List Nat) (rest : Mem) :
    ofList (tag :: (ids ++ ld :: dat)) rest 0 = tag ∧
    (∀ j, j < ids.length →
      ofList (tag :: (ids ++ ld :: dat)) rest (1 + j) = ids.getD j 0) ∧
    ofList (tag :: (ids ++ ld :: dat)) rest (ids.length + 1) = ld ∧
    (∀ j, j < dat.length →
      ofList (tag :: (ids ++ ld :: dat)) rest (ids.length + 2 + j) = dat.getD j 0) := by
  have hlen : (tag :: (ids ++ ld :: dat)).length = ids.length + dat.length + 2 := by
    simp only [List.length_cons, List.length_append]; omega
  refine ⟨?_, ?_, ?_, ?_⟩
  · rw [ofList_inside _ _ _ (by omega)]
    rfl
  · intro j hj
    rw [ofList_inside _ _ _ (by omega), Nat.add_comm 1 j, List.getD_cons_succ,
      List.getD_append _ _ _ _ hj]
  · rw [ofList_inside _ _ _ (by omega), List.getD_cons_succ,
      List.getD_append_right _ _ _ _ (le_refl _), Nat.sub_self]
    rfl
  · intro j hj
    have e : ids.length + 2 + j = (ids.length + (j + 1)) + 1 := by omega
    rw [ofList_inside _ _ _ (by omega), e, List.getD_cons_succ,
      List.getD_append_right _ _ _ _ (by omega)]
    have e2 : ids.length + (j + 1) - ids.length = j + 1 := by omega
    rw [e2, List.getD_cons_succ]

/-- The conversion of the decoder maps the digit `'0' + n` to `n`. -/
theorem asciiToValue_decimal (n : Nat) (hn : n ≤ 9) : asciiToValue ('0'.toNat + n) = n := by
  unfold asciiToValue
  simp only [Char.reduceToNat]
  split_ifs <;> omega

/-- The count returned by the encoder: tag, identifier digits, the unassigned
cell, the length digit, the data digits and the terminator. -/
theorem slcan_parse_frame_count (cfg : Config) (buf : Mem) (h : CAN_RxHeaderTypeDef) (d : Mem) :
    (slcan_parse_frame cfg buf h d).2 =
      (if h.IDE = CAN_ID_EXT then cfg.SLCAN_EXT_ID_LEN else cfg.SLCAN_STD_ID_LEN) +
        2 * h.DLC + 4 := by
  rw [slcan_parse_frame_eq]
  unfold encoded
  dsimp only
  omega

/-- The first byte written by the encoder depends on `RTR` only. -/
theorem slcan_parse_frame_first (cfg : Config) (buf : Mem) (h : CAN_RxHeaderTypeDef) (d : Mem) :
    (h.RTR = CAN_RTR_DATA → (slcan_parse_frame cfg buf h d).1 0 = 't'.toNat) ∧
    (h.RTR = CAN_RTR_REMOTE → (slcan_parse_frame cfg buf h d).1 0 = 'r'.toNat) := by
  rw [slcan_parse_frame_eq]
  unfold encoded
  constructor
  · intro hr
    by_cases hext : h.IDE = CAN_ID_EXT <;> simp [write, hr, hext] <;> omega
  · intro hr
    have hne : ¬ (CAN_RTR_REMOTE = CAN_RTR_DATA) := by decide
    by_cases hext : h.IDE = CAN_ID_EXT <;> simp [write, hr, hext, hne] <;> omega

/-- The cell after the identifier digits of a standard frame is never assigned
after the clearing, so the encoder leaves the character `0` in it. -/
theorem slcan_parse_frame_gap (cfg : Config) (buf : Mem) (h : CAN_RxHeaderTypeDef) (d : Mem)
    (hstd : h.IDE ≠ CAN_ID_EXT) (hmtu : cfg.SLCAN_STD_ID_LEN + 2 ≤ cfg.SLCAN_MTU) :
    (slcan_parse_frame cfg buf h d).1 (cfg.SLCAN_STD_ID_LEN + 1) = '0'.toNat := by
  rw [slcan_parse_frame_eq]
  unfold encoded
  have h1 : cfg.SLCAN_STD_ID_LEN + 1 < cfg.SLCAN_MTU := by omega
  have h2 : ¬ (cfg.SLCAN_STD_ID_LEN + 1 = cfg.SLCAN_STD_ID_LEN + 3 + 2 * h.DLC) := by omega
  have h3 : cfg.SLCAN_STD_ID_LEN + 1 < cfg.SLCAN_STD_ID_LEN + 3 + 2 * h.DLC := by omega
  by_cases hd : h.RTR = CAN_RTR_DATA
  · simp [write, hstd, h1, h2, h3, hd, nibbleToAscii]
  · have hne : ¬ (CAN_RTR_REMOTE = CAN_RTR_DATA) := by decide
    by_cases hr : h.RTR = CAN_RTR_REMOTE
    · simp [write, hstd, h1, h2, h3, hr, hne, nibbleToAscii]
    · simp [write, hstd, h1, h2, h3, hd, hr, nibbleToAscii]

/-! ## Claims on the encoder -/

/-- C3: the first byte written by `slcan_parse_frame` for an extended frame is
the lower-case letter, `t` for a data frame and `r` for a remote frame, for
all values of the constants, all identifiers, lengths and data: the statement
`buf[msg_position] -= 32` runs after `msg_position` has left cell 0, so the tag
is never turned into `T` or `R`. -/
theorem extended_tag_is_lower_case (cfg : Config) (buf d : Mem) (StdId ExtId DLC : Nat) :
    (slcan_parse_frame cfg buf ⟨StdId, ExtId, CAN_ID_EXT, CAN_RTR_DATA, DLC⟩ d).1 0 = 't'.toNat ∧
    (slcan_parse_frame cfg buf ⟨StdId, ExtId, CAN_ID_EXT, CAN_RTR_REMOTE, DLC⟩ d).1 0 =
      'r'.toNat :=
  ⟨(slcan_parse_frame_first cfg buf ⟨StdId, ExtId, CAN_ID_EXT, CAN_RTR_DATA, DLC⟩ d).1 rfl,
   (slcan_parse_frame_first cfg buf ⟨StdId, ExtId, CAN_ID_EXT, CAN_RTR_REMOTE, DLC⟩ d).2 rfl⟩

/-- C4: the line written by `slcan_parse_frame` has one byte more than the
layout tag, identifier, length digit, data digits, terminator: for all
constants and frames the returned count is `1 + idwidth + 1 + 1 + 2 * n + 1`,
and the standard data frame 0x123 with data AF F0 is written, with a 4-digit
identifier, as `t012302AFF0` and CR (12 bytes, a `0` between identifier and
length digit) and, with a 3-digit identifier, as `t12302AFF0` and CR. -/
theorem encoder_line_has_extra_digit (cfg : Config) (buf d : Mem) (h : CAN_RxHeaderTypeDef) :
    (slcan_parse_frame cfg buf h d).2 =
      1 + (if h.IDE = CAN_ID_EXT then cfg.SLCAN_EXT_ID_LEN else cfg.SLCAN_STD_ID_LEN) + 1 + 1 +
        2 * h.DLC + 1 ∧
    (slcan_parse_frame cfg4 (fun _ => 0) ⟨0x123, 0, CAN_ID_STD, CAN_RTR_DATA, 2⟩
        (ofList [0xAF, 0xF0] fun _ => 0)).2 = 12 ∧
    bytes (slcan_parse_frame cfg4 (fun _ => 0) ⟨0x123, 0, CAN_ID_STD, CAN_RTR_DATA, 2⟩
        (ofList [0xAF, 0xF0] fun _ => 0)).1 12 = ascii "t012302AFF0\r" ∧
    bytes (slcan_parse_frame cfg3 (fun _ => 0) ⟨0x123, 0, CAN_ID_STD, CAN_RTR_DATA, 2⟩
        (ofList [0xAF, 0xF0] fun _ => 0)).1 11 = ascii "t12302AFF0\r" := by
  refine ⟨?_, by decide, by decide, by decide⟩
  rw [slcan_parse_frame_count]
  omega

/-- C5: for the received frame with identifier 0x7FF, standard, remote,
length 0, `slcan_parse_frame` does not write the 6 bytes `r7FF0` CR, whatever
the constants are; with a 3-digit identifier it writes the 7 bytes `r7FF00` CR
and with a 4-digit identifier the 8 bytes `r07FF00` CR. -/
theorem encoder_concrete_line_differs (cfg : Config) (buf d : Mem) :
    ¬ ((slcan_parse_frame cfg buf ⟨0x7FF, 0, CAN_ID_STD, CAN_RTR_REMOTE, 0⟩ d).2 = 6 ∧
        bytes (slcan_parse_frame cfg buf ⟨0x7FF, 0, CAN_ID_STD, CAN_RTR_REMOTE, 0⟩ d).1 6 =
          ascii "r7FF0\r") ∧
    (slcan_parse_frame cfg3 (fun _ => 0) ⟨0x7FF, 0, CAN_ID_STD, CAN_RTR_REMOTE, 0⟩
        (fun _ => 0)).2 = 7 ∧
    bytes (slcan_parse_frame cfg3 (fun _ => 0) ⟨0x7FF, 0, CAN_ID_STD, CAN_RTR_REMOTE, 0⟩
        (fun _ => 0)).1 7 = ascii "r7FF00\r" ∧
    (slcan_parse_frame cfg4 (fun _ => 0) ⟨0x7FF, 0, CAN_ID_STD, CAN_RTR_REMOTE, 0⟩
        (fun _ => 0)).2 = 8 ∧
    bytes (slcan_parse_frame cfg4 (fun _ => 0) ⟨0x7FF, 0, CAN_ID_STD, CAN_RTR_REMOTE, 0⟩
        (fun _ => 0)).1 8 = ascii "r07FF00\r" := by
  refine ⟨?_, by decide, by decide, by decide, by decide⟩
  rintro ⟨hcount, hbytes⟩
  rw [slcan_parse_frame_count] at hcount
  have hne : ¬ (CAN_ID_STD = CAN_ID_EXT) := by decide
  simp only [hne, if_false] at hcount
  have h2 : cfg.SLCAN_STD_ID_LEN = 2 := by omega
  have h1 : (bytes (slcan_parse_frame cfg buf ⟨0x7FF, 0, CAN_ID_STD, CAN_RTR_REMOTE, 0⟩ d).1 6).getD
      1 0 = (ascii "r7FF0\r").getD 1 0 := by rw [hbytes]
  have e : (ascii "r7FF0\r").getD 1 0 = 55 := by decide
  rw [e, slcan_parse_frame_eq] at h1
  have hb : ∀ m : Mem, (bytes m 6).getD 1 0 = m 1 := by intro m; rfl
  rw [hb] at h1
  unfold encoded at h1
  simp [write, hne, h2, nibbleToAscii] at h1

/-- C1: encoding a frame and decoding the line does not give the frame back.
For all constants with room for the line, every standard frame (data or
remote) of length `n >= 1`, and every state whose queue is not full, the line
that `slcan_parse_frame` writes, passed without its CR to `slcan_parse_str`,
returns 0 and enqueues a frame of length 0: the `0` left between identifier and
length digit is read as the length. -/
theorem roundtrip_loses_data (cfg : Config) (st : Firmware) (buf d : Mem)
    (StdId ExtId rtr n : Nat)
    (hrtr : rtr = CAN_RTR_DATA ∨ rtr = CAN_RTR_REMOTE)
    (hn : 1 ≤ n)
    (hmtu : cfg.SLCAN_STD_ID_LEN + 2 ≤ cfg.SLCAN_MTU)
    (hroom : (st.txqueue.head + 1) % cfg.TXQUEUE_LEN ≠ st.txqueue.tail) :
    (slcan_parse_str cfg st
        (slcan_parse_frame cfg buf ⟨StdId, ExtId, CAN_ID_STD, rtr, n⟩ d).1
        ((slcan_parse_frame cfg buf ⟨StdId, ExtId, CAN_ID_STD, rtr, n⟩ d).2 - 1)).1 = 0 ∧
    ((slcan_parse_str cfg st
        (slcan_parse_frame cfg buf ⟨StdId, ExtId, CAN_ID_STD, rtr, n⟩ d).1
        ((slcan_parse_frame cfg buf ⟨StdId, ExtId, CAN_ID_STD, rtr, n⟩ d).2 - 1)).2.1.txqueue.header
          st.txqueue.head).DLC = 0 ∧
    (slcan_parse_str cfg st
        (slcan_parse_frame cfg buf ⟨StdId, ExtId, CAN_ID_STD, rtr, n⟩ d).1
        ((slcan_parse_frame cfg buf ⟨StdId, ExtId, CAN_ID_STD, rtr, n⟩ d).2 - 1)).2.1.txqueue.head =
      (st.txqueue.head + 1) % cfg.TXQUEUE_LEN := by
  have hne : ¬ (CAN_ID_STD = CAN_ID_EXT) := by decide
  have hcount := slcan_parse_frame_count cfg buf ⟨StdId, ExtId, CAN_ID_STD, rtr, n⟩ d
  have hfirst := slcan_parse_frame_first cfg buf ⟨StdId, ExtId, CAN_ID_STD, rtr, n⟩ d
  have hgap := slcan_parse_frame_gap cfg buf ⟨StdId, ExtId, CAN_ID_STD, rtr, n⟩ d hne hmtu
  simp only [hne, if_false] at hcount
  generalize slcan_parse_frame cfg buf ⟨StdId, ExtId, CAN_ID_STD, rtr, n⟩ d = e at *
  have htag : e.1 0 = 't'.toNat ∨ e.1 0 = 'r'.toNat := by
    rcases hrtr with h | h
    · exact Or.inl (hfirst.1 h)
    · exact Or.inr (hfirst.2 h)
  have hmem : e.1 0 ∈ transmitTags := by
    rcases htag with h | h <;> rw [h] <;> decide
  have hL : idLen cfg (e.1 0) = cfg.SLCAN_STD_ID_LEN := by
    rcases htag with h | h <;> rw [h] <;> simp [idLen]
  have hzero : converted e.1 (e.2 - 1) (cfg.SLCAN_STD_ID_LEN + 1) = 0 := by
    rw [converted_inside _ _ _ (by omega) (by omega), hgap]
    decide
  rw [slcan_parse_str_transmit cfg st e.1 (e.2 - 1) hmem, hL, hzero, if_neg (by omega),
    can_tx_ok cfg st _ _ hroom]
  refine ⟨rfl, ?_, rfl⟩
  show (write st.txqueue.header st.txqueue.head _ st.txqueue.head).DLC = 0
  rw [write_same]
  unfold parsedHeader
  rw [hL]
  exact hzero

/-- C1, instance: the standard data frame 0x123 of length 1 with data 0xAB,
constants with a 4-digit identifier, power-on state. -/
theorem roundtrip_loses_data_witness :
    (slcan_parse_str cfg4 Firmware.initial
        (slcan_parse_frame cfg4 (fun _ => 0) ⟨0x123, 0, CAN_ID_STD, CAN_RTR_DATA, 1⟩
          (ofList [0xAB] fun _ => 0)).1
        ((slcan_parse_frame cfg4 (fun _ => 0) ⟨0x123, 0, CAN_ID_STD, CAN_RTR_DATA, 1⟩
          (ofList [0xAB] fun _ => 0)).2 - 1)).1 = 0 ∧
    ((slcan_parse_str cfg4 Firmware.initial
        (slcan_parse_frame cfg4 (fun _ => 0) ⟨0x123, 0, CAN_ID_STD, CAN_RTR_DATA, 1⟩
          (ofList [0xAB] fun _ => 0)).1
        ((slcan_parse_frame cfg4 (fun _ => 0) ⟨0x123, 0, CAN_ID_STD, CAN_RTR_DATA, 1⟩
          (ofList [0xAB] fun _ => 0)).2 - 1)).2.1.txqueue.header
            Firmware.initial.txqueue.head).DLC = 0 :=
  have h := roundtrip_loses_data cfg4 Firmware.initial (fun _ => 0) (ofList [0xAB] fun _ => 0)
    0x123 0 CAN_RTR_DATA 1 (Or.inl rfl) (by decide) (by decide) (by decide)
  ⟨h.1, h.2.1⟩

/-! ## Claims on the decoder -/

/-- C8: for every transmit line (tag `t`, `T`, `r` or `R`) whose length digit,
the byte after the identifier digits, is one of `9`, `A`-`F`, `a`-`f` (a value
above 8), `slcan_parse_str` returns -1 and the firmware state, hence the
transmit queue with its head, tail and every slot, is unchanged. -/
theorem slcan_parse_str_overlength (cfg : Config) (st : Firmware) (buf : Mem) (len : Nat)
    (htag : buf 0 ∈ transmitTags)
    (hlen : idLen cfg (buf 0) + 1 < len)
    (hdigit : buf (idLen cfg (buf 0) + 1) = '9'.toNat ∨
      ('A'.toNat ≤ buf (idLen cfg (buf 0) + 1) ∧ buf (idLen cfg (buf 0) + 1) ≤ 'F'.toNat) ∨
      ('a'.toNat ≤ buf (idLen cfg (buf 0) + 1) ∧ buf (idLen cfg (buf 0) + 1) ≤ 'f'.toNat)) :
    (slcan_parse_str cfg st buf len).1 = -1 ∧
    (slcan_parse_str cfg st buf len).2.1 = st ∧
    (slcan_parse_str cfg st buf len).2.1.txqueue = st.txqueue := by
  rw [slcan_parse_str_transmit cfg st buf len htag,
    converted_inside buf len _ (by omega) hlen, if_pos (asciiToValue_big _ hdigit)]
  exact ⟨rfl, rfl, rfl⟩

/-- C8, instance: the line `t0123912` (length digit 9) on the power-on state. -/
theorem slcan_parse_str_overlength_witness :
    (slcan_parse_str cfg4 Firmware.initial (ofList (ascii "t0123912") fun _ => 0) 8).1 = -1 ∧
    (slcan_parse_str cfg4 Firmware.initial (ofList (ascii "t0123912") fun _ => 0) 8).2.1 =
      Firmware.initial ∧
    (slcan_parse_str cfg4 Firmware.initial (ofList (ascii "t0123912") fun _ => 0) 8).2.1.txqueue =
      Firmware.initial.txqueue :=
  slcan_parse_str_overlength cfg4 Firmware.initial (ofList (ascii "t0123912") fun _ => 0) 8
    (by decide) (by decide) (by decide)

/-- C9: for every line whose first byte is not one of the known command letters
`O C S M m A a V E t T r R`, `slcan_parse_str` returns -1 and the firmware
state is unchanged: bus state, prescaler, mode, autoretransmit setting and
transmit queue are as before, no driver call is made and nothing is sent to the
host. -/
theorem slcan_parse_str_unknown (cfg : Config) (st : Firmware) (buf : Mem) (len : Nat)
    (htag : buf 0 ∉ knownTags) :
    (slcan_parse_str cfg st buf len).1 = -1 ∧
    (slcan_parse_str cfg st buf len).2.1 = st := by
  unfold slcan_parse_str
  simp only [conversion_loop, converted_zero]
  simp only [knownTags, List.mem_cons, List.mem_singleton, List.not_mem_nil, or_false,
    not_or, Char.reduceToNat] at htag
  obtain ⟨h1, h2, h3, h4, h5, h6, h7, h8, h9, h10, h11, h12, h13⟩ := htag
  simp [h1, h2, h3, h4, h5, h6, h7, h8, h9, h10, h11, h12, h13]

/-- C9, instance: the line `X12` on the power-on state. -/
theorem slcan_parse_str_unknown_witness :
    (slcan_parse_str cfg4 Firmware.initial (ofList (ascii "X12") fun _ => 0) 3).1 = -1 ∧
    (slcan_parse_str cfg4 Firmware.initial (ofList (ascii "X12") fun _ => 0) 3).2.1 =
      Firmware.initial :=
  slcan_parse_str_unknown cfg4 Firmware.initial (ofList (ascii "X12") fun _ => 0) 3 (by decide)

/-- The decoder on a set-bitrate command whose selector is rejected. -/
theorem slcan_parse_str_bitrate_rejected (cfg : Config) (st : Firmware) (buf : Mem) (len : Nat)
    (htag : buf 0 = 'S'.toNat) (hsel : CAN_BITRATE_INVALID ≤ converted buf len 1) :
    slcan_parse_str cfg st buf len = (-1, st, converted buf len) := by
  unfold slcan_parse_str
  simp only [conversion_loop, converted_zero, htag]
  simp [hsel]

/-- C7, counterexample: a byte outside `[0-9a-fA-F]` in the identifier digits
(`g` in `T0000012g0`) or in the data digits (a blank in `T000001231 5`) is not
an error: `slcan_parse_str` returns 0 and queues a frame built from the wrapped
values of those bytes. -/
theorem nonhex_digit_accepted :
    (slcan_parse_str cfg4 Firmware.initial (ofList (ascii "T0000012g0") fun _ => 0) 10).1 = 0 ∧
    (slcan_parse_str cfg4 Firmware.initial
        (ofList (ascii "T0000012g0") fun _ => 0) 10).2.1.txqueue.head = 1 ∧
    (slcan_parse_str cfg4 Firmware.initial
        (ofList (ascii "T0000012g0") fun _ => 0) 10).2.1.txqueue.header 0 =
      ⟨0, 0x130, CAN_ID_EXT, CAN_RTR_DATA, 0⟩ ∧
    (slcan_parse_str cfg4 Firmware.initial (ofList (ascii "T000001231 5") fun _ => 0) 12).1 = 0 ∧
    (slcan_parse_str cfg4 Firmware.initial
        (ofList (ascii "T000001231 5") fun _ => 0) 12).2.1.txqueue.head = 1 ∧
    (slcan_parse_str cfg4 Firmware.initial
        (ofList (ascii "T000001231 5") fun _ => 0) 12).2.1.txqueue.header 0 =
      ⟨0, 0x123, CAN_ID_EXT, CAN_RTR_DATA, 1⟩ ∧
    (slcan_parse_str cfg4 Firmware.initial
        (ofList (ascii "T000001231 5") fun _ => 0) 12).2.1.txqueue.data 0 0 = 5 := by
  decide

/-- C7, amended: a byte outside `[0-9a-fA-F]` is an error where the decoder
checks a range, that is in the length digit of a transmit line and in the
bitrate digit of a set-bitrate line: `slcan_parse_str` then returns -1 and the
firmware state (transmit queue, bus configuration, logs) is unchanged. -/
theorem slcan_parse_str_nonhex_checked (cfg : Config) (st : Firmware) (buf : Mem) (len : Nat) :
    (buf 0 ∈ transmitTags → idLen cfg (buf 0) + 1 < len →
      buf (idLen cfg (buf 0) + 1) < 256 → ¬ isHexDigit (buf (idLen cfg (buf 0) + 1)) →
      (slcan_parse_str cfg st buf len).1 = -1 ∧ (slcan_parse_str cfg st buf len).2.1 = st) ∧
    (buf 0 = 'S'.toNat → 1 < len → buf 1 < 256 → ¬ isHexDigit (buf 1) →
      (slcan_parse_str cfg st buf len).1 = -1 ∧ (slcan_parse_str cfg st buf len).2.1 = st) := by
  constructor
  · intro htag hlen hbyte hnon
    have h10 := asciiToValue_nonhex _ hbyte hnon
    rw [slcan_parse_str_transmit cfg st buf len htag,
      converted_inside buf len _ (by omega) hlen, if_pos (by omega)]
    exact ⟨rfl, rfl⟩
  · intro htag hlen hbyte hnon
    have h10 := asciiToValue_nonhex _ hbyte hnon
    rw [slcan_parse_str_bitrate_rejected cfg st buf len htag]
    · exact ⟨rfl, rfl⟩
    · rw [converted_inside buf len 1 (by omega) hlen]
      unfold CAN_BITRATE_INVALID
      omega

/-- C7, amended, instances: the lines `t0123g` (length digit `g`) and `S:`
(bitrate digit `:`) on the power-on state. -/
theorem slcan_parse_str_nonhex_checked_witness :
    ((slcan_parse_str cfg4 Firmware.initial (ofList (ascii "t0123g") fun _ => 0) 6).1 = -1 ∧
      (slcan_parse_str cfg4 Firmware.initial (ofList (ascii "t0123g") fun _ => 0) 6).2.1 =
        Firmware.initial) ∧
    ((slcan_parse_str cfg4 Firmware.initial (ofList (ascii "S:") fun _ => 0) 2).1 = -1 ∧
      (slcan_parse_str cfg4 Firmware.initial (ofList (ascii "S:") fun _ => 0) 2).2.1 =
        Firmware.initial) :=
  ⟨(slcan_parse_str_nonhex_checked cfg4 Firmware.initial
      (ofList (ascii "t0123g") fun _ => 0) 6).1 (by decide) (by decide) (by decide) (by decide),
   (slcan_parse_str_nonhex_checked cfg4 Firmware.initial
      (ofList (ascii "S:") fun _ => 0) 2).2 (by decide) (by decide) (by decide) (by decide)⟩

/-- C6, counterexample: the truncated line `t04631122` (3-digit identifier 046,
length 3, two data bytes) and, for a 4-digit identifier, the truncated line
`t012331122` (identifier 0123, length 3, two data bytes) are accepted:
`slcan_parse_str` returns 0 and queues a frame of length 3 whose third data
byte comes from the buffer content beyond the line.  Read with a 4-digit
identifier, `t04631122` itself returns 0 as well. -/
theorem truncated_line_accepted :
    (slcan_parse_str cfg4 Firmware.initial (ofList (ascii "t04631122") fun _ => 0) 9).1 = 0 ∧
    (slcan_parse_str cfg3 Firmware.initial (ofList (ascii "t04631122") fun _ => 0) 9).1 = 0 ∧
    (slcan_parse_str cfg3 Firmware.initial
        (ofList (ascii "t04631122") fun _ => 0) 9).2.1.txqueue.head = 1 ∧
    (slcan_parse_str cfg3 Firmware.initial
        (ofList (ascii "t04631122") fun _ => 0) 9).2.1.txqueue.header 0 =
      ⟨0x046, 0, CAN_ID_STD, CAN_RTR_DATA, 3⟩ ∧
    bytes ((slcan_parse_str cfg3 Firmware.initial
        (ofList (ascii "t04631122") fun _ => 0) 9).2.1.txqueue.data 0) 3 = [0x11, 0x22, 0] ∧
    (slcan_parse_str cfg4 Firmware.initial (ofList (ascii "t012331122") fun _ => 0) 10).1 = 0 ∧
    (slcan_parse_str cfg4 Firmware.initial
        (ofList (ascii "t012331122") fun _ => 0) 10).2.1.txqueue.head = 1 ∧
    (slcan_parse_str cfg4 Firmware.initial
        (ofList (ascii "t012331122") fun _ => 0) 10).2.1.txqueue.header 0 =
      ⟨0x123, 0, CAN_ID_STD, CAN_RTR_DATA, 3⟩ ∧
    bytes ((slcan_parse_str cfg4 Firmware.initial
        (ofList (ascii "t012331122") fun _ => 0) 10).2.1.txqueue.data 0) 3 = [0x11, 0x22, 0] := by
  decide

/-- C6, amended: a truncated transmit line is not detected.  For every transmit
line (tag `t`, `T`, `r` or `R`) that holds its identifier digits and a length
digit of value `n <= 8` but fewer than `2 * n` data digits, whatever the line
buffer holds beyond `len`, `slcan_parse_str` returns 0 and, when the transmit
queue is not full, queues one frame of length `n`; its data bytes are built
from the cells after the length digit, converted inside the line and as the
buffer holds them beyond `len`: the low nibble of the last data byte is always
such an unconverted buffer byte. -/
theorem slcan_parse_str_truncated (cfg : Config) (st : Firmware) (buf : Mem) (len : Nat)
    (htag : buf 0 ∈ transmitTags)
    (hlen : idLen cfg (buf 0) + 1 < len)
    (hn : asciiToValue (buf (idLen cfg (buf 0) + 1)) ≤ 8)
    (htrunc : len < idLen cfg (buf 0) + 2 + 2 * asciiToValue (buf (idLen cfg (buf 0) + 1))) :
    (slcan_parse_str cfg st buf len).1 = 0 ∧
    ((st.txqueue.head + 1) % cfg.TXQUEUE_LEN ≠ st.txqueue.tail →
      (slcan_parse_str cfg st buf len).2.1.txqueue.head =
        (st.txqueue.head + 1) % cfg.TXQUEUE_LEN ∧
      (slcan_parse_str cfg st buf len).2.1.txqueue.tail = st.txqueue.tail ∧
      ((slcan_parse_str cfg st buf len).2.1.txqueue.header st.txqueue.head).DLC =
        asciiToValue (buf (idLen cfg (buf 0) + 1)) ∧
      (∀ i, i < asciiToValue (buf (idLen cfg (buf 0) + 1)) →
        (slcan_parse_str cfg st buf len).2.1.txqueue.data st.txqueue.head i =
          (converted buf len (idLen cfg (buf 0) + 2 + 2 * i) * 16 +
            converted buf len (idLen cfg (buf 0) + 2 + 2 * i + 1)) % 256) ∧
      (slcan_parse_str cfg st buf len).2.1.txqueue.data st.txqueue.head
          (asciiToValue (buf (idLen cfg (buf 0) + 1)) - 1) =
        (converted buf len
            (idLen cfg (buf 0) + 2 * asciiToValue (buf (idLen cfg (buf 0) + 1))) * 16 +
          buf (idLen cfg (buf 0) + 2 * asciiToValue (buf (idLen cfg (buf 0) + 1)) + 1)) %
            256) := by
  have hc := converted_inside buf len (idLen cfg (buf 0) + 1) (by omega) hlen
  rw [slcan_parse_str_transmit cfg st buf len htag, hc, if_neg (by omega)]
  refine ⟨rfl, ?_⟩
  intro hroom
  rw [can_tx_ok cfg st _ _ hroom]
  generalize hN : asciiToValue (buf (idLen cfg (buf 0) + 1)) = n at *
  have hd : (parsedHeader cfg (buf 0) (converted buf len)).DLC = n := by
    unfold parsedHeader; exact hc
  have hbyte : ∀ i, i < n →
      (if st.txqueue.head = st.txqueue.head ∧
          i < (parsedHeader cfg (buf 0) (converted buf len)).DLC
        then dataBytes (converted buf len) (idLen cfg (buf 0) + 2) n i
        else st.txqueue.data st.txqueue.head i) =
      (converted buf len (idLen cfg (buf 0) + 2 + 2 * i) * 16 +
        converted buf len (idLen cfg (buf 0) + 2 + 2 * i + 1)) % 256 := by
    intro i hi
    rw [hd, if_pos ⟨rfl, hi⟩]
    unfold dataBytes
    rw [if_pos hi]
  refine ⟨rfl, rfl, ?_, ?_, ?_⟩
  · show (write st.txqueue.header st.txqueue.head _ st.txqueue.head).DLC = n
    rw [write_same]
    exact hd
  · exact hbyte
  · have h1 := hbyte (n - 1) (by omega)
    have e1 : idLen cfg (buf 0) + 2 + 2 * (n - 1) = idLen cfg (buf 0) + 2 * n := by omega
    rw [e1] at h1
    rw [converted_outside buf len (idLen cfg (buf 0) + 2 * n + 1) (by omega)] at h1
    exact h1

/-- C6, amended, instance: the truncated line `t04631122` with a 3-digit
identifier, on the power-on state and a zeroed line buffer. -/
theorem slcan_parse_str_truncated_witness :
    (slcan_parse_str cfg3 Firmware.initial (ofList (ascii "t04631122") fun _ => 0) 9).1 = 0 ∧
    ((slcan_parse_str cfg3 Firmware.initial
        (ofList (ascii "t04631122") fun _ => 0) 9).2.1.txqueue.header
          Firmware.initial.txqueue.head).DLC =
      asciiToValue ((ofList (ascii "t04631122") fun _ => 0)
        (idLen cfg3 ((ofList (ascii "t04631122") fun _ => 0) 0) + 1)) :=
  have h := slcan_parse_str_truncated cfg3 Firmware.initial
    (ofList (ascii "t04631122") fun _ => 0) 9 (by decide) (by decide) (by decide) (by decide)
  ⟨h.1, (h.2 (by decide)).2.2.1⟩

/-- C2, counterexample: on a full transmit queue (capacity 8, seven frames
queued since power-on) the well-formed line `t01232AFF0` returns 0 but no frame
is enqueued: head, tail and the slot at head are as before. -/
theorem wellformed_line_dropped_when_full :
    (slcan_parse_str cfg4
        (can_tx_seq cfg4 Firmware.initial
          (List.replicate 7 (⟨0x7FF, 0, CAN_ID_STD, CAN_RTR_DATA, 0⟩, fun _ => 0))).2
        (ofList (ascii "t01232AFF0") fun _ => 0) 10).1 = 0 ∧
    (slcan_parse_str cfg4
        (can_tx_seq cfg4 Firmware.initial
          (List.replicate 7 (⟨0x7FF, 0, CAN_ID_STD, CAN_RTR_DATA, 0⟩, fun _ => 0))).2
        (ofList (ascii "t01232AFF0") fun _ => 0) 10).2.1.txqueue.head = 7 ∧
    (slcan_parse_str cfg4
        (can_tx_seq cfg4 Firmware.initial
          (List.replicate 7 (⟨0x7FF, 0, CAN_ID_STD, CAN_RTR_DATA, 0⟩, fun _ => 0))).2
        (ofList (ascii "t01232AFF0") fun _ => 0) 10).2.1.txqueue.tail = 0 ∧
    (can_tx_seq cfg4 Firmware.initial
        (List.replicate 7 (⟨0x7FF, 0, CAN_ID_STD, CAN_RTR_DATA, 0⟩, fun _ => 0))).2.txqueue.head
      = 7 ∧
    (slcan_parse_str cfg4
        (can_tx_seq cfg4 Firmware.initial
          (List.replicate 7 (⟨0x7FF, 0, CAN_ID_STD, CAN_RTR_DATA, 0⟩, fun _ => 0))).2
        (ofList (ascii "t01232AFF0") fun _ => 0) 10).2.1.txqueue.header 7 =
      ⟨0, 0, 0, 0, 0⟩ ∧
    (slcan_parse_str cfg4
        (can_tx_seq cfg4 Firmware.initial
          (List.replicate 7 (⟨0x7FF, 0, CAN_ID_STD, CAN_RTR_DATA, 0⟩, fun _ => 0))).2
        (ofList (ascii "t01232AFF0") fun _ => 0) 10).2.1.errors =
      [error_flag.ERR_FULLBUF_CANTX] := by
  decide

/-- C2, amended: with identifiers of 4 (standard) and 8 (extended) digits, for
every line made of a tag in `t T r R`, the identifier digits, one length digit
`n <= 8` and exactly `2 * n` data digits, all digits in `[0-9a-fA-F]`,
`slcan_parse_str` returns 0.  When the transmit queue is not full it enqueues
exactly one frame in slot `head`: extended iff the tag is upper case, remote
iff the letter is `r` or `R`, identifier the base-16 value of the identifier
digits, length `n`, data byte `i` equal to `16 * digit (2 i) + digit (2 i + 1)`;
the other slots and `tail` are unchanged and `head` advances by one modulo the
capacity.  When the transmit queue is full nothing is enqueued: the queue is
unchanged. -/
theorem slcan_parse_str_wellformed (cfg : Config) (st : Firmware)
    (tag n : Nat) (ids dat : List Nat) (rest : Mem)
    (hstd : cfg.SLCAN_STD_ID_LEN = 4) (hext : cfg.SLCAN_EXT_ID_LEN = 8)
    (htag : tag ∈ transmitTags)
    (hids : ids.length = if tag = 'T'.toNat ∨ tag = 'R'.toNat then 8 else 4)
    (hidhex : ∀ c ∈ ids, isHexDigit c)
    (hn : n ≤ 8)
    (hdat : dat.length = 2 * n)
    (hdathex : ∀ c ∈ dat, isHexDigit c) :
    (slcan_parse_str cfg st (ofList (tag :: (ids ++ ('0'.toNat + n) :: dat)) rest)
        (tag :: (ids ++ ('0'.toNat + n) :: dat)).length).1 = 0 ∧
    ((st.txqueue.head + 1) % cfg.TXQUEUE_LEN ≠ st.txqueue.tail →
      (slcan_parse_str cfg st (ofList (tag :: (ids ++ ('0'.toNat + n) :: dat)) rest)
          (tag :: (ids ++ ('0'.toNat + n) :: dat)).length).2.1.txqueue.header st.txqueue.head =
        { StdId := if tag = 'T'.toNat ∨ tag = 'R'.toNat then 0 else hexValue ids
          ExtId := if tag = 'T'.toNat ∨ tag = 'R'.toNat then hexValue ids else 0
          IDE := if tag = 'T'.toNat ∨ tag = 'R'.toNat then CAN_ID_EXT else CAN_ID_STD
          RTR := if tag = 'T'.toNat ∨ tag = 't'.toNat then CAN_RTR_DATA else CAN_RTR_REMOTE
          DLC := n } ∧
      (∀ i, i < n →
        (slcan_parse_str cfg st (ofList (tag :: (ids ++ ('0'.toNat + n) :: dat)) rest)
          (tag :: (ids ++ ('0'.toNat + n) :: dat)).length).2.1.txqueue.data st.txqueue.head i =
          16 * hexDigitValue (dat.getD (2 * i) 0) + hexDigitValue (dat.getD (2 * i + 1) 0)) ∧
      (∀ slot, slot ≠ st.txqueue.head →
        (slcan_parse_str cfg st (ofList (tag :: (ids ++ ('0'.toNat + n) :: dat)) rest)
          (tag :: (ids ++ ('0'.toNat + n) :: dat)).length).2.1.txqueue.header slot =
            st.txqueue.header slot ∧
        (slcan_parse_str cfg st (ofList (tag :: (ids ++ ('0'.toNat + n) :: dat)) rest)
          (tag :: (ids ++ ('0'.toNat + n) :: dat)).length).2.1.txqueue.data slot =
            st.txqueue.data slot) ∧
      (slcan_parse_str cfg st (ofList (tag :: (ids ++ ('0'.toNat + n) :: dat)) rest)
          (tag :: (ids ++ ('0'.toNat + n) :: dat)).length).2.1.txqueue.head =
        (st.txqueue.head + 1) % cfg.TXQUEUE_LEN ∧
      (slcan_parse_str cfg st (ofList (tag :: (ids ++ ('0'.toNat + n) :: dat)) rest)
          (tag :: (ids ++ ('0'.toNat + n) :: dat)).length).2.1.txqueue.tail =
        st.txqueue.tail) ∧
    ((st.txqueue.head + 1) % cfg.TXQUEUE_LEN = st.txqueue.tail →
      (slcan_parse_str cfg st (ofList (tag :: (ids ++ ('0'.toNat + n) :: dat)) rest)
          (tag :: (ids ++ ('0'.toNat + n) :: dat)).length).2.1.txqueue = st.txqueue) := by
  obtain ⟨c0, cid, cld, cdat⟩ := line_cells tag ('0'.toNat + n) ids dat rest
  generalize hbuf : ofList (tag :: (ids ++ ('0'.toNat + n) :: dat)) rest = buf at *
  have hlen : (tag :: (ids ++ ('0'.toNat + n) :: dat)).length = ids.length + 2 * n + 2 := by
    simp only [List.length_cons, List.length_append]; omega
  rw [hlen]
  generalize hl : ids.length + 2 * n + 2 = len at *
  have hL : idLen cfg (buf 0) = ids.length := by
    rw [c0, hids]; unfold idLen; rw [hstd, hext]
  have hL8 : ids.length ≤ 8 := by rw [hids]; split_ifs <;> omega
  -- the converted cells
  have kid : ∀ j, j < ids.length →
      converted buf len (1 + j) = hexDigitValue (ids.getD j 0) := by
    intro j hj
    rw [converted_inside buf len _ (by omega) (by omega), cid j hj]
    exact (asciiToValue_hex _ (hidhex _ (by
      rw [List.getD_eq_getElem _ _ hj]; exact List.getElem_mem _))).1
  have kld : converted buf len (ids.length + 1) = n := by
    rw [converted_inside buf len _ (by omega) (by omega), cld]
    exact asciiToValue_decimal n (by omega)
  have kdat : ∀ j, j < dat.length →
      converted buf len (ids.length + 2 + j) = hexDigitValue (dat.getD j 0) ∧
      hexDigitValue (dat.getD j 0) < 16 := by
    intro j hj
    rw [converted_inside buf len _ (by omega) (by omega), cdat j hj]
    exact asciiToValue_hex _ (hdathex _ (by
      rw [List.getD_eq_getElem _ _ hj]; exact List.getElem_mem _))
  have kacc : idAccum (converted buf len) ids.length 0 = hexValue ids := by
    unfold idAccum hexValue
    apply forUp_id_digits
    · exact kid
    · intro c hc; exact (asciiToValue_hex c (hidhex c hc)).2
    · calc (0 + 1) * 16 ^ ids.length = 16 ^ ids.length := by ring
        _ ≤ 16 ^ 8 := Nat.pow_le_pow_right (by norm_num) hL8
        _ = 2 ^ 32 := by norm_num
  have hbuf0 : buf 0 ∈ transmitTags := by rw [c0]; exact htag
  rw [slcan_parse_str_transmit cfg st buf len hbuf0, hL, kld, if_neg (by omega)]
  refine ⟨rfl, ?_, ?_⟩
  · intro hroom
    rw [can_tx_ok cfg st _ _ hroom]
    refine ⟨?_, ?_, ?_, rfl, rfl⟩
    · show write st.txqueue.header st.txqueue.head _ st.txqueue.head = _
      rw [write_same]
      unfold parsedHeader
      rw [hL, kld, c0]
      by_cases hup : tag = 'T'.toNat ∨ tag = 'R'.toNat
      · have e8 : cfg.SLCAN_EXT_ID_LEN = ids.length := by rw [hids, if_pos hup, hext]
        simp only [if_pos hup]
        rw [e8, kacc]
      · have e4 : cfg.SLCAN_STD_ID_LEN = ids.length := by rw [hids, if_neg hup, hstd]
        simp only [if_neg hup]
        rw [e4, kacc]
    · intro i hi
      show (if st.txqueue.head = st.txqueue.head ∧
          i < (parsedHeader cfg (buf 0) (converted buf len)).DLC
          then dataBytes (converted buf len) (ids.length + 2) n i else _) = _
      have hd : (parsedHeader cfg (buf 0) (converted buf len)).DLC = n := by
        unfold parsedHeader; rw [hL]; exact kld
      rw [hd, if_pos ⟨rfl, hi⟩]
      unfold dataBytes
      rw [if_pos hi]
      have h1 := kdat (2 * i) (by omega)
      have h2 := kdat (2 * i + 1) (by omega)
      rw [h1.1, show ids.length + 2 + 2 * i + 1 = ids.length + 2 + (2 * i + 1) by omega, h2.1]
      omega
    · intro slot hslot
      constructor
      · show write st.txqueue.header st.txqueue.head _ slot = _
        rw [write_other _ _ _ _ hslot]
      · funext k
        show (if slot = st.txqueue.head ∧ _ then _ else st.txqueue.data slot k) = _
        rw [if_neg (fun h => hslot h.1)]
  · intro hfull
    rw [can_tx_full cfg st _ _ hfull]
    rfl

/-- C2, amended, instance: the line `t01232AFF0` on the power-on state enqueues
the standard data frame with identifier 0x123, length 2 and data 0xAF 0xF0. -/
theorem slcan_parse_str_wellformed_witness :
    (slcan_parse_str cfg4 Firmware.initial (ofList (ascii "t01232AFF0") fun _ => 0) 10).1 = 0 ∧
    (slcan_parse_str cfg4 Firmware.initial
        (ofList (ascii "t01232AFF0") fun _ => 0) 10).2.1.txqueue.header 0 =
      ⟨0x123, 0, CAN_ID_STD, CAN_RTR_DATA, 2⟩ ∧
    (slcan_parse_str cfg4 Firmware.initial
        (ofList (ascii "t01232AFF0") fun _ => 0) 10).2.1.txqueue.data 0 0 = 0xAF ∧
    (slcan_parse_str cfg4 Firmware.initial
        (ofList (ascii "t01232AFF0") fun _ => 0) 10).2.1.txqueue.data 0 1 = 0xF0 ∧
    (slcan_parse_str cfg4 Firmware.initial
        (ofList (ascii "t01232AFF0") fun _ => 0) 10).2.1.txqueue.head = 1 :=
  have h := slcan_parse_str_wellformed cfg4 Firmware.initial 't'.toNat 2 (ascii "0123")
    (ascii "AFF0") (fun _ => 0) rfl rfl (by decide) (by decide) (by decide) (by decide)
    (by decide) (by decide)
  have hq := h.2.1 (by decide)
  ⟨h.1, hq.1, hq.2.1 0 (by decide), hq.2.1 1 (by decide), hq.2.2.2.1⟩

/-! ## Claims on the transmit queue -/

/-- C10: for a queue of capacity `C = TXQUEUE_LEN > 1` that starts empty
(`head = tail`, an index below `C`), consecutive calls of `can_tx` with no
dequeue in between return `HAL_OK` for the first `C - 1` frames and `HAL_ERROR`
for every later one, and the failing calls leave the queue (head, tail, every
header and data byte) as the first `C - 1` calls left it.  Moreover, in every
state, `can_tx` fails iff `(head + 1) mod C = tail`, a failing call leaves the
queue unchanged, and a succeeding call stores the header and the first `DLC`
data bytes in slot `head`, leaves every other slot alone, keeps `tail` and sets
`head` to `(head + 1) mod C`. -/
theorem can_tx_capacity (cfg : Config) (st : Firmware)
    (hC : 1 < cfg.TXQUEUE_LEN)
    (hempty : st.txqueue.head = st.txqueue.tail)
    (hidx : st.txqueue.head < cfg.TXQUEUE_LEN) :
    (∀ frames : List (CAN_TxHeaderTypeDef × Mem),
      (can_tx_seq cfg st frames).1 =
          List.replicate (min (cfg.TXQUEUE_LEN - 1) frames.length) HAL_StatusTypeDef.HAL_OK ++
          List.replicate (frames.length - (cfg.TXQUEUE_LEN - 1)) HAL_StatusTypeDef.HAL_ERROR ∧
      (can_tx_seq cfg st frames).2.txqueue =
        (can_tx_seq cfg st (frames.take (cfg.TXQUEUE_LEN - 1))).2.txqueue) ∧
    (∀ (s : Firmware) (h : CAN_TxHeaderTypeDef) (d : Mem),
      ((can_tx cfg s h d).1 = HAL_StatusTypeDef.HAL_ERROR ↔
        (s.txqueue.head + 1) % cfg.TXQUEUE_LEN = s.txqueue.tail) ∧
      ((s.txqueue.head + 1) % cfg.TXQUEUE_LEN = s.txqueue.tail →
        (can_tx cfg s h d).2.txqueue = s.txqueue) ∧
      ((s.txqueue.head + 1) % cfg.TXQUEUE_LEN ≠ s.txqueue.tail →
        (can_tx cfg s h d).1 = HAL_StatusTypeDef.HAL_OK ∧
        (can_tx cfg s h d).2.txqueue.header s.txqueue.head = h ∧
        (∀ i, i < h.DLC → (can_tx cfg s h d).2.txqueue.data s.txqueue.head i = d i) ∧
        (∀ slot, slot ≠ s.txqueue.head →
          (can_tx cfg s h d).2.txqueue.header slot = s.txqueue.header slot ∧
          (can_tx cfg s h d).2.txqueue.data slot = s.txqueue.data slot) ∧
        (can_tx cfg s h d).2.txqueue.head = (s.txqueue.head + 1) % cfg.TXQUEUE_LEN ∧
        (can_tx cfg s h d).2.txqueue.tail = s.txqueue.tail)) := by
  constructor
  · intro frames
    have hh : st.txqueue.head = (st.txqueue.tail + 0) % cfg.TXQUEUE_LEN := by
      rw [Nat.add_zero, ← hempty, Nat.mod_eq_of_lt hidx]
    have := can_tx_seq_from cfg frames st 0 (by omega) hC (by omega) hh
    simpa using this
  · intro s h d
    by_cases hf : (s.txqueue.head + 1) % cfg.TXQUEUE_LEN = s.txqueue.tail
    · rw [can_tx_full cfg s h d hf]
      refine ⟨?_, ?_, ?_⟩
      · simp [hf]
      · intro _; rfl
      · intro hne; exact absurd hf hne
    · rw [can_tx_ok cfg s h d hf]
      refine ⟨?_, ?_, ?_⟩
      · simp [hf]
      · intro he; exact absurd he hf
      · intro _
        refine ⟨rfl, ?_, ?_, ?_, rfl, rfl⟩
        · simp [write]
        · intro i hi
          simp [hi]
        · intro slot hslot
          constructor
          · simp [write, hslot]
          · funext k
            simp [hslot]

/-- C10, instance: with capacity 8, nineteen consecutive enqueues into the
empty power-on queue succeed seven times and then fail twelve times. -/
theorem can_tx_capacity_witness :
    (1 < cfg4.TXQUEUE_LEN ∧
      Firmware.initial.txqueue.head = Firmware.initial.txqueue.tail ∧
      Firmware.initial.txqueue.head < cfg4.TXQUEUE_LEN) ∧
    (can_tx_seq cfg4 Firmware.initial
        (List.replicate 19 (⟨0x123, 0, CAN_ID_STD, CAN_RTR_DATA, 2⟩, ofList [0xAF, 0xF0] fun _ => 0))).1 =
      List.replicate 7 HAL_StatusTypeDef.HAL_OK ++ List.replicate 12 HAL_StatusTypeDef.HAL_ERROR :=
  ⟨⟨by decide, rfl, by decide⟩,
    ((can_tx_capacity cfg4 Firmware.initial (by decide) rfl (by decide)).1 _).1⟩

/-! ## Claims on the bus controller -/

/-- C12: while the bus state is `ON_BUS`, `can_set_bitrate`, `can_set_silent`
and `can_set_autoretransmit` leave the whole state as it is, for every
argument: prescaler, configured mode, autoretransmit setting, bus state and
transmit queue are unchanged (and no driver or LED call is made). -/
theorem policy_lock (st : Firmware) (bitrate silent autoretransmit : Nat)
    (hup : st.bus_state = .ON_BUS) :
    can_set_bitrate st bitrate = st ∧
    can_set_silent st silent = st ∧
    can_set_autoretransmit st autoretransmit = st := by
  unfold can_set_bitrate can_set_silent can_set_autoretransmit
  simp only [hup, if_true, and_self]

/-- C12, instance: the three setters after `can_enable` from power-on. -/
theorem policy_lock_witness :
    (can_enable Firmware.initial).bus_state = .ON_BUS ∧
    can_set_bitrate (can_enable Firmware.initial) 1 = can_enable Firmware.initial ∧
    can_set_silent (can_enable Firmware.initial) 1 = can_enable Firmware.initial ∧
    can_set_autoretransmit (can_enable Firmware.initial) 0 = can_enable Firmware.initial :=
  ⟨by decide, policy_lock (can_enable Firmware.initial) 1 1 0 (by decide)⟩

/-- What `can_enable` does off the bus. -/
theorem can_enable_off (st : Firmware) (hoff : st.bus_state = .OFF_BUS) :
    (can_enable st).bus_state = .ON_BUS ∧
    (can_enable st).driver = st.driver ++
      [DriverCall.HAL_CAN_Init (can_enable st).can_handle_Init,
       DriverCall.HAL_CAN_ConfigFilter, DriverCall.HAL_CAN_Start] ∧
    (can_enable st).can_handle_Init.Prescaler = st.prescaler ∧
    (can_enable st).can_handle_Init.Mode = .CAN_MODE_NORMAL ∧
    (can_enable st).can_handle_Init.AutoRetransmission = st.can_autoretransmit := by
  unfold can_enable
  simp [hoff, led_blue_on]

/-- What `can_enable` does on the bus. -/
theorem can_enable_on (st : Firmware) (hon : st.bus_state = .ON_BUS) : can_enable st = st := by
  unfold can_enable
  simp [hon]

/-- What `can_disable` does on the bus. -/
theorem can_disable_on (st : Firmware) (hon : st.bus_state = .ON_BUS) :
    (can_disable st).bus_state = .OFF_BUS ∧
    (can_disable st).driver = st.driver ++ [DriverCall.CAN_MCR_RESET] := by
  unfold can_disable
  simp [hon, led_green_on]

/-- What `can_disable` does off the bus. -/
theorem can_disable_off (st : Firmware) (hoff : st.bus_state = .OFF_BUS) :
    can_disable st = st := by
  unfold can_disable
  simp [hoff]

/-- The decoder on the line `O`. -/
theorem slcan_parse_str_open (cfg : Config) (st : Firmware) (buf : Mem) (len : Nat)
    (htag : buf 0 = 'O'.toNat) :
    slcan_parse_str cfg st buf len = (0, can_enable st, converted buf len) := by
  unfold slcan_parse_str
  simp only [conversion_loop, converted_zero, htag]
  simp

/-- C13: from any state, `can_enable` twice gives the same state, driver log
included, as `can_enable` once: the init, filter, start sequence is issued
once when starting off the bus and not at all when starting on the bus.
Likewise `can_disable` twice equals `can_disable` once, with one peripheral
reset when starting on the bus and none otherwise.  The line `O` received off
the bus returns 0, moves the state to `ON_BUS` and issues driver init, filter
and start once. -/
theorem open_close_idempotent (cfg : Config) (st : Firmware) :
    can_enable (can_enable st) = can_enable st ∧
    can_disable (can_disable st) = can_disable st ∧
    (st.bus_state = .OFF_BUS →
      (can_enable st).bus_state = .ON_BUS ∧
      (can_enable st).driver = st.driver ++
        [DriverCall.HAL_CAN_Init (can_enable st).can_handle_Init,
         DriverCall.HAL_CAN_ConfigFilter, DriverCall.HAL_CAN_Start] ∧
      can_disable st = st) ∧
    (st.bus_state = .ON_BUS →
      can_enable st = st ∧
      (can_disable st).bus_state = .OFF_BUS ∧
      (can_disable st).driver = st.driver ++ [DriverCall.CAN_MCR_RESET]) ∧
    (∀ (buf : Mem) (len : Nat), buf 0 = 'O'.toNat → st.bus_state = .OFF_BUS →
      (slcan_parse_str cfg st buf len).1 = 0 ∧
      (slcan_parse_str cfg st buf len).2.1.bus_state = .ON_BUS ∧
      (slcan_parse_str cfg st buf len).2.1.driver = st.driver ++
        [DriverCall.HAL_CAN_Init (can_enable st).can_handle_Init,
         DriverCall.HAL_CAN_ConfigFilter, DriverCall.HAL_CAN_Start]) := by
  refine ⟨?_, ?_, ?_, ?_, ?_⟩
  · cases hb : st.bus_state
    · exact can_enable_on _ (can_enable_off st hb).1
    · rw [can_enable_on st hb, can_enable_on st hb]
  · cases hb : st.bus_state
    · rw [can_disable_off st hb, can_disable_off st hb]
    · exact can_disable_off _ (can_disable_on st hb).1
  · intro hoff
    exact ⟨(can_enable_off st hoff).1, (can_enable_off st hoff).2.1, can_disable_off st hoff⟩
  · intro hon
    exact ⟨can_enable_on st hon, can_disable_on st hon⟩
  · intro buf len htag hoff
    rw [slcan_parse_str_open cfg st buf len htag]
    exact ⟨rfl, (can_enable_off st hoff).1, (can_enable_off st hoff).2.1⟩

/-- C13, instance: the line `O` at power-on (bus off) and a second `can_enable`
after it. -/
theorem open_close_idempotent_witness :
    ((slcan_parse_str cfg4 Firmware.initial (ofList (ascii "O") fun _ => 0) 1).1 = 0 ∧
      (slcan_parse_str cfg4 Firmware.initial
        (ofList (ascii "O") fun _ => 0) 1).2.1.bus_state = .ON_BUS ∧
      (slcan_parse_str cfg4 Firmware.initial (ofList (ascii "O") fun _ => 0) 1).2.1.driver =
        Firmware.initial.driver ++
          [DriverCall.HAL_CAN_Init (can_enable Firmware.initial).can_handle_Init,
           DriverCall.HAL_CAN_ConfigFilter, DriverCall.HAL_CAN_Start]) ∧
    (can_enable (can_enable Firmware.initial)).driver = (can_enable Firmware.initial).driver :=
  ⟨(open_close_idempotent cfg4 Firmware.initial).2.2.2.2 (ofList (ascii "O") fun _ => 0) 1
      (by decide) (by decide),
   congrArg Firmware.driver (open_close_idempotent cfg4 Firmware.initial).1⟩

/-- C14: `can_enable` does not apply the mode selected by `can_set_silent`.
For every state off the bus and every argument of `can_set_silent`, also a
non-zero one, the configuration handed to `HAL_CAN_Init` by the following
`can_enable` has mode `CAN_MODE_NORMAL`; its prescaler and automatic
retransmission are the stored `prescaler` and `can_autoretransmit`. -/
theorem open_overwrites_mode (st : Firmware) (silent : Nat) (hoff : st.bus_state = .OFF_BUS) :
    (can_enable (can_set_silent st silent)).driver =
      (can_set_silent st silent).driver ++
        [DriverCall.HAL_CAN_Init (can_enable (can_set_silent st silent)).can_handle_Init,
         DriverCall.HAL_CAN_ConfigFilter, DriverCall.HAL_CAN_Start] ∧
    (can_enable (can_set_silent st silent)).can_handle_Init.Mode = .CAN_MODE_NORMAL ∧
    (can_enable (can_set_silent st silent)).can_handle_Init.Prescaler = st.prescaler ∧
    (can_enable (can_set_silent st silent)).can_handle_Init.AutoRetransmission =
      st.can_autoretransmit ∧
    (silent ≠ 0 → (can_set_silent st silent).can_handle_Init.Mode = .CAN_MODE_SILENT) := by
  have hs : (can_set_silent st silent).bus_state = .OFF_BUS ∧
      (can_set_silent st silent).prescaler = st.prescaler ∧
      (can_set_silent st silent).can_autoretransmit = st.can_autoretransmit := by
    unfold can_set_silent
    by_cases h0 : silent = 0 <;> simp [hoff, h0, led_green_on]
  have he := can_enable_off (can_set_silent st silent) hs.1
  refine ⟨he.2.1, he.2.2.2.1, ?_, ?_, ?_⟩
  · rw [he.2.2.1, hs.2.1]
  · rw [he.2.2.2.2, hs.2.2]
  · intro h0
    unfold can_set_silent
    simp [hoff, h0, led_green_on]

/-- C14, instance: `can_set_silent(1)` then `can_enable` from power-on starts
the driver in normal mode. -/
theorem open_overwrites_mode_witness :
    Firmware.initial.bus_state = .OFF_BUS ∧
    (can_enable (can_set_silent Firmware.initial 1)).can_handle_Init.Mode = .CAN_MODE_NORMAL ∧
    (can_set_silent Firmware.initial 1).can_handle_Init.Mode = .CAN_MODE_SILENT :=
  ⟨rfl, (open_overwrites_mode Firmware.initial 1 rfl).2.1,
    (open_overwrites_mode Firmware.initial 1 rfl).2.2.2.2 (by decide)⟩

/-- What `can_set_bitrate` does off the bus, apart from the prescaler. -/
theorem can_set_bitrate_off (st : Firmware) (bitrate : Nat) (hoff : st.bus_state = .OFF_BUS) :
    (can_set_bitrate st bitrate).driver = st.driver ∧
    (can_set_bitrate st bitrate).bus_state = .OFF_BUS ∧
    (can_set_bitrate st bitrate).txqueue = st.txqueue := by
  unfold can_set_bitrate
  simp [hoff, led_green_on]

/-- The prescaler that `can_set_bitrate` selects off the bus for a selector
outside the table. -/
theorem can_set_bitrate_default (st : Firmware) (bitrate : Nat)
    (hoff : st.bus_state = .OFF_BUS) (hbig : 8 < bitrate) :
    (can_set_bitrate st bitrate).prescaler = 6 := by
  obtain ⟨n, rfl⟩ : ∃ n, bitrate = n + 9 := ⟨bitrate - 9, by omega⟩
  unfold can_set_bitrate
  simp [hoff, led_green_on]

/-- The decoder on a set-bitrate command whose selector is accepted. -/
theorem slcan_parse_str_bitrate_accepted (cfg : Config) (st : Firmware) (buf : Mem) (len : Nat)
    (htag : buf 0 = 'S'.toNat) (hsel : converted buf len 1 < CAN_BITRATE_INVALID) :
    slcan_parse_str cfg st buf len =
      (0, can_set_bitrate st (converted buf len 1), converted buf len) := by
  unfold slcan_parse_str
  simp only [conversion_loop, converted_zero, htag]
  have h : ¬ (converted buf len 1 ≥ CAN_BITRATE_INVALID) := by omega
  simp [h]

/-- C15: off the bus, `can_set_bitrate` with selector 0, 1, ..., 8 sets the
prescaler to 600, 300, 120, 60, 48, 24, 12, 8, 6 and with any other selector
to 6; it makes no driver call and leaves the bus state `OFF_BUS`.  The line
`S1` received off the bus returns 0 and sets the prescaler to 300, with no
driver call. -/
theorem bitrate_table (cfg : Config) (st : Firmware) (hoff : st.bus_state = .OFF_BUS) :
    (can_set_bitrate st 0).prescaler = 600 ∧
    (can_set_bitrate st 1).prescaler = 300 ∧
    (can_set_bitrate st 2).prescaler = 120 ∧
    (can_set_bitrate st 3).prescaler = 60 ∧
    (can_set_bitrate st 4).prescaler = 48 ∧
    (can_set_bitrate st 5).prescaler = 24 ∧
    (can_set_bitrate st 6).prescaler = 12 ∧
    (can_set_bitrate st 7).prescaler = 8 ∧
    (can_set_bitrate st 8).prescaler = 6 ∧
    (∀ bitrate, 8 < bitrate → (can_set_bitrate st bitrate).prescaler = 6) ∧
    (∀ bitrate, (can_set_bitrate st bitrate).driver = st.driver ∧
      (can_set_bitrate st bitrate).bus_state = .OFF_BUS) ∧
    (∀ (buf : Mem) (len : Nat), buf 0 = 'S'.toNat → buf 1 = '1'.toNat → 2 ≤ len →
      (slcan_parse_str cfg st buf len).1 = 0 ∧
      (slcan_parse_str cfg st buf len).2.1.prescaler = 300 ∧
      (slcan_parse_str cfg st buf len).2.1.driver = st.driver ∧
      (slcan_parse_str cfg st buf len).2.1.bus_state = .OFF_BUS) := by
  have hp : ∀ b, (can_set_bitrate st b).prescaler =
      (match b with
        | 0 => 600 | 1 => 300 | 2 => 120 | 3 => 60 | 4 => 48
        | 5 => 24 | 6 => 12 | 7 => 8 | 8 => 6 | _ => 6) := by
    intro b
    unfold can_set_bitrate
    simp [hoff, led_green_on]
  refine ⟨hp 0, hp 1, hp 2, hp 3, hp 4, hp 5, hp 6, hp 7, hp 8, ?_, ?_, ?_⟩
  · intro b hb
    exact can_set_bitrate_default st b hoff hb
  · intro b
    exact ⟨(can_set_bitrate_off st b hoff).1, (can_set_bitrate_off st b hoff).2.1⟩
  · intro buf len htag hdigit hlen
    have hc : converted buf len 1 = 1 := by
      rw [converted_inside buf len 1 (le_refl 1) (by omega), hdigit]
      decide
    rw [slcan_parse_str_bitrate_accepted cfg st buf len htag (by rw [hc]; decide), hc]
    exact ⟨rfl, hp 1, (can_set_bitrate_off st 1 hoff).1, (can_set_bitrate_off st 1 hoff).2.1⟩

/-- C15, instance: the line `S1` at power-on. -/
theorem bitrate_table_witness :
    Firmware.initial.bus_state = .OFF_BUS ∧
    (slcan_parse_str cfg4 Firmware.initial (ofList (ascii "S1") fun _ => 0) 2).1 = 0 ∧
    (slcan_parse_str cfg4 Firmware.initial (ofList (ascii "S1") fun _ => 0) 2).2.1.prescaler =
      300 ∧
    (slcan_parse_str cfg4 Firmware.initial (ofList (ascii "S1") fun _ => 0) 2).2.1.driver =
      Firmware.initial.driver ∧
    (slcan_parse_str cfg4 Firmware.initial (ofList (ascii "S1") fun _ => 0) 2).2.1.bus_state =
      .OFF_BUS :=
  ⟨rfl, (bitrate_table cfg4 Firmware.initial rfl).2.2.2.2.2.2.2.2.2.2.2
    (ofList (ascii "S1") fun _ => 0) 2 (by decide) (by decide) (by decide)⟩

/-- C16, counterexample: at power-on (bus off, prescaler 48) the lines `S9`,
`SA` and `Sf` are errors: `slcan_parse_str` returns -1 and the prescaler stays
48. -/
theorem bitrate_selector_out_of_range_rejected :
    (slcan_parse_str cfg4 Firmware.initial (ofList (ascii "S9") fun _ => 0) 2).1 = -1 ∧
    (slcan_parse_str cfg4 Firmware.initial (ofList (ascii "S9") fun _ => 0) 2).2.1.prescaler =
      48 ∧
    (slcan_parse_str cfg4 Firmware.initial (ofList (ascii "SA") fun _ => 0) 2).1 = -1 ∧
    (slcan_parse_str cfg4 Firmware.initial (ofList (ascii "SA") fun _ => 0) 2).2.1.prescaler =
      48 ∧
    (slcan_parse_str cfg4 Firmware.initial (ofList (ascii "Sf") fun _ => 0) 2).1 = -1 ∧
    (slcan_parse_str cfg4 Firmware.initial (ofList (ascii "Sf") fun _ => 0) 2).2.1.prescaler =
      48 ∧
    Firmware.initial.bus_state = .OFF_BUS := by
  decide

/-- C16, amended: on the wire an out-of-range bitrate selector is an error.
For every `S` command whose selector digit is one of `9`, `A`-`F`, `a`-`f`
(values 9 to 15), in every state, `slcan_parse_str` returns -1 and the state,
the prescaler included, is unchanged. -/
theorem slcan_parse_str_bitrate_out_of_range (cfg : Config) (st : Firmware) (buf : Mem)
    (len : Nat)
    (htag : buf 0 = 'S'.toNat) (hlen : 2 ≤ len)
    (hdigit : buf 1 = '9'.toNat ∨ ('A'.toNat ≤ buf 1 ∧ buf 1 ≤ 'F'.toNat) ∨
      ('a'.toNat ≤ buf 1 ∧ buf 1 ≤ 'f'.toNat)) :
    (slcan_parse_str cfg st buf len).1 = -1 ∧
    (slcan_parse_str cfg st buf len).2.1 = st ∧
    (slcan_parse_str cfg st buf len).2.1.prescaler = st.prescaler := by
  have h9 : CAN_BITRATE_INVALID ≤ converted buf len 1 := by
    rw [converted_inside buf len 1 (le_refl 1) (by omega)]
    have := asciiToValue_big _ hdigit
    unfold CAN_BITRATE_INVALID
    omega
  rw [slcan_parse_str_bitrate_rejected cfg st buf len htag h9]
  exact ⟨rfl, rfl, rfl⟩

/-- C16, amended, instance: the line `S9` at power-on. -/
theorem slcan_parse_str_bitrate_out_of_range_witness :
    (slcan_parse_str cfg4 Firmware.initial (ofList (ascii "S9") fun _ => 0) 2).1 = -1 ∧
    (slcan_parse_str cfg4 Firmware.initial (ofList (ascii "S9") fun _ => 0) 2).2.1 =
      Firmware.initial ∧
    (slcan_parse_str cfg4 Firmware.initial (ofList (ascii "S9") fun _ => 0) 2).2.1.prescaler =
      Firmware.initial.prescaler :=
  slcan_parse_str_bitrate_out_of_range cfg4 Firmware.initial (ofList (ascii "S9") fun _ => 0) 2
    (by decide) (by decide) (by decide)

/-- What `can_process` does when the queue is not empty and a mailbox is free. -/
theorem can_process_sends (cfg : Config) (st : Firmware) (free : Nat)
    (status : HAL_StatusTypeDef)
    (hq : st.txqueue.tail ≠ st.txqueue.head) (hfree : 0 < free) :
    (can_process cfg st free status).driver = st.driver ++
      [DriverCall.HAL_CAN_AddTxMessage (st.txqueue.header st.txqueue.tail)
        (bytes (st.txqueue.data st.txqueue.tail) 8)] ∧
    (can_process cfg st free status).txqueue =
      { st.txqueue with tail := (st.txqueue.tail + 1) % cfg.TXQUEUE_LEN } ∧
    (can_process cfg st free status).bus_state = st.bus_state := by
  unfold can_process
  rw [if_pos ⟨hq, hfree⟩]
  cases status <;> simp [led_green_on, error_assert]

/-- What `can_process` does when the queue is empty or no mailbox is free. -/
theorem can_process_idle (cfg : Config) (st : Firmware) (free : Nat)
    (status : HAL_StatusTypeDef)
    (h : st.txqueue.tail = st.txqueue.head ∨ free = 0) :
    can_process cfg st free status = st := by
  unfold can_process
  have : ¬ (st.txqueue.tail ≠ st.txqueue.head ∧ free > 0) := by
    rcases h with h | h
    · intro hh; exact hh.1 h
    · intro hh; omega
  rw [if_neg this]

/-- C17, counterexample: at power-on (bus off) and again after an open and a
close, the line `t01232AFF0` returns 0 and is queued (head moves from 0 to 1),
and `can_process` with a free mailbox then hands that frame to the driver,
all with the bus state `OFF_BUS`. -/
theorem closed_bus_still_transmits :
    Firmware.initial.bus_state = .OFF_BUS ∧
    (slcan_parse_str cfg4 Firmware.initial (ofList (ascii "t01232AFF0") fun _ => 0) 10).1 = 0 ∧
    (slcan_parse_str cfg4 Firmware.initial
      (ofList (ascii "t01232AFF0") fun _ => 0) 10).2.1.txqueue.head = 1 ∧
    (slcan_parse_str cfg4 Firmware.initial
      (ofList (ascii "t01232AFF0") fun _ => 0) 10).2.1.bus_state = .OFF_BUS ∧
    (can_process cfg4 (slcan_parse_str cfg4 Firmware.initial
      (ofList (ascii "t01232AFF0") fun _ => 0) 10).2.1 3 .HAL_OK).driver =
      [DriverCall.HAL_CAN_AddTxMessage ⟨0x123, 0, CAN_ID_STD, CAN_RTR_DATA, 2⟩
        [0xAF, 0xF0, 0, 0, 0, 0, 0, 0]] ∧
    (can_disable (can_enable Firmware.initial)).bus_state = .OFF_BUS ∧
    (slcan_parse_str cfg4 (can_disable (can_enable Firmware.initial))
      (ofList (ascii "t01232AFF0") fun _ => 0) 10).2.1.txqueue.head = 1 ∧
    (handed (can_process cfg4 (slcan_parse_str cfg4 (can_disable (can_enable Firmware.initial))
      (ofList (ascii "t01232AFF0") fun _ => 0) 10).2.1 3 .HAL_OK).driver) =
      [(⟨0x123, 0, CAN_ID_STD, CAN_RTR_DATA, 2⟩, [0xAF, 0xF0])] := by
  decide

/-- C17, amended: the bus state does not gate transmissions.  In every state
with the bus `OFF_BUS`, a transmit line (tag `t`, `T`, `r` or `R`) whose length
digit lies inside the line and has a value of at most 8 returns 0 and, when the
queue is not full, is queued: `head` advances by one modulo the capacity and
`tail` is unchanged.  With the bus `OFF_BUS`, `can_process` hands the frame in
slot `tail` to the driver and advances `tail` whenever the queue is not empty
and the driver reports a free mailbox. -/
theorem transmit_ignores_bus_state (cfg : Config) (st : Firmware)
    (hoff : st.bus_state = .OFF_BUS) :
    (∀ (buf : Mem) (len : Nat), buf 0 ∈ transmitTags → idLen cfg (buf 0) + 1 < len →
      asciiToValue (buf (idLen cfg (buf 0) + 1)) ≤ 8 →
      (st.txqueue.head + 1) % cfg.TXQUEUE_LEN ≠ st.txqueue.tail →
      (slcan_parse_str cfg st buf len).1 = 0 ∧
      (slcan_parse_str cfg st buf len).2.1.txqueue.head =
        (st.txqueue.head + 1) % cfg.TXQUEUE_LEN ∧
      (slcan_parse_str cfg st buf len).2.1.txqueue.tail = st.txqueue.tail ∧
      (slcan_parse_str cfg st buf len).2.1.bus_state = .OFF_BUS) ∧
    (∀ (free : Nat) (status : HAL_StatusTypeDef),
      st.txqueue.tail ≠ st.txqueue.head → 0 < free →
      (can_process cfg st free status).driver = st.driver ++
        [DriverCall.HAL_CAN_AddTxMessage (st.txqueue.header st.txqueue.tail)
          (bytes (st.txqueue.data st.txqueue.tail) 8)] ∧
      (can_process cfg st free status).txqueue.tail =
        (st.txqueue.tail + 1) % cfg.TXQUEUE_LEN ∧
      (can_process cfg st free status).bus_state = .OFF_BUS) := by
  constructor
  · intro buf len htag hlen hn hroom
    have hc := converted_inside buf len (idLen cfg (buf 0) + 1) (by omega) hlen
    rw [slcan_parse_str_transmit cfg st buf len htag, hc, if_neg (by omega),
      can_tx_ok cfg st _ _ hroom]
    exact ⟨rfl, rfl, rfl, hoff⟩
  · intro free status hq hfree
    have h := can_process_sends cfg st free status hq hfree
    refine ⟨h.1, ?_, ?_⟩
    · rw [h.2.1]
    · rw [h.2.2, hoff]

/-- C17, amended, instance: the line `t01232AFF0` at power-on. -/
theorem transmit_ignores_bus_state_witness :
    Firmware.initial.bus_state = .OFF_BUS ∧
    (slcan_parse_str cfg4 Firmware.initial (ofList (ascii "t01232AFF0") fun _ => 0) 10).1 = 0 ∧
    (slcan_parse_str cfg4 Firmware.initial
      (ofList (ascii "t01232AFF0") fun _ => 0) 10).2.1.txqueue.head =
        (Firmware.initial.txqueue.head + 1) % cfg4.TXQUEUE_LEN :=
  have h := (transmit_ignores_bus_state cfg4 Firmware.initial rfl).1
    (ofList (ascii "t01232AFF0") fun _ => 0) 10 (by decide) (by decide) (by decide) (by decide)
  ⟨rfl, h.1, h.2.1⟩

/-! ## The line reassembler, step by step -/

/-- The step of the reassembler on a CR. -/
theorem cdc_byte_cr (cfg : Config) (s : Cdc) :
    (cdc_byte cfg s '\r'.toNat).decoded = s.decoded ++ [bytes s.slcan_str s.slcan_str_index] ∧
    (cdc_byte cfg s '\r'.toNat).slcan_str_index = 0 ∧
    (cdc_byte cfg s '\r'.toNat).fw =
      (slcan_parse_str cfg s.fw s.slcan_str s.slcan_str_index).2.1 ∧
    (cdc_byte cfg s '\r'.toNat).slcan_str =
      (slcan_parse_str cfg s.fw s.slcan_str s.slcan_str_index).2.2 := by
  unfold cdc_byte
  simp

/-- The step of the reassembler on another byte, with room in the accumulator. -/
theorem cdc_byte_store (cfg : Config) (s : Cdc) (c : Nat)
    (hc : c ≠ '\r'.toNat) (hroom : s.slcan_str_index < cfg.SLCAN_MTU) :
    (cdc_byte cfg s c).fw = s.fw ∧
    (cdc_byte cfg s c).decoded = s.decoded ∧
    (cdc_byte cfg s c).slcan_str_index = s.slcan_str_index + 1 ∧
    (cdc_byte cfg s c).slcan_str = write s.slcan_str s.slcan_str_index c := by
  unfold cdc_byte
  have h : ¬ (s.slcan_str_index ≥ cfg.SLCAN_MTU) := by omega
  rw [if_neg hc]
  simp [h]

/-- The step of the reassembler on another byte, with a full accumulator. -/
theorem cdc_byte_overflow (cfg : Config) (s : Cdc) (c : Nat)
    (hc : c ≠ '\r'.toNat) (hfull : cfg.SLCAN_MTU ≤ s.slcan_str_index) :
    (cdc_byte cfg s c).fw = s.fw ∧
    (cdc_byte cfg s c).decoded = s.decoded ∧
    (cdc_byte cfg s c).slcan_str_index = 1 ∧
    (cdc_byte cfg s c).slcan_str = write s.slcan_str 0 c := by
  unfold cdc_byte
  rw [if_neg hc]
  simp [hfull]

/-- The reassembler never touches the receive ring. -/
theorem cdc_byte_ring (cfg : Config) (s : Cdc) (c : Nat) :
    (cdc_byte cfg s c).rxbuf = s.rxbuf ∧ (cdc_byte cfg s c).armed = s.armed := by
  unfold cdc_byte
  split_ifs <;> exact ⟨rfl, rfl⟩

/-- The reassembler never touches the receive ring, for a run of bytes. -/
theorem feedBytes_ring (cfg : Config) (l : List Nat) :
    ∀ s : Cdc, (feedBytes cfg s l).rxbuf = s.rxbuf ∧ (feedBytes cfg s l).armed = s.armed := by
  induction l with
  | nil => intro s; exact ⟨rfl, rfl⟩
  | cons c cs ih =>
    intro s
    have h := ih (cdc_byte cfg s c)
    have r := cdc_byte_ring cfg s c
    exact ⟨h.1.trans r.1, h.2.trans r.2⟩

/-- The loop of `cdc_process` passes the bytes of slot `tail` through the
reassembler in order. -/
theorem cdc_loop (cfg : Config) (n : Nat) :
    ∀ (lo : Nat) (s : Cdc),
      forUp lo n (fun i (s : Cdc) => cdc_byte cfg s (s.rxbuf.buf s.rxbuf.tail i)) s =
        feedBytes cfg s (slice (s.rxbuf.buf s.rxbuf.tail) lo n) := by
  induction n with
  | zero => intro lo s; rfl
  | succ n ih =>
    intro lo s
    rw [forUp, ih, (cdc_byte_ring cfg s _).1]
    rfl

/-- Reading back a list stored in a buffer. -/
theorem slice_ofList (rest : Mem) (l : List Nat) :
    ∀ pre : List Nat, slice (ofList (pre ++ l) rest) pre.length l.length = l := by
  induction l with
  | nil => intro pre; rfl
  | cons c cs ih =>
    intro pre
    show ofList (pre ++ c :: cs) rest pre.length :: slice _ (pre.length + 1) cs.length = _
    have h1 : ofList (pre ++ c :: cs) rest pre.length = c := by
      rw [ofList_inside _ _ _ (by simp), List.getD_append_right _ _ _ _ (le_refl _),
        Nat.sub_self]
      rfl
    have h2 := ih (pre ++ [c])
    rw [List.append_assoc, List.length_append] at h2
    rw [h1]
    exact congrArg (List.cons c) h2

/-- States that agree on the line part still agree after one byte. -/
theorem cdc_byte_sameLine (cfg : Config) (s t : Cdc) (c : Nat) (h : sameLine s t) :
    sameLine (cdc_byte cfg s c) (cdc_byte cfg t c) := by
  obtain ⟨fw, rx, ar, str, idx, dec⟩ := s
  obtain ⟨fw2, rx2, ar2, str2, idx2, dec2⟩ := t
  obtain ⟨h1, h2, h3, h4⟩ := h
  simp only at h1 h2 h3 h4
  subst h1 h2 h3 h4
  unfold sameLine cdc_byte
  dsimp only
  split_ifs <;> exact ⟨rfl, rfl, rfl, rfl⟩

/-- States that agree on the line part still agree after a run of bytes. -/
theorem feedBytes_sameLine (cfg : Config) (l : List Nat) :
    ∀ s t : Cdc, sameLine s t → sameLine (feedBytes cfg s l) (feedBytes cfg t l) := by
  induction l with
  | nil => intro s t h; exact h
  | cons c cs ih =>
    intro s t h
    exact ih _ _ (cdc_byte_sameLine cfg s t c h)

/-- Feeding two runs of bytes one after the other. -/
theorem feedBytes_append (cfg : Config) (s : Cdc) (l1 l2 : List Nat) :
    feedBytes cfg s (l1 ++ l2) = feedBytes cfg (feedBytes cfg s l1) l2 := by
  unfold feedBytes
  rw [List.foldl_append]

/-- Agreement on the line part is transitive. -/
theorem sameLine_trans (s t u : Cdc) (h1 : sameLine s t) (h2 : sameLine t u) : sameLine s u :=
  ⟨h1.1.trans h2.1, h1.2.1.trans h2.2.1, h1.2.2.1.trans h2.2.2.1, h1.2.2.2.trans h2.2.2.2⟩

/-- What `CDC_Receive_FS` does on a full ring. -/
theorem CDC_Receive_FS_full (s : Cdc) (len : Nat)
    (hfull : (s.rxbuf.head + 1) % NUM_RX_BUFS = s.rxbuf.tail) :
    CDC_Receive_FS s len =
      (.HAL_ERROR, { s with fw := error_assert s.fw .ERR_FULLBUF_USBRX, armed := s.rxbuf.head }) := by
  unfold CDC_Receive_FS
  rw [if_pos hfull]

/-- What `CDC_Receive_FS` does on a ring that is not full. -/
theorem CDC_Receive_FS_ok (s : Cdc) (len : Nat)
    (hroom : (s.rxbuf.head + 1) % NUM_RX_BUFS ≠ s.rxbuf.tail) :
    CDC_Receive_FS s len =
      (.USBD_OK,
        { s with
          rxbuf := { s.rxbuf with
            msglen := write s.rxbuf.msglen s.rxbuf.head len
            head := (s.rxbuf.head + 1) % NUM_RX_BUFS }
          armed := (s.rxbuf.head + 1) % NUM_RX_BUFS }) := by
  unfold CDC_Receive_FS
  rw [if_neg hroom]

/-- What `cdc_process` does on a ring that is not empty. -/
theorem cdc_process_drain (cfg : Config) (s : Cdc) (hq : s.rxbuf.tail ≠ s.rxbuf.head) :
    cdc_process cfg s =
      { feedBytes cfg s (slice (s.rxbuf.buf s.rxbuf.tail) 0 (s.rxbuf.msglen s.rxbuf.tail)) with
        rxbuf := { s.rxbuf with tail := (s.rxbuf.tail + 1) % NUM_RX_BUFS } } := by
  unfold cdc_process
  rw [if_pos hq]
  dsimp only
  rw [cdc_loop, (feedBytes_ring cfg _ s).1]

/-- What `cdc_process` does on an empty ring. -/
theorem cdc_process_empty (cfg : Config) (s : Cdc) (hq : s.rxbuf.tail = s.rxbuf.head) :
    cdc_process cfg s = s := by
  unfold cdc_process
  rw [if_neg (fun h => h hq)]

/-- A packet that arrives on an empty ring and is drained by the next
`cdc_process` goes through the reassembler byte by byte, and the ring is empty
again afterwards. -/
theorem packet_pass (cfg : Config) (s : Cdc) (pkt : List Nat)
    (hempty : s.rxbuf.head = s.rxbuf.tail) (harmed : s.armed = s.rxbuf.head) :
    sameLine (cdc_process cfg (CDC_Receive_FS (usb_data_out s pkt) pkt.length).2)
        (feedBytes cfg s pkt) ∧
    (cdc_process cfg (CDC_Receive_FS (usb_data_out s pkt) pkt.length).2).rxbuf.head =
      (cdc_process cfg (CDC_Receive_FS (usb_data_out s pkt) pkt.length).2).rxbuf.tail ∧
    (cdc_process cfg (CDC_Receive_FS (usb_data_out s pkt) pkt.length).2).armed =
      (cdc_process cfg (CDC_Receive_FS (usb_data_out s pkt) pkt.length).2).rxbuf.head := by
  have hroom : ((usb_data_out s pkt).rxbuf.head + 1) % NUM_RX_BUFS ≠
      (usb_data_out s pkt).rxbuf.tail := by
    show (s.rxbuf.head + 1) % NUM_RX_BUFS ≠ s.rxbuf.tail
    rw [← hempty]
    unfold NUM_RX_BUFS
    omega
  rw [CDC_Receive_FS_ok _ _ hroom]
  have hq : s.rxbuf.tail ≠ (s.rxbuf.head + 1) % NUM_RX_BUFS := by
    rw [← hempty]
    unfold NUM_RX_BUFS
    omega
  rw [cdc_process_drain cfg _ hq]
  dsimp only [usb_data_out]
  have hslot : write s.rxbuf.buf s.armed (ofList pkt (s.rxbuf.buf s.armed)) s.rxbuf.tail =
      ofList pkt (s.rxbuf.buf s.armed) := by
    rw [harmed, hempty, write_same]
  have hlen : write s.rxbuf.msglen s.rxbuf.head pkt.length s.rxbuf.tail = pkt.length := by
    rw [hempty, write_same]
  rw [hslot, hlen]
  have hsl := slice_ofList (s.rxbuf.buf s.armed) pkt []
  rw [List.nil_append, List.length_nil] at hsl
  rw [hsl]
  refine ⟨?_, ?_, ?_⟩
  · have h := feedBytes_sameLine cfg pkt
      { s with
        rxbuf := { buf := write s.rxbuf.buf s.armed (ofList pkt (s.rxbuf.buf s.armed))
                   msglen := write s.rxbuf.msglen s.rxbuf.head pkt.length
                   head := (s.rxbuf.head + 1) % NUM_RX_BUFS
                   tail := s.rxbuf.tail }
        armed := (s.rxbuf.head + 1) % NUM_RX_BUFS } s ⟨rfl, rfl, rfl, rfl⟩
    exact h
  · show (s.rxbuf.head + 1) % NUM_RX_BUFS = (s.rxbuf.tail + 1) % NUM_RX_BUFS
    rw [hempty]
  · show (feedBytes cfg _ pkt).armed = (s.rxbuf.head + 1) % NUM_RX_BUFS
    rw [(feedBytes_ring cfg pkt _).2]

/-- Packets that arrive one by one, each drained by the next `cdc_process`,
go through the reassembler as the concatenation of their bytes. -/
theorem feedPackets_sameLine (cfg : Config) (pkts : List (List Nat)) :
    ∀ s : Cdc, s.rxbuf.head = s.rxbuf.tail → s.armed = s.rxbuf.head →
      sameLine (feedPackets cfg s pkts) (feedBytes cfg s pkts.flatten) := by
  induction pkts with
  | nil => intro s _ _; exact ⟨rfl, rfl, rfl, rfl⟩
  | cons p ps ih =>
    intro s hempty harmed
    obtain ⟨h1, h2, h3⟩ := packet_pass cfg s p hempty harmed
    have h4 := ih _ h2 h3
    have h5 := feedBytes_sameLine cfg ps.flatten _ _ h1
    rw [List.flatten_cons, feedBytes_append]
    exact sameLine_trans _ _ _ h4 h5

/-- A run of bytes without CR that fits the accumulator is appended to it,
with no decoder call. -/
theorem feedBytes_plain (cfg : Config) (l : List Nat) :
    ∀ s : Cdc, (∀ c ∈ l, c ≠ '\r'.toNat) → s.slcan_str_index + l.length ≤ cfg.SLCAN_MTU →
      (feedBytes cfg s l).fw = s.fw ∧
      (feedBytes cfg s l).decoded = s.decoded ∧
      (feedBytes cfg s l).slcan_str_index = s.slcan_str_index + l.length ∧
      bytes (feedBytes cfg s l).slcan_str (s.slcan_str_index + l.length) =
        bytes s.slcan_str s.slcan_str_index ++ l := by
  induction l with
  | nil =>
    intro s _ _
    exact ⟨rfl, rfl, rfl, by simp [feedBytes]⟩
  | cons c cs ih =>
    intro s hcr hfit
    have hc : c ≠ '\r'.toNat := hcr c (List.mem_cons_self c cs)
    have hlen : (c :: cs).length = cs.length + 1 := rfl
    obtain ⟨a1, a2, a3, a4⟩ := cdc_byte_store cfg s c hc (by omega)
    obtain ⟨b1, b2, b3, b4⟩ := ih (cdc_byte cfg s c)
      (fun x hx => hcr x (List.mem_cons_of_mem c hx)) (by omega)
    have e : s.slcan_str_index + (c :: cs).length =
        (cdc_byte cfg s c).slcan_str_index + cs.length := by omega
    refine ⟨b1.trans a1, b2.trans a2, ?_, ?_⟩
    · show (feedBytes cfg (cdc_byte cfg s c) cs).slcan_str_index = _
      rw [b3]; omega
    · show bytes (feedBytes cfg (cdc_byte cfg s c) cs).slcan_str _ = _
      rw [e, b4, a3, a4]
      unfold bytes
      rw [List.range_succ, List.map_append, List.map_singleton, write_same,
        List.append_assoc, List.singleton_append]
      congr 1
      apply List.map_congr_left
      intro k hk
      rw [List.mem_range] at hk
      rw [write_other _ _ _ _ (by omega)]

/-- The invariant of the receive ring along any sequence of calls: with `p`
packets pending at the start, the indices stay inside the ring, the armed slot
is `head`, and accepted packets are drained or pending. -/
theorem runRing_invariant (cfg : Config) (ops : List RingOp) :
    ∀ (s : Cdc) (p : Nat), s.rxbuf.tail < NUM_RX_BUFS → p < NUM_RX_BUFS →
      s.rxbuf.head = (s.rxbuf.tail + p) % NUM_RX_BUFS → s.armed = s.rxbuf.head →
      (runRing cfg s ops).rxbuf.head < NUM_RX_BUFS ∧
      (runRing cfg s ops).rxbuf.tail < NUM_RX_BUFS ∧
      pending (runRing cfg s ops).rxbuf ≤ NUM_RX_BUFS - 1 ∧
      (runRing cfg s ops).armed = (runRing cfg s ops).rxbuf.head ∧
      (ringCounts cfg s ops).1 + p = (ringCounts cfg s ops).2 + pending (runRing cfg s ops).rxbuf := by
  induction ops with
  | nil =>
    intro s p ht hp hh ha
    unfold pending NUM_RX_BUFS at *
    refine ⟨?_, ht, ?_, ha, ?_⟩
    · show s.rxbuf.head < 6
      omega
    · show (s.rxbuf.head + 6 - s.rxbuf.tail) % 6 ≤ 6 - 1
      omega
    · show 0 + p = 0 + (s.rxbuf.head + 6 - s.rxbuf.tail) % 6
      omega
  | cons op ops ih =>
    intro s p ht hp hh ha
    cases op with
    | receive pkt =>
      have hrun : runRing cfg s (RingOp.receive pkt :: ops) =
          runRing cfg (CDC_Receive_FS (usb_data_out s pkt) pkt.length).2 ops := rfl
      by_cases hfull : ((usb_data_out s pkt).rxbuf.head + 1) % NUM_RX_BUFS =
          (usb_data_out s pkt).rxbuf.tail
      · have hstep := CDC_Receive_FS_full (usb_data_out s pkt) pkt.length hfull
        have h := ih (CDC_Receive_FS (usb_data_out s pkt) pkt.length).2 p
          (by rw [hstep]; exact ht) hp (by rw [hstep]; exact hh) (by rw [hstep])
        have hc : (ringCounts cfg s (RingOp.receive pkt :: ops)) =
            ((ringCounts cfg (CDC_Receive_FS (usb_data_out s pkt) pkt.length).2 ops).1 + 0,
             (ringCounts cfg (CDC_Receive_FS (usb_data_out s pkt) pkt.length).2 ops).2) := by
          show (_, _) = _
          rw [hstep]
          rfl
        rw [hrun, hc]
        exact ⟨h.1, h.2.1, h.2.2.1, h.2.2.2.1, h.2.2.2.2⟩
      · have hstep := CDC_Receive_FS_ok (usb_data_out s pkt) pkt.length hfull
        have hfull2 : (s.rxbuf.head + 1) % NUM_RX_BUFS ≠ s.rxbuf.tail := hfull
        have hp1 : p + 1 < NUM_RX_BUFS := by
          unfold NUM_RX_BUFS at *
          omega
        have h := ih (CDC_Receive_FS (usb_data_out s pkt) pkt.length).2 (p + 1)
          (by rw [hstep]; exact ht) hp1
          (by rw [hstep]
              show (s.rxbuf.head + 1) % NUM_RX_BUFS = (s.rxbuf.tail + (p + 1)) % NUM_RX_BUFS
              unfold NUM_RX_BUFS at *
              omega)
          (by rw [hstep])
        have hc : (ringCounts cfg s (RingOp.receive pkt :: ops)) =
            ((ringCounts cfg (CDC_Receive_FS (usb_data_out s pkt) pkt.length).2 ops).1 + 1,
             (ringCounts cfg (CDC_Receive_FS (usb_data_out s pkt) pkt.length).2 ops).2) := by
          show (_, _) = _
          rw [hstep]
          rfl
        rw [hrun, hc]
        refine ⟨h.1, h.2.1, h.2.2.1, h.2.2.2.1, ?_⟩
        have h5 := h.2.2.2.2
        show _ + 1 + p = _
        omega
    | process =>
      have hrun : runRing cfg s (RingOp.process :: ops) =
          runRing cfg (cdc_process cfg s) ops := rfl
      have hc : (ringCounts cfg s (RingOp.process :: ops)) =
          ((ringCounts cfg (cdc_process cfg s) ops).1,
           (ringCounts cfg (cdc_process cfg s) ops).2 +
            (if s.rxbuf.tail ≠ s.rxbuf.head then 1 else 0)) := rfl
      rw [hrun, hc]
      by_cases hq : s.rxbuf.tail = s.rxbuf.head
      · have hp0 : p = 0 := by
          unfold NUM_RX_BUFS at *
          omega
        rw [if_neg (fun h => h hq), cdc_process_empty cfg s hq]
        have h := ih s p ht hp hh ha
        exact ⟨h.1, h.2.1, h.2.2.1, h.2.2.2.1, h.2.2.2.2⟩
      · have hp0 : p ≠ 0 := by
          intro h0
          apply hq
          rw [hh, h0, Nat.add_zero, Nat.mod_eq_of_lt ht]
        rw [if_pos hq]
        have hstep := cdc_process_drain cfg s hq
        have h := ih (cdc_process cfg s) (p - 1)
          (by rw [hstep]; exact Nat.mod_lt _ (by decide))
          (by omega)
          (by rw [hstep]
              show s.rxbuf.head = ((s.rxbuf.tail + 1) % NUM_RX_BUFS + (p - 1)) % NUM_RX_BUFS
              unfold NUM_RX_BUFS at *
              omega)
          (by rw [hstep]
              show (feedBytes cfg s _).armed = s.rxbuf.head
              rw [(feedBytes_ring cfg _ s).2]
              exact ha)
        refine ⟨h.1, h.2.1, h.2.2.1, h.2.2.2.1, ?_⟩
        have h5 := h.2.2.2.2
        show _ + p = _ + 1 + _
        omega

/-! ## Claims on the host receive path -/

/-- C18: with `N = NUM_RX_BUFS = 6`, `CDC_Receive_FS` returns `HAL_ERROR` iff
`(head + 1) mod N = tail`; it then leaves the ring (head, tail, recorded
lengths, buffers) unchanged and arms slot `head` again; otherwise it records
the length in slot `head`, leaves the other lengths alone, sets `head` to
`(head + 1) mod N` and keeps `tail`.  In every state reached from the power-on
state by any sequence of packet arrivals and `cdc_process` calls, `head < N`,
`tail < N`, at most `N - 1 = 5` slots are pending, the armed slot is `head`,
which is none of the pending slots, and the number of accepted packets is the
number drained plus the number pending. -/
theorem receive_ring (cfg : Config) :
    (∀ (s : Cdc) (len : Nat),
      ((CDC_Receive_FS s len).1 = RxStatus.HAL_ERROR ↔
        (s.rxbuf.head + 1) % NUM_RX_BUFS = s.rxbuf.tail) ∧
      ((s.rxbuf.head + 1) % NUM_RX_BUFS = s.rxbuf.tail →
        (CDC_Receive_FS s len).2.rxbuf = s.rxbuf ∧
        (CDC_Receive_FS s len).2.armed = s.rxbuf.head) ∧
      ((s.rxbuf.head + 1) % NUM_RX_BUFS ≠ s.rxbuf.tail →
        (CDC_Receive_FS s len).1 = RxStatus.USBD_OK ∧
        (CDC_Receive_FS s len).2.rxbuf.msglen s.rxbuf.head = len ∧
        (∀ slot, slot ≠ s.rxbuf.head →
          (CDC_Receive_FS s len).2.rxbuf.msglen slot = s.rxbuf.msglen slot) ∧
        (CDC_Receive_FS s len).2.rxbuf.buf = s.rxbuf.buf ∧
        (CDC_Receive_FS s len).2.rxbuf.head = (s.rxbuf.head + 1) % NUM_RX_BUFS ∧
        (CDC_Receive_FS s len).2.rxbuf.tail = s.rxbuf.tail)) ∧
    (∀ ops : List RingOp,
      (runRing cfg Cdc.initial ops).rxbuf.head < NUM_RX_BUFS ∧
      (runRing cfg Cdc.initial ops).rxbuf.tail < NUM_RX_BUFS ∧
      pending (runRing cfg Cdc.initial ops).rxbuf ≤ 5 ∧
      (runRing cfg Cdc.initial ops).armed = (runRing cfg Cdc.initial ops).rxbuf.head ∧
      (∀ j, j < pending (runRing cfg Cdc.initial ops).rxbuf →
        ((runRing cfg Cdc.initial ops).rxbuf.tail + j) % NUM_RX_BUFS ≠
          (runRing cfg Cdc.initial ops).rxbuf.head) ∧
      (ringCounts cfg Cdc.initial ops).1 =
        (ringCounts cfg Cdc.initial ops).2 + pending (runRing cfg Cdc.initial ops).rxbuf) := by
  constructor
  · intro s len
    by_cases hfull : (s.rxbuf.head + 1) % NUM_RX_BUFS = s.rxbuf.tail
    · rw [CDC_Receive_FS_full s len hfull]
      refine ⟨by simp [hfull], fun _ => ⟨rfl, rfl⟩, fun h => absurd hfull h⟩
    · rw [CDC_Receive_FS_ok s len hfull]
      refine ⟨by simp [hfull], fun h => absurd h hfull, fun _ => ⟨rfl, ?_, ?_, rfl, rfl, rfl⟩⟩
      · exact write_same _ _ _
      · intro slot hslot
        exact write_other _ _ _ _ hslot
  · intro ops
    have h := runRing_invariant cfg ops Cdc.initial 0 (by decide) (by decide) (by decide) rfl
    refine ⟨h.1, h.2.1, h.2.2.1, h.2.2.2.1, ?_, ?_⟩
    · intro j hj
      have h1 := h.1
      have h2 := h.2.1
      unfold pending NUM_RX_BUFS at *
      omega
    · have := h.2.2.2.2
      omega

/-- C18, instance: after five packets the ring is full; the sixth arrival is
refused and leaves head at 5 and tail at 0. -/
theorem receive_ring_witness :
    ((runRing cfg4 Cdc.initial (List.replicate 5 (RingOp.receive (ascii "V\r")))).rxbuf.head + 1) %
        NUM_RX_BUFS =
      (runRing cfg4 Cdc.initial (List.replicate 5 (RingOp.receive (ascii "V\r")))).rxbuf.tail ∧
    (CDC_Receive_FS
      (runRing cfg4 Cdc.initial (List.replicate 5 (RingOp.receive (ascii "V\r")))) 2).2.rxbuf =
      (runRing cfg4 Cdc.initial (List.replicate 5 (RingOp.receive (ascii "V\r")))).rxbuf ∧
    pending (runRing cfg4 Cdc.initial (List.replicate 7 (RingOp.receive (ascii "V\r")))).rxbuf ≤ 5 :=
  ⟨by decide,
   (((receive_ring cfg4).1
      (runRing cfg4 Cdc.initial (List.replicate 5 (RingOp.receive (ascii "V\r")))) 2).2.1
      (by decide)).1,
   ((receive_ring cfg4).2 (List.replicate 7 (RingOp.receive (ascii "V\r")))).2.2.1⟩

/-- C19: whenever the reassembler meets a CR, `slcan_parse_str` is invoked once,
with the accumulator and with `len` equal to the write index, that is with
the bytes stored since the index was last reset, and the index is 0 afterwards
whatever the decoder returned.  End to end: from a state with an empty ring
whose accumulator holds `i` bytes, if packets that arrive one by one (each
drained by the next `cdc_process`) carry, in any split, bytes `rest` without CR
that still fit the accumulator, followed by a CR, then the decoder is invoked
exactly once, with the accumulated bytes followed by `rest`, in arrival order
and without the CR, and the index is 0 afterwards. -/
theorem line_terminator (cfg : Config) :
    (∀ s : Cdc,
      (cdc_byte cfg s '\r'.toNat).decoded =
        s.decoded ++ [bytes s.slcan_str s.slcan_str_index] ∧
      (bytes s.slcan_str s.slcan_str_index).length = s.slcan_str_index ∧
      (cdc_byte cfg s '\r'.toNat).fw =
        (slcan_parse_str cfg s.fw s.slcan_str s.slcan_str_index).2.1 ∧
      (cdc_byte cfg s '\r'.toNat).slcan_str_index = 0) ∧
    (∀ (s : Cdc) (rest : List Nat) (pkts : List (List Nat)),
      s.rxbuf.head = s.rxbuf.tail → s.armed = s.rxbuf.head →
      (∀ c ∈ rest, c ≠ '\r'.toNat) →
      s.slcan_str_index + rest.length ≤ cfg.SLCAN_MTU →
      pkts.flatten = rest ++ ['\r'.toNat] →
      (feedPackets cfg s pkts).decoded =
        s.decoded ++ [bytes s.slcan_str s.slcan_str_index ++ rest] ∧
      (feedPackets cfg s pkts).slcan_str_index = 0 ∧
      (feedPackets cfg s pkts).fw =
        (slcan_parse_str cfg s.fw (feedBytes cfg s rest).slcan_str
          (s.slcan_str_index + rest.length)).2.1) := by
  constructor
  · intro s
    have h := cdc_byte_cr cfg s
    refine ⟨h.1, ?_, h.2.2.1, h.2.1⟩
    simp [bytes]
  · intro s rest pkts hempty harmed hcr hfit hsplit
    have hs := feedPackets_sameLine cfg pkts s hempty harmed
    rw [hsplit, feedBytes_append] at hs
    have hstep : feedBytes cfg (feedBytes cfg s rest) ['\r'.toNat] =
        cdc_byte cfg (feedBytes cfg s rest) '\r'.toNat := rfl
    rw [hstep] at hs
    obtain ⟨p1, p2, p3, p4⟩ := feedBytes_plain cfg rest s hcr hfit
    obtain ⟨c1, c2, c3, _⟩ := cdc_byte_cr cfg (feedBytes cfg s rest)
    obtain ⟨s1, _, s3, s4⟩ := hs
    refine ⟨?_, ?_, ?_⟩
    · rw [s4, c1, p2, p3, p4]
    · rw [s3, c2]
    · rw [s1, c3, p1, p3]

/-- C19, instance: the line `t01232AFF0` arriving in two packets, from
power-on. -/
theorem line_terminator_witness :
    (feedPackets cfg4 Cdc.initial [ascii "t0123", ascii "2AFF0\r"]).decoded =
      Cdc.initial.decoded ++
        [bytes Cdc.initial.slcan_str Cdc.initial.slcan_str_index ++ ascii "t01232AFF0"] ∧
    (feedPackets cfg4 Cdc.initial [ascii "t0123", ascii "2AFF0\r"]).slcan_str_index = 0 :=
  have h := (line_terminator cfg4).2 Cdc.initial (ascii "t01232AFF0")
    [ascii "t0123", ascii "2AFF0\r"] rfl rfl (by decide) (by decide) (by decide)
  ⟨h.1, h.2.1⟩

/-- C20, counterexample: with a line buffer of 30 bytes, after 30 bytes `a` the
write index is 30; the next byte `b` is not dropped: the index becomes 1, cell
0 holds `b`, and a CR after it passes the line `b` to the decoder. -/
theorem overflow_byte_is_kept :
    (feedBytes cfg4 Cdc.initial (List.replicate 30 'a'.toNat)).slcan_str_index =
      cfg4.SLCAN_MTU ∧
    (cdc_byte cfg4 (feedBytes cfg4 Cdc.initial (List.replicate 30 'a'.toNat))
      'b'.toNat).slcan_str_index = 1 ∧
    (cdc_byte cfg4 (feedBytes cfg4 Cdc.initial (List.replicate 30 'a'.toNat))
      'b'.toNat).slcan_str 0 = 'b'.toNat ∧
    (cdc_byte cfg4 (cdc_byte cfg4 (feedBytes cfg4 Cdc.initial (List.replicate 30 'a'.toNat))
      'b'.toNat) '\r'.toNat).decoded = [['b'.toNat]] := by
  decide

/-- C20, amended: when a non-terminator byte arrives while the write index has
reached `SLCAN_MTU`, the accumulator is reset and the byte becomes the first
byte of the next line: after the step the write index is 1, cell 0 holds the
byte, no decoder call was made, and a CR arriving next passes exactly that
byte to the decoder. -/
theorem accumulator_overflow (cfg : Config) (s : Cdc) (c : Nat)
    (hc : c ≠ '\r'.toNat) (hfull : s.slcan_str_index = cfg.SLCAN_MTU) :
    (cdc_byte cfg s c).slcan_str_index = 1 ∧
    (cdc_byte cfg s c).slcan_str 0 = c ∧
    (cdc_byte cfg s c).decoded = s.decoded ∧
    (cdc_byte cfg s c).fw = s.fw ∧
    (cdc_byte cfg (cdc_byte cfg s c) '\r'.toNat).decoded = s.decoded ++ [[c]] := by
  obtain ⟨h1, h2, h3, h4⟩ := cdc_byte_overflow cfg s c hc (by omega)
  obtain ⟨c1, _, _, _⟩ := cdc_byte_cr cfg (cdc_byte cfg s c)
  refine ⟨h3, ?_, h2, h1, ?_⟩
  · rw [h4, write_same]
  · rw [c1, h2, h3, h4]
    rfl

/-- C20, amended, instance: the byte `b` after 30 bytes `a`, line buffer of 30
bytes. -/
theorem accumulator_overflow_witness :
    (cdc_byte cfg4 (feedBytes cfg4 Cdc.initial (List.replicate 30 'a'.toNat))
      'b'.toNat).slcan_str_index = 1 ∧
    (cdc_byte cfg4 (feedBytes cfg4 Cdc.initial (List.replicate 30 'a'.toNat))
      'b'.toNat).slcan_str 0 = 'b'.toNat :=
  have h := accumulator_overflow cfg4 (feedBytes cfg4 Cdc.initial (List.replicate 30 'a'.toNat))
    'b'.toNat (by decide) (by decide)
  ⟨h.1, h.2.1⟩

/-! ## The transmit queue as a FIFO -/

/-- The frames handed to the driver, over a log made of two parts. -/
theorem handed_append (l1 l2 : List DriverCall) :
    handed (l1 ++ l2) = handed l1 ++ handed l2 := by
  induction l1 with
  | nil => rfl
  | cons c cs ih =>
    cases c <;> simp [handed, ih]

/-- Two offsets below the capacity that give the same slot are equal. -/
theorem slot_injective (C t j k : Nat) (hj : j < C) (hk : k < C)
    (h : (t + j) % C = (t + k) % C) : j = k := by
  have h1 : Nat.ModEq C (t + j) (t + k) := h
  have h2 : Nat.ModEq C j k := Nat.ModEq.add_left_cancel' t h1
  have h3 : j % C = k % C := h2
  rwa [Nat.mod_eq_of_lt hj, Nat.mod_eq_of_lt hk] at h3

/-- The number of slots from `tail` to `head`. -/
theorem slot_count (C t k : Nat) (ht : t < C) (hk : k < C) :
    ((t + k) % C + C - t) % C = k := by
  by_cases h : t + k < C
  · rw [Nat.mod_eq_of_lt h]
    have e : t + k + C - t = k + C := by omega
    rw [e, Nat.add_mod_right, Nat.mod_eq_of_lt hk]
  · have e1 : t + k = (t + k - C) + C := by omega
    have e2 : (t + k) % C = t + k - C := by
      rw [e1, Nat.add_mod_right, Nat.mod_eq_of_lt (by omega)]
      omega
    rw [e2]
    have e3 : t + k - C + C - t = k := by omega
    rw [e3, Nat.mod_eq_of_lt hk]

/-- The first `n` data bytes seen by the driver depend on the first `n` cells
of the data row only. -/
theorem take_bytes_congr (m1 m2 : Mem) (n : Nat) (h : ∀ i, i < n → m1 i = m2 i) :
    (bytes m1 8).take n = (bytes m2 8).take n := by
  unfold bytes
  rw [← List.map_take, ← List.map_take]
  apply List.map_congr_left
  intro i hi
  have hi2 := List.mem_of_mem_take hi
  rw [List.mem_range] at hi2
  have hi3 : i < n := by
    by_cases hn : n ≤ 8
    · rw [List.take_range] at hi
      rw [List.mem_range] at hi
      omega
    · omega
  exact h i hi3

/-- The frames of the slots from `t` on depend on those slots only. -/
theorem slotsFrom_congr (cfg : Config) (q1 q2 : can_txbuf_t) (t k : Nat)
    (h : ∀ j, j < k →
      q1.header ((t + j) % cfg.TXQUEUE_LEN) = q2.header ((t + j) % cfg.TXQUEUE_LEN) ∧
      q1.data ((t + j) % cfg.TXQUEUE_LEN) = q2.data ((t + j) % cfg.TXQUEUE_LEN)) :
    slotsFrom cfg q1 t k = slotsFrom cfg q2 t k := by
  unfold slotsFrom
  apply List.map_congr_left
  intro j hj
  rw [List.mem_range] at hj
  rw [(h j hj).1, (h j hj).2]

/-- The slots from `t` on, one more at the end. -/
theorem slotsFrom_snoc (cfg : Config) (q : can_txbuf_t) (t k : Nat) :
    slotsFrom cfg q t (k + 1) =
      slotsFrom cfg q t k ++
        [frameKey (q.header ((t + k) % cfg.TXQUEUE_LEN)) (q.data ((t + k) % cfg.TXQUEUE_LEN))] := by
  unfold slotsFrom
  rw [List.range_succ, List.map_append, List.map_singleton]

/-- The slots from `t` on, the first one apart. -/
theorem slotsFrom_cons (cfg : Config) (q : can_txbuf_t) (t k : Nat) :
    slotsFrom cfg q t (k + 1) =
      frameKey (q.header (t % cfg.TXQUEUE_LEN)) (q.data (t % cfg.TXQUEUE_LEN)) ::
        slotsFrom cfg q ((t + 1) % cfg.TXQUEUE_LEN) k := by
  unfold slotsFrom
  rw [List.range_succ_eq_map, List.map_cons, List.map_map]
  congr 1
  apply List.map_congr_left
  intro j _
  have e : ((t + 1) % cfg.TXQUEUE_LEN + j) % cfg.TXQUEUE_LEN =
      (t + (j + 1)) % cfg.TXQUEUE_LEN := by
    rw [Nat.mod_add_mod]
    congr 1
    omega
  simp only [Function.comp, e, Nat.succ_eq_add_one]

/-- Along any interleaving of `can_tx` and `can_process` calls, starting with
`k` frames queued: the frames handed to the driver followed by the frames still
queued are the frames handed before, the frames queued at the start and the
frames accepted since, in this order. -/
theorem runQueue_invariant (cfg : Config) (ops : List QueueOp) :
    ∀ (st : Firmware) (k : Nat), 0 < cfg.TXQUEUE_LEN → k < cfg.TXQUEUE_LEN →
      st.txqueue.tail < cfg.TXQUEUE_LEN →
      st.txqueue.head = (st.txqueue.tail + k) % cfg.TXQUEUE_LEN →
      handed (runQueue cfg st ops).1.driver ++ queued cfg (runQueue cfg st ops).1.txqueue =
        handed st.driver ++ slotsFrom cfg st.txqueue st.txqueue.tail k ++
          (runQueue cfg st ops).2 := by
  induction ops with
  | nil =>
    intro st k _ hk ht hh
    show handed st.driver ++ queued cfg st.txqueue = _ ++ []
    unfold queued
    rw [hh, slot_count _ _ _ ht hk, List.append_nil]
  | cons op ops ih =>
    intro st k hC hk ht hh
    cases op with
    | tx h d =>
      by_cases hfull : (st.txqueue.head + 1) % cfg.TXQUEUE_LEN = st.txqueue.tail
      · have hstep := can_tx_full cfg st h d hfull
        have hrun : runQueue cfg st (QueueOp.tx h d :: ops) =
            runQueue cfg (error_assert st .ERR_FULLBUF_CANTX) ops := by
          show (_, _) = _
          rw [hstep]
          rfl
        rw [hrun]
        exact ih (error_assert st .ERR_FULLBUF_CANTX) k hC hk ht hh
      · have hstep := can_tx_ok cfg st h d hfull
        have hk1 : k + 1 < cfg.TXQUEUE_LEN := by
          by_contra hcon
          have hk2 : k = cfg.TXQUEUE_LEN - 1 := by omega
          apply hfull
          rw [hh, Nat.mod_add_mod, hk2]
          exact mod_succ_eq _ _ ht hC
        have hrun : runQueue cfg st (QueueOp.tx h d :: ops) =
            ((runQueue cfg (can_tx cfg st h d).2 ops).1,
              frameKey h d :: (runQueue cfg (can_tx cfg st h d).2 ops).2) := by
          show (_, _) = _
          rw [hstep]
          rfl
        have hi := ih (can_tx cfg st h d).2 (k + 1) hC hk1
          (by rw [hstep]; exact ht)
          (by rw [hstep]
              show (st.txqueue.head + 1) % cfg.TXQUEUE_LEN = _
              rw [hh, Nat.mod_add_mod]; rfl)
        rw [hrun]
        rw [hi, hstep]
        show handed st.driver ++ slotsFrom cfg _ st.txqueue.tail (k + 1) ++ _ = _
        rw [slotsFrom_snoc]
        have hold : slotsFrom cfg
            { header := write st.txqueue.header st.txqueue.head h
              data := fun s i =>
                if s = st.txqueue.head ∧ i < h.DLC then d i else st.txqueue.data s i
              head := (st.txqueue.head + 1) % cfg.TXQUEUE_LEN
              tail := st.txqueue.tail } st.txqueue.tail k =
            slotsFrom cfg st.txqueue st.txqueue.tail k := by
          apply slotsFrom_congr
          intro j hj
          have hne : (st.txqueue.tail + j) % cfg.TXQUEUE_LEN ≠ st.txqueue.head := by
            rw [hh]
            intro he
            have := slot_injective _ _ _ _ (by omega) hk he
            omega
          constructor
          · exact write_other _ _ _ _ hne
          · funext i
            show (if (st.txqueue.tail + j) % cfg.TXQUEUE_LEN = st.txqueue.head ∧ i < h.DLC
              then d i else _) = _
            rw [if_neg (fun hc => hne hc.1)]
        have hnew : frameKey
            (write st.txqueue.header st.txqueue.head h ((st.txqueue.tail + k) % cfg.TXQUEUE_LEN))
            (fun i => if (st.txqueue.tail + k) % cfg.TXQUEUE_LEN = st.txqueue.head ∧ i < h.DLC
              then d i else st.txqueue.data ((st.txqueue.tail + k) % cfg.TXQUEUE_LEN) i) =
            frameKey h d := by
          rw [← hh, write_same]
          unfold frameKey
          congr 1
          apply take_bytes_congr
          intro i hi
          rw [if_pos ⟨rfl, hi⟩]
        rw [hold]
        show handed st.driver ++ (slotsFrom cfg st.txqueue st.txqueue.tail k ++ [frameKey _ _]) ++
          _ = _
        rw [hnew]
        simp only [List.append_assoc, List.singleton_append]
    | process free status =>
      have hrun : runQueue cfg st (QueueOp.process free status :: ops) =
          runQueue cfg (can_process cfg st free status) ops := rfl
      rw [hrun]
      by_cases hsend : st.txqueue.tail ≠ st.txqueue.head ∧ 0 < free
      · obtain ⟨s1, s2, _⟩ := can_process_sends cfg st free status hsend.1 hsend.2
        have hk0 : k ≠ 0 := by
          intro h0
          apply hsend.1
          rw [hh, h0, Nat.add_zero, Nat.mod_eq_of_lt ht]
        obtain ⟨m, rfl⟩ : ∃ m, k = m + 1 := ⟨k - 1, by omega⟩
        have hi := ih (can_process cfg st free status) m hC (by omega)
          (by rw [s2]; exact Nat.mod_lt _ hC)
          (by rw [s2]
              show st.txqueue.head = ((st.txqueue.tail + 1) % cfg.TXQUEUE_LEN + m) % cfg.TXQUEUE_LEN
              rw [hh, Nat.mod_add_mod]
              congr 1
              omega)
        rw [hi, s1, s2, handed_append, slotsFrom_cons, Nat.mod_eq_of_lt ht]
        have hsame : slotsFrom cfg
            { st.txqueue with tail := (st.txqueue.tail + 1) % cfg.TXQUEUE_LEN }
            ((st.txqueue.tail + 1) % cfg.TXQUEUE_LEN) m =
            slotsFrom cfg st.txqueue ((st.txqueue.tail + 1) % cfg.TXQUEUE_LEN) m := rfl
        show handed st.driver ++ handed [DriverCall.HAL_CAN_AddTxMessage _ _] ++
          slotsFrom cfg { st.txqueue with tail := (st.txqueue.tail + 1) % cfg.TXQUEUE_LEN }
            ((st.txqueue.tail + 1) % cfg.TXQUEUE_LEN) m ++ _ = _
        rw [hsame]
        have hh1 : handed [DriverCall.HAL_CAN_AddTxMessage (st.txqueue.header st.txqueue.tail)
            (bytes (st.txqueue.data st.txqueue.tail) 8)] =
            [frameKey (st.txqueue.header st.txqueue.tail) (st.txqueue.data st.txqueue.tail)] := rfl
        rw [hh1]
        simp only [List.append_assoc, List.singleton_append]
      · have hidle : st.txqueue.tail = st.txqueue.head ∨ free = 0 := by
          by_cases h1 : st.txqueue.tail = st.txqueue.head
          · exact Or.inl h1
          · right
            by_contra h2
            exact hsend ⟨h1, by omega⟩
        rw [can_process_idle cfg st free status hidle]
        exact ih st k hC hk ht hh

/-- C11: for every interleaving of `can_tx` and `can_process` calls starting
from an empty queue, the frames (header and first `DLC` data bytes) handed to
`HAL_CAN_AddTxMessage` by `can_process`, followed by the frames still queued,
are exactly the frames whose `can_tx` succeeded, in the same order: none is
duplicated and none is skipped.  Fewer frames than the capacity are queued. -/
theorem fifo_order (cfg : Config) (st : Firmware) (ops : List QueueOp)
    (hC : 0 < cfg.TXQUEUE_LEN)
    (hempty : st.txqueue.head = st.txqueue.tail)
    (hidx : st.txqueue.tail < cfg.TXQUEUE_LEN) :
    handed (runQueue cfg st ops).1.driver ++ queued cfg (runQueue cfg st ops).1.txqueue =
      handed st.driver ++ (runQueue cfg st ops).2 ∧
    (queued cfg (runQueue cfg st ops).1.txqueue).length < cfg.TXQUEUE_LEN := by
  constructor
  · have h := runQueue_invariant cfg ops st 0 hC hC hidx
      (by rw [Nat.add_zero, Nat.mod_eq_of_lt hidx]; exact hempty)
    rw [h]
    have h0 : slotsFrom cfg st.txqueue st.txqueue.tail 0 = [] := rfl
    rw [h0, List.append_nil]
  · unfold queued slotsFrom
    rw [List.length_map, List.length_range]
    exact Nat.mod_lt _ hC

/-- C11, instance: capacity 8, from power-on: two frames are queued, one is
sent, a third is queued, a service call finds no free mailbox, then one more is
sent; the driver received the first two frames in order and the third is still
queued. -/
theorem fifo_order_witness :
    (0 < cfg4.TXQUEUE_LEN ∧
      Firmware.initial.txqueue.head = Firmware.initial.txqueue.tail ∧
      Firmware.initial.txqueue.tail < cfg4.TXQUEUE_LEN) ∧
    handed (runQueue cfg4 Firmware.initial
        [QueueOp.tx ⟨0x101, 0, CAN_ID_STD, CAN_RTR_DATA, 1⟩ (ofList [0x11] fun _ => 0),
         QueueOp.tx ⟨0x102, 0, CAN_ID_STD, CAN_RTR_DATA, 1⟩ (ofList [0x22] fun _ => 0),
         QueueOp.process 3 .HAL_OK,
         QueueOp.tx ⟨0x103, 0, CAN_ID_STD, CAN_RTR_DATA, 1⟩ (ofList [0x33] fun _ => 0),
         QueueOp.process 0 .HAL_OK,
         QueueOp.process 1 .HAL_ERROR]).1.driver ++
      queued cfg4 (runQueue cfg4 Firmware.initial
        [QueueOp.tx ⟨0x101, 0, CAN_ID_STD, CAN_RTR_DATA, 1⟩ (ofList [0x11] fun _ => 0),
         QueueOp.tx ⟨0x102, 0, CAN_ID_STD, CAN_RTR_DATA, 1⟩ (ofList [0x22] fun _ => 0),
         QueueOp.process 3 .HAL_OK,
         QueueOp.tx ⟨0x103, 0, CAN_ID_STD, CAN_RTR_DATA, 1⟩ (ofList [0x33] fun _ => 0),
         QueueOp.process 0 .HAL_OK,
         QueueOp.process 1 .HAL_ERROR]).1.txqueue =
      handed Firmware.initial.driver ++
        (runQueue cfg4 Firmware.initial
        [QueueOp.tx ⟨0x101, 0, CAN_ID_STD, CAN_RTR_DATA, 1⟩ (ofList [0x11] fun _ => 0),
         QueueOp.tx ⟨0x102, 0, CAN_ID_STD, CAN_RTR_DATA, 1⟩ (ofList [0x22] fun _ => 0),
         QueueOp.process 3 .HAL_OK,
         QueueOp.tx ⟨0x103, 0, CAN_ID_STD, CAN_RTR_DATA, 1⟩ (ofList [0x33] fun _ => 0),
         QueueOp.process 0 .HAL_OK,
         QueueOp.process 1 .HAL_ERROR]).2 :=
  ⟨⟨by decide, rfl, by decide⟩,
    (fifo_order cfg4 Firmware.initial _ (by decide) rfl (by decide)).1⟩

/-! ## Claims on the line accumulator -/

/-- The buffer that `slcan_parse_str` leaves: the bytes inside the line
converted, all others as they were. -/
theorem slcan_parse_str_buf (cfg : Config) (st : Firmware) (buf : Mem) (len : Nat) :
    (slcan_parse_str cfg st buf len).2.2 = converted buf len := by
  unfold slcan_parse_str
  simp only [conversion_loop]
  repeat' split
  all_goals rfl

/-- One byte through the reassembler keeps the write index within the buffer
size and leaves the cells beyond the buffer alone. -/
theorem cdc_byte_bound (cfg : Config) (s : Cdc) (c : Nat) (hM : 0 < cfg.SLCAN_MTU)
    (hs : s.slcan_str_index ≤ cfg.SLCAN_MTU) :
    (cdc_byte cfg s c).slcan_str_index ≤ cfg.SLCAN_MTU ∧
    ∀ k, cfg.SLCAN_MTU ≤ k → (cdc_byte cfg s c).slcan_str k = s.slcan_str k := by
  by_cases hc : c = '\r'.toNat
  · subst hc
    obtain ⟨_, h2, _, h4⟩ := cdc_byte_cr cfg s
    refine ⟨by omega, ?_⟩
    intro k hk
    rw [h4, slcan_parse_str_buf, converted_outside _ _ _ (by omega)]
  · by_cases hroom : s.slcan_str_index < cfg.SLCAN_MTU
    · obtain ⟨_, _, h3, h4⟩ := cdc_byte_store cfg s c hc hroom
      refine ⟨by omega, ?_⟩
      intro k hk
      rw [h4, write_other _ _ _ _ (by omega)]
    · obtain ⟨_, _, h3, h4⟩ := cdc_byte_overflow cfg s c hc (by omega)
      refine ⟨by omega, ?_⟩
      intro k hk
      rw [h4, write_other _ _ _ _ (by omega)]

/-- A run of bytes through the reassembler keeps the write index within the
buffer size and leaves the cells beyond the buffer alone. -/
theorem feedBytes_bound (cfg : Config) (hM : 0 < cfg.SLCAN_MTU) (l : List Nat) :
    ∀ s : Cdc, s.slcan_str_index ≤ cfg.SLCAN_MTU →
      (feedBytes cfg s l).slcan_str_index ≤ cfg.SLCAN_MTU ∧
      ∀ k, cfg.SLCAN_MTU ≤ k → (feedBytes cfg s l).slcan_str k = s.slcan_str k := by
  induction l with
  | nil => intro s hs; exact ⟨hs, fun _ _ => rfl⟩
  | cons c cs ih =>
    intro s hs
    obtain ⟨h1, h2⟩ := cdc_byte_bound cfg s c hM hs
    obtain ⟨h3, h4⟩ := ih (cdc_byte cfg s c) h1
    refine ⟨h3, ?_⟩
    intro k hk
    exact (h4 k hk).trans (h2 k hk)

/-- One call on the receive ring keeps the write index within the buffer size
and leaves the cells beyond the buffer alone. -/
theorem ringStep_bound (cfg : Config) (hM : 0 < cfg.SLCAN_MTU) (s : Cdc) (op : RingOp)
    (hs : s.slcan_str_index ≤ cfg.SLCAN_MTU) :
    (ringStep cfg s op).slcan_str_index ≤ cfg.SLCAN_MTU ∧
    ∀ k, cfg.SLCAN_MTU ≤ k → (ringStep cfg s op).slcan_str k = s.slcan_str k := by
  cases op with
  | receive pkt =>
    have h : (ringStep cfg s (RingOp.receive pkt)).slcan_str_index = s.slcan_str_index ∧
        (ringStep cfg s (RingOp.receive pkt)).slcan_str = s.slcan_str := by
      show (CDC_Receive_FS (usb_data_out s pkt) pkt.length).2.slcan_str_index = _ ∧
        (CDC_Receive_FS (usb_data_out s pkt) pkt.length).2.slcan_str = _
      unfold CDC_Receive_FS
      split_ifs <;> exact ⟨rfl, rfl⟩
    rw [h.1, h.2]
    exact ⟨hs, fun _ _ => rfl⟩
  | process =>
    show (cdc_process cfg s).slcan_str_index ≤ _ ∧ ∀ k, _ → (cdc_process cfg s).slcan_str k = _
    by_cases hq : s.rxbuf.tail = s.rxbuf.head
    · rw [cdc_process_empty cfg s hq]
      exact ⟨hs, fun _ _ => rfl⟩
    · rw [cdc_process_drain cfg s hq]
      exact feedBytes_bound cfg hM _ s hs

/-- Any sequence of calls on the receive ring keeps the write index within the
buffer size and leaves the cells beyond the buffer alone. -/
theorem runRing_bound (cfg : Config) (hM : 0 < cfg.SLCAN_MTU) (ops : List RingOp) :
    ∀ s : Cdc, s.slcan_str_index ≤ cfg.SLCAN_MTU →
      (runRing cfg s ops).slcan_str_index ≤ cfg.SLCAN_MTU ∧
      ∀ k, cfg.SLCAN_MTU ≤ k → (runRing cfg s ops).slcan_str k = s.slcan_str k := by
  induction ops with
  | nil => intro s hs; exact ⟨hs, fun _ _ => rfl⟩
  | cons op ops ih =>
    intro s hs
    obtain ⟨h1, h2⟩ := ringStep_bound cfg hM s op hs
    obtain ⟨h3, h4⟩ := ih (ringStep cfg s op) h1
    refine ⟨h3, ?_⟩
    intro k hk
    exact (h4 k hk).trans (h2 k hk)

/-- C21: with a line buffer of at least one byte, in every state whose write
index is at most `SLCAN_MTU` a byte other than CR is stored at an index
strictly below `SLCAN_MTU` and the write index becomes that index plus one;
after any run of bytes (CR included, where the decoder converts the line in
place) the write index is at most `SLCAN_MTU` and no cell at an index of
`SLCAN_MTU` or more was changed; and the same holds after any sequence of
packet arrivals and `cdc_process` calls from the power-on state.  (The index
is a `uint8_t`; it never exceeds `SLCAN_MTU`, so it does not wrap for a buffer
of at most 255 bytes.) -/
theorem accumulator_bound (cfg : Config) (hM : 0 < cfg.SLCAN_MTU) :
    (∀ (s : Cdc) (c : Nat), s.slcan_str_index ≤ cfg.SLCAN_MTU → c ≠ '\r'.toNat →
      ∃ i, i < cfg.SLCAN_MTU ∧ (cdc_byte cfg s c).slcan_str = write s.slcan_str i c ∧
        (cdc_byte cfg s c).slcan_str_index = i + 1) ∧
    (∀ (s : Cdc) (l : List Nat), s.slcan_str_index ≤ cfg.SLCAN_MTU →
      (feedBytes cfg s l).slcan_str_index ≤ cfg.SLCAN_MTU ∧
      ∀ k, cfg.SLCAN_MTU ≤ k → (feedBytes cfg s l).slcan_str k = s.slcan_str k) ∧
    (∀ ops : List RingOp,
      (runRing cfg Cdc.initial ops).slcan_str_index ≤ cfg.SLCAN_MTU ∧
      ∀ k, cfg.SLCAN_MTU ≤ k →
        (runRing cfg Cdc.initial ops).slcan_str k = Cdc.initial.slcan_str k) := by
  refine ⟨?_, ?_, ?_⟩
  · intro s c hs hc
    by_cases hroom : s.slcan_str_index < cfg.SLCAN_MTU
    · obtain ⟨_, _, h3, h4⟩ := cdc_byte_store cfg s c hc hroom
      exact ⟨s.slcan_str_index, hroom, h4, h3⟩
    · obtain ⟨_, _, h3, h4⟩ := cdc_byte_overflow cfg s c hc (by omega)
      exact ⟨0, hM, h4, h3⟩
  · intro s l hs
    exact feedBytes_bound cfg hM l s hs
  · intro ops
    exact runRing_bound cfg hM ops Cdc.initial (Nat.zero_le _)

/-- C21, instance: a line buffer of 30 bytes and a packet of 64 bytes `a`
received and drained at power-on: the write index is at most 30 and cell 30 is
untouched. -/
theorem accumulator_bound_witness :
    0 < cfg4.SLCAN_MTU ∧
    (runRing cfg4 Cdc.initial
      [RingOp.receive (List.replicate 64 'a'.toNat), RingOp.process]).slcan_str_index ≤
        cfg4.SLCAN_MTU ∧
    (runRing cfg4 Cdc.initial
      [RingOp.receive (List.replicate 64 'a'.toNat), RingOp.process]).slcan_str 30 =
        Cdc.initial.slcan_str 30 :=
  have h := (accumulator_bound cfg4 (by decide)).2.2
    [RingOp.receive (List.replicate 64 'a'.toNat), RingOp.process]
  ⟨by decide, h.1, h.2 30 (by decide)⟩

/-! ## Claims on the host transmit path -/

/-- The copy loop of `CDC_Transmit_FS` writes the cells it runs over. -/
theorem copy_loop (Buf : Mem) (n : Nat) :
    ∀ (lo : Nat) (s : HostTx),
      forUp lo n (fun i (s : HostTx) => { s with txbuf := write s.txbuf i (Buf i) }) s =
        { s with txbuf := fun k => if lo ≤ k ∧ k < lo + n then Buf k else s.txbuf k } := by
  induction n with
  | zero =>
    intro lo s
    have e : (fun k => if lo ≤ k ∧ k < lo + 0 then Buf k else s.txbuf k) = s.txbuf := by
      funext k
      rw [if_neg (by omega)]
    rw [e]
    rfl
  | succ n ih =>
    intro lo s
    rw [forUp, ih]
    congr 1
    funext k
    show (if lo + 1 ≤ k ∧ k < lo + 1 + n then Buf k else write s.txbuf lo (Buf lo) k) = _
    by_cases h1 : lo + 1 ≤ k ∧ k < lo + 1 + n
    · rw [if_pos h1, if_pos (by omega)]
    · by_cases h2 : k = lo
      · subst h2
        rw [if_neg h1, write_same, if_pos (by omega)]
      · rw [if_neg h1, write_other _ _ _ _ h2, if_neg (by omega)]

/-- With `TxState` clear the wait loop is left at once. -/
theorem CDC_Transmit_FS_wait_idle (start_wait : Nat) (turns : List Turn) (s : HostTx)
    (hidle : s.TxState = 0) :
    CDC_Transmit_FS_wait start_wait turns s = some (false, s) := by
  cases turns with
  | nil => simp [CDC_Transmit_FS_wait, hidle]
  | cons t ts => simp [CDC_Transmit_FS_wait, hidle]

/-- What `CDC_Transmit_FS` does once the wait loop was left with `TxState`
clear. -/
theorem CDC_Transmit_FS_send (s t : HostTx) (start_wait : Nat) (turns : List Turn) (Buf : Mem)
    (Len : Nat) (hwait : CDC_Transmit_FS_wait start_wait turns s = some (false, t))
    (hidle : t.TxState = 0) :
    s.CDC_Transmit_FS start_wait turns Buf Len =
      if Len > TX_BUF_SIZE then some (0, t)
      else some (USBD_OK,
        { t with
          txbuf := fun k => if k < Len then Buf k else t.txbuf k
          TxLength := Len
          TxState := 1
          transmitted := t.transmitted ++ [bytes Buf Len] }) := by
  unfold HostTx.CDC_Transmit_FS
  rw [hwait]
  dsimp only
  by_cases hlen : Len > TX_BUF_SIZE
  · rw [if_pos hlen, if_pos hlen]
  · rw [if_neg hlen, if_neg hlen, copy_loop]
    unfold USBD_CDC_TransmitPacket
    dsimp only
    rw [if_pos hidle]
    have e1 : (fun k => if 0 ≤ k ∧ k < 0 + Len then Buf k else t.txbuf k) =
        fun k => if k < Len then Buf k else t.txbuf k := by
      funext k
      by_cases h : k < Len
      · rw [if_pos (by omega), if_pos h]
      · rw [if_neg (by omega), if_neg h]
    have e2 : bytes (fun k => if k < Len then Buf k else t.txbuf k) Len = bytes Buf Len := by
      unfold bytes
      apply List.map_congr_left
      intro k hk
      rw [List.mem_range] at hk
      rw [if_pos hk]
    rw [e1, e2]

/-- C22: with the transmit path not busy (`TxState` clear) at the call, a
message longer than `TX_BUF_SIZE = 64` makes `CDC_Transmit_FS` return 0 with the
state as it was: no byte of `txbuf` is modified, nothing goes to the driver and
`TxState` stays clear.  A message of at most 64 bytes is copied to the first
`Len` cells of `txbuf` (the other cells keep their content), `TxLength` is
`Len`, and the driver transmits once, exactly the `Len` bytes of the message;
the call returns `USBD_OK` with `TxState` set. -/
theorem oversized_message_rejected (s : HostTx) (start_wait : Nat) (turns : List Turn)
    (Buf : Mem) (Len : Nat) (hidle : s.TxState = 0) :
    (TX_BUF_SIZE < Len → s.CDC_Transmit_FS start_wait turns Buf Len = some (0, s)) ∧
    (Len ≤ TX_BUF_SIZE →
      ∃ t : HostTx, s.CDC_Transmit_FS start_wait turns Buf Len = some (USBD_OK, t) ∧
        bytes t.txbuf Len = bytes Buf Len ∧
        (∀ k, Len ≤ k → t.txbuf k = s.txbuf k) ∧
        t.TxLength = Len ∧
        t.transmitted = s.transmitted ++ [bytes Buf Len] ∧
        t.TxState = 1 ∧
        t.fw = s.fw) := by
  have h := CDC_Transmit_FS_send s s start_wait turns Buf Len
    (CDC_Transmit_FS_wait_idle start_wait turns s hidle) hidle
  constructor
  · intro hlen
    rw [h, if_pos hlen]
  · intro hlen
    rw [h, if_neg (by omega)]
    refine ⟨_, rfl, ?_, ?_, rfl, rfl, rfl, rfl⟩
    · unfold bytes
      apply List.map_congr_left
      intro k hk
      rw [List.mem_range] at hk
      show (if k < Len then Buf k else s.txbuf k) = Buf k
      rw [if_pos hk]
    · intro k hk
      show (if k < Len then Buf k else s.txbuf k) = s.txbuf k
      rw [if_neg (by omega)]

/-- C22, instance: at rest, a message of 65 bytes is refused and the two bytes
`V` CR are sent. -/
theorem oversized_message_rejected_witness :
    HostTx.initial.TxState = 0 ∧
    HostTx.initial.CDC_Transmit_FS 0 [] (fun _ => 'a'.toNat) 65 = some (0, HostTx.initial) ∧
    ∃ t : HostTx,
      HostTx.initial.CDC_Transmit_FS 0 [] (ofList (ascii "V\r") fun _ => 0) 2 =
        some (USBD_OK, t) ∧
      t.transmitted = HostTx.initial.transmitted ++ [bytes (ofList (ascii "V\r") fun _ => 0) 2] :=
  ⟨rfl,
   (oversized_message_rejected HostTx.initial 0 [] (fun _ => 'a'.toNat) 65 rfl).1 (by decide),
   have h := (oversized_message_rejected HostTx.initial 0 []
     (ofList (ascii "V\r") fun _ => 0) 2 rfl).2 (by decide)
   h.elim fun t ht => ⟨t, ht.1, ht.2.2.2.2.1⟩⟩

/-- The wait loop spins through turns in which fewer than 10 ticks have
elapsed and no completion arrives. -/
theorem CDC_Transmit_FS_wait_spin (start_wait : Nat) (s : HostTx) (hbusy : s.TxState ≠ 0)
    (rest : List Turn) (pre : List Turn) :
    (∀ u ∈ pre, elapsed start_wait u.tick < 10 ∧ u.complete = false) →
    CDC_Transmit_FS_wait start_wait (pre ++ rest) s = CDC_Transmit_FS_wait start_wait rest s := by
  induction pre with
  | nil => intro _; rfl
  | cons u us ih =>
    intro h
    obtain ⟨h1, h2⟩ := h u (List.mem_cons_self u us)
    show CDC_Transmit_FS_wait start_wait (u :: (us ++ rest)) s = _
    rw [CDC_Transmit_FS_wait, if_pos hbusy, if_neg (by omega), h2]
    exact ih (fun v hv => h v (List.mem_cons_of_mem u hv))

/-- One turn of the wait loop with `TxState` set. -/
theorem CDC_Transmit_FS_wait_cons (start_wait : Nat) (t : Turn) (ts : List Turn) (s : HostTx)
    (hbusy : s.TxState ≠ 0) :
    CDC_Transmit_FS_wait start_wait (t :: ts) s =
      if elapsed start_wait t.tick ≥ 10 then
        some (true, { s with fw := error_assert s.fw .ERR_USBTX_BUSY })
      else CDC_Transmit_FS_wait start_wait ts (if t.complete then { s with TxState := 0 } else s) := by
  rw [CDC_Transmit_FS_wait, if_pos hbusy]

/-- The wait loop never reads a turn after the first one at which 10 ticks
have elapsed, and it has ended by then. -/
theorem CDC_Transmit_FS_wait_bounded (start_wait : Nat) (t : Turn) (post : List Turn)
    (ht : 10 ≤ elapsed start_wait t.tick) (pre : List Turn) :
    ∀ s : HostTx,
      CDC_Transmit_FS_wait start_wait (pre ++ t :: post) s =
        CDC_Transmit_FS_wait start_wait (pre ++ [t]) s ∧
      (CDC_Transmit_FS_wait start_wait (pre ++ [t]) s).isSome := by
  induction pre with
  | nil =>
    intro s
    simp only [List.nil_append]
    by_cases hb : s.TxState = 0
    · rw [CDC_Transmit_FS_wait_idle _ _ _ hb, CDC_Transmit_FS_wait_idle _ _ _ hb]
      exact ⟨rfl, rfl⟩
    · have e1 := CDC_Transmit_FS_wait_cons start_wait t post s hb
      have e2 := CDC_Transmit_FS_wait_cons start_wait t [] s hb
      rw [if_pos ht] at e1 e2
      rw [e1, e2]
      exact ⟨rfl, rfl⟩
  | cons u us ih =>
    intro s
    simp only [List.cons_append]
    by_cases hb : s.TxState = 0
    · rw [CDC_Transmit_FS_wait_idle _ _ _ hb, CDC_Transmit_FS_wait_idle _ _ _ hb]
      exact ⟨rfl, rfl⟩
    · have e1 := CDC_Transmit_FS_wait_cons start_wait u (us ++ t :: post) s hb
      have e2 := CDC_Transmit_FS_wait_cons start_wait u (us ++ [t]) s hb
      by_cases hu : elapsed start_wait u.tick ≥ 10
      · rw [if_pos hu] at e1 e2
        rw [e1, e2]
        exact ⟨rfl, rfl⟩
      · rw [if_neg hu] at e1 e2
        rw [e1, e2]
        exact ih _

/-- C23: a call of `CDC_Transmit_FS` made with `TxState` set, whose wait loop
reads fewer than 10 elapsed ticks (difference to the start tick modulo `2^32`)
in the turns `pre` and then meets the turn `t`.  If no completion arrives
during `pre` and `t` reads 10 elapsed ticks or more, the call returns
`USBD_BUSY`, reports `ERR_USBTX_BUSY` and changes nothing else: `txbuf` is as
it was and nothing goes to the driver.  If no completion arrives during `pre`,
`t` reads fewer than 10 elapsed ticks and the completion arrives in `t`, a
message of at most `TX_BUF_SIZE` bytes is copied to `txbuf` and transmitted,
and the call returns `USBD_OK`.  Whatever the completions, once `t` reads 10
elapsed ticks or more the call has returned: its result is the same for every
continuation `post` of the turns. -/
theorem bounded_busy_wait (s : HostTx) (start_wait : Nat) (pre post : List Turn) (t : Turn)
    (Buf : Mem) (Len : Nat) (hbusy : s.TxState ≠ 0)
    (hpre : ∀ u ∈ pre, elapsed start_wait u.tick < 10) :
    ((∀ u ∈ pre, u.complete = false) → 10 ≤ elapsed start_wait t.tick →
      s.CDC_Transmit_FS start_wait (pre ++ t :: post) Buf Len =
        some (USBD_BUSY, { s with fw := error_assert s.fw .ERR_USBTX_BUSY }) ∧
      USBD_BUSY ≠ USBD_OK) ∧
    ((∀ u ∈ pre, u.complete = false) → elapsed start_wait t.tick < 10 → t.complete = true →
      Len ≤ TX_BUF_SIZE →
      s.CDC_Transmit_FS start_wait (pre ++ t :: post) Buf Len =
        some (USBD_OK,
          { s with
            txbuf := fun k => if k < Len then Buf k else s.txbuf k
            TxLength := Len
            TxState := 1
            transmitted := s.transmitted ++ [bytes Buf Len] })) ∧
    (10 ≤ elapsed start_wait t.tick →
      s.CDC_Transmit_FS start_wait (pre ++ t :: post) Buf Len =
        s.CDC_Transmit_FS start_wait (pre ++ [t]) Buf Len ∧
      (s.CDC_Transmit_FS start_wait (pre ++ [t]) Buf Len).isSome) := by
  refine ⟨?_, ?_, ?_⟩
  · intro hquiet ht
    refine ⟨?_, by decide⟩
    unfold HostTx.CDC_Transmit_FS
    rw [CDC_Transmit_FS_wait_spin start_wait s hbusy _ pre (fun u hu => ⟨hpre u hu, hquiet u hu⟩),
      CDC_Transmit_FS_wait_cons _ _ _ _ hbusy, if_pos ht]
  · intro hquiet ht hdone hlen
    have hwait : CDC_Transmit_FS_wait start_wait (pre ++ t :: post) s =
        some (false, { s with TxState := 0 }) := by
      rw [CDC_Transmit_FS_wait_spin start_wait s hbusy _ pre
          (fun u hu => ⟨hpre u hu, hquiet u hu⟩),
        CDC_Transmit_FS_wait_cons _ _ _ _ hbusy, if_neg (by omega), hdone, if_pos rfl,
        CDC_Transmit_FS_wait_idle _ _ _ rfl]
    rw [CDC_Transmit_FS_send s _ start_wait _ Buf Len hwait rfl, if_neg (by omega)]
  · intro ht
    obtain ⟨h1, h2⟩ := CDC_Transmit_FS_wait_bounded start_wait t post ht pre s
    unfold HostTx.CDC_Transmit_FS
    rw [h1]
    refine ⟨rfl, ?_⟩
    cases hw : CDC_Transmit_FS_wait start_wait (pre ++ [t]) s with
    | none => rw [hw] at h2; exact absurd h2 (by decide)
    | some r =>
      obtain ⟨b, u⟩ := r
      cases b
      · dsimp only
        split_ifs <;> rfl
      · rfl

/-- C23, instance: a transfer in flight, start tick `2^32 - 3`; the loop reads
the ticks `2^32 - 1` and 7 (2 and 10 ticks elapsed) with no completion: busy.
With a completion in the first turn the two bytes `V` CR are sent. -/
theorem bounded_busy_wait_witness :
    ({ HostTx.initial with TxState := 1 } : HostTx).CDC_Transmit_FS (2 ^ 32 - 3)
        [⟨2 ^ 32 - 1, false⟩, ⟨7, false⟩] (ofList (ascii "V\r") fun _ => 0) 2 =
      some (USBD_BUSY,
        { ({ HostTx.initial with TxState := 1 } : HostTx) with
          fw := error_assert Firmware.initial .ERR_USBTX_BUSY }) ∧
    ({ HostTx.initial with TxState := 1 } : HostTx).CDC_Transmit_FS (2 ^ 32 - 3)
        [⟨2 ^ 32 - 1, true⟩, ⟨7, false⟩] (ofList (ascii "V\r") fun _ => 0) 2 =
      some (USBD_OK,
        { ({ HostTx.initial with TxState := 1 } : HostTx) with
          txbuf := fun k => if k < 2 then (ofList (ascii "V\r") fun _ => 0) k else 0
          TxLength := 2
          TxState := 1
          transmitted := [bytes (ofList (ascii "V\r") fun _ => 0) 2] }) :=
  ⟨((bounded_busy_wait { HostTx.initial with TxState := 1 } (2 ^ 32 - 3) [⟨2 ^ 32 - 1, false⟩] []
      ⟨7, false⟩ (ofList (ascii "V\r") fun _ => 0) 2 (by decide) (by decide)).1
      (by decide) (by decide)).1,
   (bounded_busy_wait { HostTx.initial with TxState := 1 } (2 ^ 32 - 3) [] [⟨7, false⟩]
      ⟨2 ^ 32 - 1, true⟩ (ofList (ascii "V\r") fun _ => 0) 2 (by decide)
      (by decide)).2.1 (by decide) (by decide) rfl (by decide)⟩

/-! ## Claims on the queue service -/

/-- The number of frames queued when `head` is `k` slots after `tail`. -/
theorem queued_length (cfg : Config) (q : can_txbuf_t) (k : Nat) (hk : k < cfg.TXQUEUE_LEN)
    (ht : q.tail < cfg.TXQUEUE_LEN) (hh : q.head = (q.tail + k) % cfg.TXQUEUE_LEN) :
    queued cfg q = slotsFrom cfg q q.tail k := by
  unfold queued
  rw [hh, slot_count _ _ _ ht hk]

/-- The distance from `tail` to `head` leads from `tail` to `head`. -/
theorem slot_offset (C t h : Nat) (ht : t < C) (hh : h < C) :
    h = (t + (h + C - t) % C) % C ∧ (t ≠ h → 0 < (h + C - t) % C) := by
  by_cases hle : t ≤ h
  · have e1 : h + C - t = (h - t) + C := by omega
    have e2 : (h + C - t) % C = h - t := by
      rw [e1, Nat.add_mod_right, Nat.mod_eq_of_lt (by omega)]
    rw [e2]
    have e3 : t + (h - t) = h := by omega
    rw [e3, Nat.mod_eq_of_lt hh]
    exact ⟨rfl, fun hne => by omega⟩
  · have e2 : (h + C - t) % C = h + C - t := Nat.mod_eq_of_lt (by omega)
    rw [e2]
    have e3 : t + (h + C - t) = h + C := by omega
    rw [e3, Nat.add_mod_right, Nat.mod_eq_of_lt hh]
    exact ⟨rfl, fun _ => by omega⟩

/-- A service call that sends: the frame handed to the driver is the oldest
queued frame, and the queue afterwards is the queue before without it. -/
theorem can_process_pop (cfg : Config) (st : Firmware) (free : Nat) (status : HAL_StatusTypeDef)
    (m : Nat) (hm : m + 1 < cfg.TXQUEUE_LEN) (ht : st.txqueue.tail < cfg.TXQUEUE_LEN)
    (hh : st.txqueue.head = (st.txqueue.tail + (m + 1)) % cfg.TXQUEUE_LEN) (hfree : 0 < free) :
    st.txqueue.tail ≠ st.txqueue.head ∧
    queued cfg st.txqueue =
      frameKey (st.txqueue.header st.txqueue.tail) (st.txqueue.data st.txqueue.tail) ::
        queued cfg (can_process cfg st free status).txqueue ∧
    (queued cfg (can_process cfg st free status).txqueue).length = m ∧
    handed (can_process cfg st free status).driver = handed st.driver ++
      [frameKey (st.txqueue.header st.txqueue.tail) (st.txqueue.data st.txqueue.tail)] := by
  have hC : 0 < cfg.TXQUEUE_LEN := by omega
  have hq : st.txqueue.tail ≠ st.txqueue.head := by
    intro he
    have h1 : (st.txqueue.tail + 0) % cfg.TXQUEUE_LEN = (st.txqueue.tail + (m + 1)) % cfg.TXQUEUE_LEN := by
      rw [Nat.add_zero, Nat.mod_eq_of_lt ht, ← hh]
      exact he
    have := slot_injective _ _ _ _ hC hm h1
    omega
  obtain ⟨s1, s2, _⟩ := can_process_sends cfg st free status hq hfree
  have hh2 : ({ st.txqueue with tail := (st.txqueue.tail + 1) % cfg.TXQUEUE_LEN } : can_txbuf_t).head =
      ((st.txqueue.tail + 1) % cfg.TXQUEUE_LEN + m) % cfg.TXQUEUE_LEN := by
    show st.txqueue.head = _
    rw [hh, Nat.mod_add_mod]
    congr 1
    omega
  have hq2 := queued_length cfg { st.txqueue with tail := (st.txqueue.tail + 1) % cfg.TXQUEUE_LEN }
    m (by omega) (Nat.mod_lt _ hC) hh2
  refine ⟨hq, ?_, ?_, ?_⟩
  · rw [queued_length cfg st.txqueue (m + 1) hm ht hh, slotsFrom_cons, Nat.mod_eq_of_lt ht, s2, hq2]
    rfl
  · rw [s2, hq2]
    unfold slotsFrom
    rw [List.length_map, List.length_range]
  · rw [s1, handed_append]
    rfl

/-- C24: one call of `can_process` hands at most one frame to the driver.  With
`k` frames queued and `free` mailboxes reported free at entry, the frames
handed over are the first `min 1 free` of the queued ones (none when the queue
is empty), the queue afterwards is the queue before without them, and `tail`
advances by `min 1 (min k free)`.  So with at least two frames queued and at
least two mailboxes free, one frame is handed over and `k - 1` stay queued,
fewer than the `min k free` of a loop that runs until the queue is empty or no
mailbox is free. -/
theorem can_process_hands_one (cfg : Config) (st : Firmware) (free : Nat)
    (status : HAL_StatusTypeDef) (k : Nat) (hk : k < cfg.TXQUEUE_LEN)
    (ht : st.txqueue.tail < cfg.TXQUEUE_LEN)
    (hh : st.txqueue.head = (st.txqueue.tail + k) % cfg.TXQUEUE_LEN) :
    (queued cfg st.txqueue).length = k ∧
    handed (can_process cfg st free status).driver =
      handed st.driver ++ (queued cfg st.txqueue).take (min 1 free) ∧
    queued cfg (can_process cfg st free status).txqueue =
      (queued cfg st.txqueue).drop (min 1 free) ∧
    (can_process cfg st free status).txqueue.tail =
      (st.txqueue.tail + min 1 (min k free)) % cfg.TXQUEUE_LEN ∧
    (2 ≤ k → 2 ≤ free →
      (handed (can_process cfg st free status).driver).length =
        (handed st.driver).length + 1 ∧
      (queued cfg (can_process cfg st free status).txqueue).length = k - 1 ∧
      1 < min k free) := by
  have hlen : (queued cfg st.txqueue).length = k := by
    rw [queued_length cfg st.txqueue k hk ht hh]
    unfold slotsFrom
    rw [List.length_map, List.length_range]
  by_cases hsend : 0 < k ∧ 0 < free
  · obtain ⟨m, rfl⟩ : ∃ m, k = m + 1 := ⟨k - 1, by omega⟩
    obtain ⟨p1, p2, p3, p4⟩ := can_process_pop cfg st free status m hk ht hh hsend.2
    obtain ⟨_, s2, _⟩ := can_process_sends cfg st free status p1 hsend.2
    have e1 : min 1 free = 1 := by omega
    have e2 : min 1 (min (m + 1) free) = 1 := by omega
    rw [e1, e2]
    refine ⟨hlen, ?_, ?_, ?_, ?_⟩
    · rw [p4, p2]
      rfl
    · rw [p2]
      rfl
    · rw [s2]
    · intro _ _
      refine ⟨?_, ?_, by omega⟩
      · rw [p4, List.length_append]
        rfl
      · rw [p3]
        omega
  · have hidle : st.txqueue.tail = st.txqueue.head ∨ free = 0 := by
      by_cases h0 : k = 0
      · left
        rw [hh, h0, Nat.add_zero, Nat.mod_eq_of_lt ht]
      · right
        omega
    rw [can_process_idle cfg st free status hidle]
    have hnone : (queued cfg st.txqueue).take (min 1 free) = [] ∧
        (queued cfg st.txqueue).drop (min 1 free) = queued cfg st.txqueue ∧
        min 1 (min k free) = 0 := by
      by_cases h0 : k = 0
      · have hnil : queued cfg st.txqueue = [] := List.eq_nil_of_length_eq_zero (by omega)
        rw [hnil]
        exact ⟨by simp, by simp, by omega⟩
      · have hf : free = 0 := by omega
        rw [hf]
        exact ⟨rfl, rfl, by omega⟩
    rw [hnone.1, hnone.2.1, hnone.2.2, List.append_nil, Nat.add_zero, Nat.mod_eq_of_lt ht]
    refine ⟨hlen, rfl, rfl, rfl, ?_⟩
    intro h1 h2
    omega

/-- C24, instance: capacity 8, two frames queued from power-on, three
mailboxes free: one call hands over the first frame only and the second stays
queued. -/
theorem can_process_hands_one_witness :
    handed (can_process cfg4
      (can_tx_seq cfg4 Firmware.initial
        [(⟨0x101, 0, CAN_ID_STD, CAN_RTR_DATA, 1⟩, ofList [0x11] fun _ => 0),
         (⟨0x102, 0, CAN_ID_STD, CAN_RTR_DATA, 1⟩, ofList [0x22] fun _ => 0)]).2
      3 .HAL_OK).driver =
      [(⟨0x101, 0, CAN_ID_STD, CAN_RTR_DATA, 1⟩, [0x11])] ∧
    queued cfg4 (can_process cfg4
      (can_tx_seq cfg4 Firmware.initial
        [(⟨0x101, 0, CAN_ID_STD, CAN_RTR_DATA, 1⟩, ofList [0x11] fun _ => 0),
         (⟨0x102, 0, CAN_ID_STD, CAN_RTR_DATA, 1⟩, ofList [0x22] fun _ => 0)]).2
      3 .HAL_OK).txqueue =
      [(⟨0x102, 0, CAN_ID_STD, CAN_RTR_DATA, 1⟩, [0x22])] ∧
    min 2 3 = 2 :=
  have h := can_process_hands_one cfg4
    (can_tx_seq cfg4 Firmware.initial
      [(⟨0x101, 0, CAN_ID_STD, CAN_RTR_DATA, 1⟩, ofList [0x11] fun _ => 0),
       (⟨0x102, 0, CAN_ID_STD, CAN_RTR_DATA, 1⟩, ofList [0x22] fun _ => 0)]).2
    3 .HAL_OK 2 (by decide) (by decide) (by decide)
  ⟨h.2.1.trans (by decide), h.2.2.1.trans (by decide), by decide⟩

/-- C25: whenever `can_process` hands the oldest frame to the driver (queue not
empty, a mailbox free), `tail` becomes `(tail + 1) mod TXQUEUE_LEN`, while
`head` and the stored headers and data are unchanged, whatever the driver
returns.  The frame handed over is the oldest queued frame, and the queue
afterwards is the queue before without its oldest entry.  When the driver
returns a failure, `ERR_CAN_TXFAIL` is reported once; on success nothing is
reported. -/
theorem no_retry (cfg : Config) (st : Firmware) (free : Nat) (status : HAL_StatusTypeDef)
    (ht : st.txqueue.tail < cfg.TXQUEUE_LEN) (hhd : st.txqueue.head < cfg.TXQUEUE_LEN)
    (hq : st.txqueue.tail ≠ st.txqueue.head) (hfree : 0 < free) :
    (can_process cfg st free status).txqueue.tail =
      (st.txqueue.tail + 1) % cfg.TXQUEUE_LEN ∧
    (can_process cfg st free status).txqueue.head = st.txqueue.head ∧
    (can_process cfg st free status).txqueue.header = st.txqueue.header ∧
    (can_process cfg st free status).txqueue.data = st.txqueue.data ∧
    handed (can_process cfg st free status).driver =
      handed st.driver ++ (queued cfg st.txqueue).take 1 ∧
    queued cfg (can_process cfg st free status).txqueue = (queued cfg st.txqueue).drop 1 ∧
    (queued cfg st.txqueue).length =
      (queued cfg (can_process cfg st free status).txqueue).length + 1 ∧
    (can_process cfg st free status).errors =
      st.errors ++ (if status = .HAL_OK then [] else [error_flag.ERR_CAN_TXFAIL]) := by
  obtain ⟨o1, o2⟩ := slot_offset cfg.TXQUEUE_LEN st.txqueue.tail st.txqueue.head ht hhd
  have hpos := o2 hq
  obtain ⟨m, hm⟩ : ∃ m, (st.txqueue.head + cfg.TXQUEUE_LEN - st.txqueue.tail) % cfg.TXQUEUE_LEN =
      m + 1 :=
    ⟨(st.txqueue.head + cfg.TXQUEUE_LEN - st.txqueue.tail) % cfg.TXQUEUE_LEN - 1, by omega⟩
  rw [hm] at o1
  have hC : 0 < cfg.TXQUEUE_LEN := by omega
  have hm1 : m + 1 < cfg.TXQUEUE_LEN := by
    rw [← hm]
    exact Nat.mod_lt _ hC
  obtain ⟨_, p2, p3, p4⟩ := can_process_pop cfg st free status m hm1 ht o1 hfree
  obtain ⟨_, s2, _⟩ := can_process_sends cfg st free status hq hfree
  refine ⟨by rw [s2], by rw [s2], by rw [s2], by rw [s2], ?_, ?_, ?_, ?_⟩
  · rw [p4, p2]
    rfl
  · rw [p2]
    rfl
  · rw [p2]
    rfl
  · unfold can_process
    rw [if_pos ⟨hq, hfree⟩]
    cases status <;> simp [led_green_on, error_assert]

/-- C25, instance: capacity 8, two frames queued from power-on; the driver
refuses the first one: the error is reported and the second frame is what
stays queued. -/
theorem no_retry_witness :
    (can_process cfg4
      (can_tx_seq cfg4 Firmware.initial
        [(⟨0x101, 0, CAN_ID_STD, CAN_RTR_DATA, 1⟩, ofList [0x11] fun _ => 0),
         (⟨0x102, 0, CAN_ID_STD, CAN_RTR_DATA, 1⟩, ofList [0x22] fun _ => 0)]).2
      1 .HAL_ERROR).errors = [error_flag.ERR_CAN_TXFAIL] ∧
    queued cfg4 (can_process cfg4
      (can_tx_seq cfg4 Firmware.initial
        [(⟨0x101, 0, CAN_ID_STD, CAN_RTR_DATA, 1⟩, ofList [0x11] fun _ => 0),
         (⟨0x102, 0, CAN_ID_STD, CAN_RTR_DATA, 1⟩, ofList [0x22] fun _ => 0)]).2
      1 .HAL_ERROR).txqueue =
      [(⟨0x102, 0, CAN_ID_STD, CAN_RTR_DATA, 1⟩, [0x22])] :=
  have h := no_retry cfg4
    (can_tx_seq cfg4 Firmware.initial
      [(⟨0x101, 0, CAN_ID_STD, CAN_RTR_DATA, 1⟩, ofList [0x11] fun _ => 0),
       (⟨0x102, 0, CAN_ID_STD, CAN_RTR_DATA, 1⟩, ofList [0x22] fun _ => 0)]).2
    1 .HAL_ERROR (by decide) (by decide) (by decide) (by decide)
  ⟨h.2.2.2.2.2.2.2.trans (by decide), h.2.2.2.2.2.1.trans (by decide)⟩

/-! ## The receive ring as a FIFO of packets -/

/-- The packets of the slots from `t` on depend on those slots only. -/
theorem packetsFrom_congr (q1 q2 : usbrx_buf_t) (t k : Nat)
    (h : ∀ j, j < k →
      q1.buf ((t + j) % NUM_RX_BUFS) = q2.buf ((t + j) % NUM_RX_BUFS) ∧
      q1.msglen ((t + j) % NUM_RX_BUFS) = q2.msglen ((t + j) % NUM_RX_BUFS)) :
    packetsFrom q1 t k = packetsFrom q2 t k := by
  unfold packetsFrom
  apply List.map_congr_left
  intro j hj
  rw [List.mem_range] at hj
  rw [(h j hj).1, (h j hj).2]

/-- The packets of the slots from `t` on, one more at the end. -/
theorem packetsFrom_snoc (q : usbrx_buf_t) (t k : Nat) :
    packetsFrom q t (k + 1) =
      packetsFrom q t k ++
        [slice (q.buf ((t + k) % NUM_RX_BUFS)) 0 (q.msglen ((t + k) % NUM_RX_BUFS))] := by
  unfold packetsFrom
  rw [List.range_succ, List.map_append, List.map_singleton]

/-- The packets of the slots from `t` on, the first one apart. -/
theorem packetsFrom_cons (q : usbrx_buf_t) (t k : Nat) :
    packetsFrom q t (k + 1) =
      slice (q.buf (t % NUM_RX_BUFS)) 0 (q.msglen (t % NUM_RX_BUFS)) ::
        packetsFrom q ((t + 1) % NUM_RX_BUFS) k := by
  unfold packetsFrom
  rw [List.range_succ_eq_map, List.map_cons, List.map_map]
  congr 1
  apply List.map_congr_left
  intro j _
  have e : ((t + 1) % NUM_RX_BUFS + j) % NUM_RX_BUFS = (t + (j + 1)) % NUM_RX_BUFS := by
    rw [Nat.mod_add_mod]
    congr 1
    omega
  simp only [Function.comp, e, Nat.succ_eq_add_one]

/-- Along any sequence of calls on the receive ring, starting with `p` packets
pending: the packets pending at the start followed by the packets accepted
since are the byte runs drained followed by the packets still pending. -/
theorem ringTrace_invariant (cfg : Config) (ops : List RingOp) :
    ∀ (s : Cdc) (p : Nat), s.rxbuf.tail < NUM_RX_BUFS → p < NUM_RX_BUFS →
      s.rxbuf.head = (s.rxbuf.tail + p) % NUM_RX_BUFS → s.armed = s.rxbuf.head →
      packetsFrom s.rxbuf s.rxbuf.tail p ++ (ringTrace cfg s ops).1 =
        (ringTrace cfg s ops).2 ++ pendingPackets (runRing cfg s ops).rxbuf := by
  induction ops with
  | nil =>
    intro s p ht hp hh _
    show packetsFrom s.rxbuf s.rxbuf.tail p ++ [] = [] ++ pendingPackets s.rxbuf
    unfold pendingPackets pending
    rw [hh, slot_count _ _ _ ht hp, List.append_nil, List.nil_append]
  | cons op ops ih =>
    intro s p ht hp hh ha
    have hslot : ∀ j, j < p → (s.rxbuf.tail + j) % NUM_RX_BUFS ≠ s.armed := by
      intro j hj he
      rw [ha, hh] at he
      have := slot_injective _ _ _ _ (by omega) hp he
      omega
    cases op with
    | receive pkt =>
      have hrun : runRing cfg s (RingOp.receive pkt :: ops) =
          runRing cfg (CDC_Receive_FS (usb_data_out s pkt) pkt.length).2 ops := rfl
      rw [hrun]
      by_cases hfull : ((usb_data_out s pkt).rxbuf.head + 1) % NUM_RX_BUFS =
          (usb_data_out s pkt).rxbuf.tail
      · have hstep := CDC_Receive_FS_full (usb_data_out s pkt) pkt.length hfull
        have hi := ih (CDC_Receive_FS (usb_data_out s pkt) pkt.length).2 p
          (by rw [hstep]; exact ht) hp (by rw [hstep]; exact hh) (by rw [hstep])
        have hc : ringTrace cfg s (RingOp.receive pkt :: ops) =
            ringTrace cfg (CDC_Receive_FS (usb_data_out s pkt) pkt.length).2 ops := by
          show (_, _) = _
          rw [hstep]
          rfl
        rw [hc, ← hi, hstep]
        congr 1
        apply packetsFrom_congr
        intro j hj
        exact ⟨(write_other _ _ _ _ (hslot j hj)).symm, rfl⟩
      · have hstep := CDC_Receive_FS_ok (usb_data_out s pkt) pkt.length hfull
        have hfull2 : (s.rxbuf.head + 1) % NUM_RX_BUFS ≠ s.rxbuf.tail := hfull
        have hp1 : p + 1 < NUM_RX_BUFS := by
          unfold NUM_RX_BUFS at *
          omega
        have hi := ih (CDC_Receive_FS (usb_data_out s pkt) pkt.length).2 (p + 1)
          (by rw [hstep]; exact ht) hp1
          (by rw [hstep]
              show (s.rxbuf.head + 1) % NUM_RX_BUFS = (s.rxbuf.tail + (p + 1)) % NUM_RX_BUFS
              unfold NUM_RX_BUFS at *
              omega)
          (by rw [hstep])
        have hc : ringTrace cfg s (RingOp.receive pkt :: ops) =
            (pkt :: (ringTrace cfg (CDC_Receive_FS (usb_data_out s pkt) pkt.length).2 ops).1,
             (ringTrace cfg (CDC_Receive_FS (usb_data_out s pkt) pkt.length).2 ops).2) := by
          show (_, _) = _
          rw [hstep]
          rfl
        rw [hc, ← hi, hstep]
        show _ = packetsFrom _ s.rxbuf.tail (p + 1) ++ _
        rw [packetsFrom_snoc]
        have hold : packetsFrom
            { buf := write s.rxbuf.buf s.armed (ofList pkt (s.rxbuf.buf s.armed))
              msglen := write s.rxbuf.msglen s.rxbuf.head pkt.length
              head := (s.rxbuf.head + 1) % NUM_RX_BUFS
              tail := s.rxbuf.tail } s.rxbuf.tail p =
            packetsFrom s.rxbuf s.rxbuf.tail p := by
          apply packetsFrom_congr
          intro j hj
          have hne := hslot j hj
          exact ⟨write_other _ _ _ _ hne, write_other _ _ _ _ (by rw [← ha]; exact hne)⟩
        have hnew : slice (write s.rxbuf.buf s.armed (ofList pkt (s.rxbuf.buf s.armed))
              ((s.rxbuf.tail + p) % NUM_RX_BUFS)) 0
            (write s.rxbuf.msglen s.rxbuf.head pkt.length ((s.rxbuf.tail + p) % NUM_RX_BUFS)) =
            pkt := by
          rw [← hh, ← ha, write_same, write_same]
          have hsl := slice_ofList (s.rxbuf.buf s.armed) pkt []
          rw [List.nil_append, List.length_nil] at hsl
          exact hsl
        show _ = (packetsFrom
            { buf := write s.rxbuf.buf s.armed (ofList pkt (s.rxbuf.buf s.armed))
              msglen := write s.rxbuf.msglen s.rxbuf.head pkt.length
              head := (s.rxbuf.head + 1) % NUM_RX_BUFS
              tail := s.rxbuf.tail } s.rxbuf.tail p ++
            [slice (write s.rxbuf.buf s.armed (ofList pkt (s.rxbuf.buf s.armed))
              ((s.rxbuf.tail + p) % NUM_RX_BUFS)) 0
            (write s.rxbuf.msglen s.rxbuf.head pkt.length ((s.rxbuf.tail + p) % NUM_RX_BUFS))]) ++ _
        rw [hold, hnew]
        simp only [List.append_assoc, List.singleton_append]
    | process =>
      have hrun : runRing cfg s (RingOp.process :: ops) =
          runRing cfg (cdc_process cfg s) ops := rfl
      rw [hrun]
      by_cases hq : s.rxbuf.tail = s.rxbuf.head
      · have hc : ringTrace cfg s (RingOp.process :: ops) = ringTrace cfg (cdc_process cfg s) ops := by
          show (_, _) = _
          rw [if_neg (fun h => h hq)]
        rw [hc, cdc_process_empty cfg s hq]
        exact ih s p ht hp hh ha
      · have hp0 : p ≠ 0 := by
          intro h0
          apply hq
          rw [hh, h0, Nat.add_zero, Nat.mod_eq_of_lt ht]
        obtain ⟨m, rfl⟩ : ∃ m, p = m + 1 := ⟨p - 1, by omega⟩
        have hc : ringTrace cfg s (RingOp.process :: ops) =
            ((ringTrace cfg (cdc_process cfg s) ops).1,
             slice (s.rxbuf.buf s.rxbuf.tail) 0 (s.rxbuf.msglen s.rxbuf.tail) ::
               (ringTrace cfg (cdc_process cfg s) ops).2) := by
          show (_, _) = _
          rw [if_pos hq]
        have hstep := cdc_process_drain cfg s hq
        have hi := ih (cdc_process cfg s) m
          (by rw [hstep]; exact Nat.mod_lt _ (by decide))
          (by omega)
          (by rw [hstep]
              show s.rxbuf.head = ((s.rxbuf.tail + 1) % NUM_RX_BUFS + m) % NUM_RX_BUFS
              unfold NUM_RX_BUFS at *
              omega)
          (by rw [hstep]
              show (feedBytes cfg s _).armed = s.rxbuf.head
              rw [(feedBytes_ring cfg _ s).2]
              exact ha)
        rw [hc]
        show _ = slice _ 0 _ :: ((ringTrace cfg (cdc_process cfg s) ops).2 ++ _)
        rw [← hi, packetsFrom_cons, Nat.mod_eq_of_lt ht, hstep]
        rfl

/-- C26: `cdc_process` called with `head = tail` returns the state as it was:
ring, accumulator and decoder log unchanged.  Called with `head ≠ tail` it
passes exactly the first `msglen[tail]` bytes of slot `tail` through the
reassembler, in order, then sets `tail` to `(tail + 1) mod NUM_RX_BUFS` and
leaves `head`, the buffers and the recorded lengths unchanged.  For every
sequence of packet arrivals and `cdc_process` calls from the power-on state,
the byte runs drained by the `cdc_process` calls, in call order, followed by
the packets still pending, are exactly the packets that `CDC_Receive_FS`
accepted, in arrival order: each accepted packet is drained once, whole and in
order. -/
theorem receive_ring_drain (cfg : Config) :
    (∀ s : Cdc, s.rxbuf.head = s.rxbuf.tail → cdc_process cfg s = s) ∧
    (∀ s : Cdc, s.rxbuf.head ≠ s.rxbuf.tail →
      sameLine (cdc_process cfg s)
        (feedBytes cfg s (slice (s.rxbuf.buf s.rxbuf.tail) 0 (s.rxbuf.msglen s.rxbuf.tail))) ∧
      (cdc_process cfg s).rxbuf =
        { s.rxbuf with tail := (s.rxbuf.tail + 1) % NUM_RX_BUFS }) ∧
    (∀ ops : List RingOp,
      (ringTrace cfg Cdc.initial ops).2 ++ pendingPackets (runRing cfg Cdc.initial ops).rxbuf =
        (ringTrace cfg Cdc.initial ops).1) := by
  refine ⟨?_, ?_, ?_⟩
  · intro s hq
    exact cdc_process_empty cfg s hq.symm
  · intro s hq
    rw [cdc_process_drain cfg s (fun h => hq h.symm)]
    exact ⟨⟨rfl, rfl, rfl, rfl⟩, rfl⟩
  · intro ops
    have h := ringTrace_invariant cfg ops Cdc.initial 0 (by decide) (by decide) (by decide) rfl
    rw [← h]
    rfl

/-- C26, instance: from power-on the packets `O` CR and `V` CR arrive, one
`cdc_process` call drains the first, a third packet `C` CR arrives: the drained
run is the first packet and the other two are pending, in arrival order. -/
theorem receive_ring_drain_witness :
    (ringTrace cfg4 Cdc.initial
      [RingOp.receive (ascii "O\r"), RingOp.receive (ascii "V\r"), RingOp.process,
       RingOp.receive (ascii "C\r")]).2 ++
      pendingPackets (runRing cfg4 Cdc.initial
        [RingOp.receive (ascii "O\r"), RingOp.receive (ascii "V\r"), RingOp.process,
         RingOp.receive (ascii "C\r")]).rxbuf =
      [ascii "O\r", ascii "V\r", ascii "C\r"] ∧
    (ringTrace cfg4 Cdc.initial
      [RingOp.receive (ascii "O\r"), RingOp.receive (ascii "V\r"), RingOp.process,
       RingOp.receive (ascii "C\r")]).2 = [ascii "O\r"] :=
  ⟨((receive_ring_drain cfg4).2.2
      [RingOp.receive (ascii "O\r"), RingOp.receive (ascii "V\r"), RingOp.process,
       RingOp.receive (ascii "C\r")]).trans (by decide),
   by decide⟩

/-! ## Packet boundaries -/

/-- Two packets that arrive on an empty ring before the foreground loop runs,
then two `cdc_process` calls: the bytes of both go through the reassembler in
arrival order. -/
theorem two_packets_pass (cfg : Config) (s : Cdc) (a b : List Nat)
    (hempty : s.rxbuf.head = s.rxbuf.tail) (harmed : s.armed = s.rxbuf.head) :
    sameLine
      (runRing cfg s [RingOp.receive a, RingOp.receive b, RingOp.process, RingOp.process])
      (feedBytes cfg s (a ++ b)) := by
  obtain ⟨fw, ⟨buf, msglen, head, tail⟩, armed, str, idx, dec⟩ := s
  simp only at hempty harmed
  subst hempty harmed
  have h1 : (armed + 1) % NUM_RX_BUFS ≠ armed := by
    unfold NUM_RX_BUFS
    omega
  have h2 : ((armed + 1) % NUM_RX_BUFS + 1) % NUM_RX_BUFS ≠ armed := by
    unfold NUM_RX_BUFS
    omega
  have h3 : ((armed + 1) % NUM_RX_BUFS + 1) % NUM_RX_BUFS ≠ (armed + 1) % NUM_RX_BUFS := by
    unfold NUM_RX_BUFS
    omega
  have hrun : ∀ t : Cdc,
      runRing cfg t [RingOp.receive a, RingOp.receive b, RingOp.process, RingOp.process] =
      cdc_process cfg (cdc_process cfg
        (CDC_Receive_FS (usb_data_out (CDC_Receive_FS (usb_data_out t a) a.length).2 b)
          b.length).2) := by
    intro t
    simp only [runRing, List.foldl_cons, List.foldl_nil, ringStep]
  rw [hrun]
  simp only [CDC_Receive_FS, usb_data_out, if_neg h1, if_neg h2]
  conv =>
    lhs
    arg 2
    rw [cdc_process_drain cfg _ (fun h => h2 h.symm)]
  dsimp only
  rw [cdc_process_drain cfg _ (fun h => h3 h.symm)]
  simp only [(feedBytes_ring cfg _ _).1]
  have ha : slice (write (write buf armed (ofList a (buf armed))) ((armed + 1) % NUM_RX_BUFS)
      (ofList b (write buf armed (ofList a (buf armed)) ((armed + 1) % NUM_RX_BUFS))) armed) 0
      (write (write msglen armed a.length) ((armed + 1) % NUM_RX_BUFS) b.length armed) = a := by
    rw [write_other _ _ _ _ h1.symm, write_same, write_other _ _ _ _ h1.symm, write_same]
    have hsl := slice_ofList (buf armed) a []
    rw [List.nil_append, List.length_nil] at hsl
    exact hsl
  have hb : slice (write (write buf armed (ofList a (buf armed))) ((armed + 1) % NUM_RX_BUFS)
      (ofList b (write buf armed (ofList a (buf armed)) ((armed + 1) % NUM_RX_BUFS)))
        ((armed + 1) % NUM_RX_BUFS)) 0
      (write (write msglen armed a.length) ((armed + 1) % NUM_RX_BUFS) b.length
        ((armed + 1) % NUM_RX_BUFS)) = b := by
    rw [write_same, write_same]
    have hsl := slice_ofList (write buf armed (ofList a (buf armed)) ((armed + 1) % NUM_RX_BUFS)) b []
    rw [List.nil_append, List.length_nil] at hsl
    exact hsl
  rw [ha, hb, feedBytes_append]
  apply sameLine_trans _ (feedBytes cfg (feedBytes cfg _ a) b)
  · exact feedBytes_sameLine cfg b _ _ ⟨rfl, rfl, rfl, rfl⟩
  · apply feedBytes_sameLine cfg b
    apply feedBytes_sameLine cfg a
    exact ⟨rfl, rfl, rfl, rfl⟩

/-- Agreement on the line part is symmetric. -/
theorem sameLine_symm (s t : Cdc) (h : sameLine s t) : sameLine t s :=
  ⟨h.1.symm, h.2.1.symm, h.2.2.1.symm, h.2.2.2.symm⟩

/-- C30: from a state with an empty ring, for byte sequences `a` and `b` that
fit one slot together, draining the packets `a` and `b` with two `cdc_process`
calls (the second packet arriving after or before the first call) and draining
the single packet `a ++ b` with one call agree on the whole line part of the
state: the same decoder invocations (same line bytes and lengths, same order,
hence the same effect on the state of `can.c`), the same accumulator content
and the same write index; all three are what the bytes of `a ++ b` give when
passed through the reassembler one by one. -/
theorem packet_boundaries (cfg : Config) (s : Cdc) (a b : List Nat)
    (hempty : s.rxbuf.head = s.rxbuf.tail) (harmed : s.armed = s.rxbuf.head)
    (_hfit : a.length + b.length ≤ RX_BUF_SIZE) :
    sameLine
      (runRing cfg s [RingOp.receive a, RingOp.process, RingOp.receive b, RingOp.process])
      (runRing cfg s [RingOp.receive (a ++ b), RingOp.process]) ∧
    sameLine
      (runRing cfg s [RingOp.receive a, RingOp.receive b, RingOp.process, RingOp.process])
      (runRing cfg s [RingOp.receive (a ++ b), RingOp.process]) ∧
    sameLine (runRing cfg s [RingOp.receive (a ++ b), RingOp.process])
      (feedBytes cfg s (a ++ b)) := by
  have e1 : runRing cfg s [RingOp.receive a, RingOp.process, RingOp.receive b, RingOp.process] =
      feedPackets cfg s [a, b] := by
    simp only [runRing, feedPackets, List.foldl_cons, List.foldl_nil, ringStep]
  have e2 : runRing cfg s [RingOp.receive (a ++ b), RingOp.process] =
      feedPackets cfg s [a ++ b] := by
    simp only [runRing, feedPackets, List.foldl_cons, List.foldl_nil, ringStep]
  have h1 := feedPackets_sameLine cfg [a, b] s hempty harmed
  have h2 := feedPackets_sameLine cfg [a ++ b] s hempty harmed
  simp only [List.flatten_cons, List.flatten_nil, List.append_nil] at h1 h2
  have h3 := two_packets_pass cfg s a b hempty harmed
  rw [e1, e2]
  exact ⟨sameLine_trans _ _ _ h1 (sameLine_symm _ _ h2),
    sameLine_trans _ _ _ h3 (sameLine_symm _ _ h2), h2⟩

/-- C30, instance: the line `t01232AFF0` and its CR split after five bytes,
from power-on: in each case the decoder is invoked once, with the ten bytes of
the line. -/
theorem packet_boundaries_witness :
    (runRing cfg4 Cdc.initial
      [RingOp.receive (ascii "t0123"), RingOp.process, RingOp.receive (ascii "2AFF0\r"),
       RingOp.process]).decoded = [ascii "t01232AFF0"] ∧
    (runRing cfg4 Cdc.initial
      [RingOp.receive (ascii "t0123"), RingOp.receive (ascii "2AFF0\r"), RingOp.process,
       RingOp.process]).decoded = [ascii "t01232AFF0"] ∧
    (runRing cfg4 Cdc.initial
      [RingOp.receive (ascii "t0123" ++ ascii "2AFF0\r"), RingOp.process]).decoded =
      [ascii "t01232AFF0"] :=
  have h := packet_boundaries cfg4 Cdc.initial (ascii "t0123") (ascii "2AFF0\r") rfl rfl
    (by decide)
  have h3 : (runRing cfg4 Cdc.initial
      [RingOp.receive (ascii "t0123" ++ ascii "2AFF0\r"), RingOp.process]).decoded =
      [ascii "t01232AFF0"] := by decide
  ⟨h.1.2.2.2.trans h3, h.2.1.2.2.2.trans h3, h3⟩

/-! ## Claims on empty lines -/

/-- With a length of 0 the conversion loop of the decoder does nothing. -/
theorem converted_nothing (buf : Mem) : converted buf 0 = buf := by
  funext k
  exact converted_outside buf 0 k (Nat.zero_le k)

/-- The decoder on a letter that is no command: an error, nothing is done. -/
theorem slcan_parse_str_other (cfg : Config) (st : Firmware) (buf : Mem) (len : Nat)
    (htag : buf 0 ∉ knownTags) :
    (slcan_parse_str cfg st buf len).1 = -1 ∧ (slcan_parse_str cfg st buf len).2.1 = st := by
  unfold slcan_parse_str
  simp only [conversion_loop, converted_zero]
  simp only [knownTags, List.mem_cons, List.mem_singleton, List.not_mem_nil, or_false,
    not_or, Char.reduceToNat] at htag
  obtain ⟨h1, h2, h3, h4, h5, h6, h7, h8, h9, h10, h11, h12, h13⟩ := htag
  simp [h1, h2, h3, h4, h5, h6, h7, h8, h9, h10, h11, h12, h13]

/-- C27, counterexample: from power-on with the sample constants, the line
`t01232AFF0` followed by two CRs queues the frame twice: after the first CR the
write index is 0 and one frame is queued; the second CR, an empty line, adds
the same frame to the transmit queue again.  The same holds when the bytes
arrive as one packet that `cdc_process` drains. -/
theorem empty_line_executes_again :
    (feedBytes cfg4 Cdc.initial (ascii "t01232AFF0\r")).slcan_str_index = 0 ∧
    queued cfg4 (feedBytes cfg4 Cdc.initial (ascii "t01232AFF0\r")).fw.txqueue =
      [(⟨0x123, 0, CAN_ID_STD, CAN_RTR_DATA, 2⟩, [0xAF, 0xF0])] ∧
    queued cfg4 (feedBytes cfg4 Cdc.initial (ascii "t01232AFF0\r\r")).fw.txqueue =
      [(⟨0x123, 0, CAN_ID_STD, CAN_RTR_DATA, 2⟩, [0xAF, 0xF0]),
       (⟨0x123, 0, CAN_ID_STD, CAN_RTR_DATA, 2⟩, [0xAF, 0xF0])] ∧
    (feedBytes cfg4 Cdc.initial (ascii "t01232AFF0\r\r")).fw.txqueue.head = 2 ∧
    queued cfg4 (runRing cfg4 Cdc.initial
      [RingOp.receive (ascii "t01232AFF0\r\r"), RingOp.process]).fw.txqueue =
      [(⟨0x123, 0, CAN_ID_STD, CAN_RTR_DATA, 2⟩, [0xAF, 0xF0]),
       (⟨0x123, 0, CAN_ID_STD, CAN_RTR_DATA, 2⟩, [0xAF, 0xF0])] := by
  decide

/-- C27, amended: a CR that arrives while the write index is 0 invokes the
decoder with length 0 on the accumulator as it stands; the accumulator is left
as it was and the index stays 0.  The decoder then dispatches on cell 0: when
that cell holds no command letter (as at power-on) nothing is executed; when
it holds a transmit letter and the cell of the length digit holds a value of
at most 8, the frame read from the cells is passed to `can_tx`.  After a
complete transmit line, whose cells the first CR converted in place, a second
CR therefore passes the same frame to `can_tx` a second time. -/
theorem empty_line_reruns (cfg : Config) :
    (∀ s : Cdc, s.slcan_str_index = 0 →
      (cdc_byte cfg s '\r'.toNat).fw = (slcan_parse_str cfg s.fw s.slcan_str 0).2.1 ∧
      (cdc_byte cfg s '\r'.toNat).slcan_str = s.slcan_str ∧
      (cdc_byte cfg s '\r'.toNat).slcan_str_index = 0 ∧
      (cdc_byte cfg s '\r'.toNat).decoded = s.decoded ++ [[]] ∧
      (s.slcan_str 0 ∉ knownTags → (cdc_byte cfg s '\r'.toNat).fw = s.fw) ∧
      (s.slcan_str 0 ∈ transmitTags → s.slcan_str (idLen cfg (s.slcan_str 0) + 1) ≤ 8 →
        (cdc_byte cfg s '\r'.toNat).fw =
          (can_tx cfg s.fw (parsedHeader cfg (s.slcan_str 0) s.slcan_str)
            (dataBytes s.slcan_str (idLen cfg (s.slcan_str 0) + 2)
              (s.slcan_str (idLen cfg (s.slcan_str 0) + 1)))).2)) ∧
    (∀ s : Cdc, s.slcan_str 0 ∈ transmitTags →
      converted s.slcan_str s.slcan_str_index (idLen cfg (s.slcan_str 0) + 1) ≤ 8 →
      (cdc_byte cfg s '\r'.toNat).slcan_str_index = 0 ∧
      (cdc_byte cfg s '\r'.toNat).fw =
        (can_tx cfg s.fw
          (parsedHeader cfg (s.slcan_str 0) (converted s.slcan_str s.slcan_str_index))
          (dataBytes (converted s.slcan_str s.slcan_str_index) (idLen cfg (s.slcan_str 0) + 2)
            (converted s.slcan_str s.slcan_str_index (idLen cfg (s.slcan_str 0) + 1)))).2 ∧
      (cdc_byte cfg (cdc_byte cfg s '\r'.toNat) '\r'.toNat).fw =
        (can_tx cfg (cdc_byte cfg s '\r'.toNat).fw
          (parsedHeader cfg (s.slcan_str 0) (converted s.slcan_str s.slcan_str_index))
          (dataBytes (converted s.slcan_str s.slcan_str_index) (idLen cfg (s.slcan_str 0) + 2)
            (converted s.slcan_str s.slcan_str_index (idLen cfg (s.slcan_str 0) + 1)))).2) := by
  constructor
  · intro s h0
    obtain ⟨c1, c2, c3, c4⟩ := cdc_byte_cr cfg s
    rw [h0] at c1 c3 c4
    rw [slcan_parse_str_buf, converted_nothing] at c4
    refine ⟨c3, c4, c2, c1, ?_, ?_⟩
    · intro htag
      rw [c3, (slcan_parse_str_other cfg s.fw s.slcan_str 0 htag).2]
    · intro htag hlen
      rw [c3, slcan_parse_str_transmit cfg s.fw s.slcan_str 0 htag, converted_nothing,
        if_neg (by omega)]
  · intro s htag hlen
    obtain ⟨_, c2, c3, c4⟩ := cdc_byte_cr cfg s
    rw [slcan_parse_str_buf] at c4
    rw [slcan_parse_str_transmit cfg s.fw s.slcan_str _ htag, if_neg (by omega)] at c3
    obtain ⟨_, _, d3, _⟩ := cdc_byte_cr cfg (cdc_byte cfg s '\r'.toNat)
    have htag2 : (cdc_byte cfg s '\r'.toNat).slcan_str 0 ∈ transmitTags := by
      rw [c4, converted_zero]
      exact htag
    rw [slcan_parse_str_transmit cfg _ _ _ htag2, c2, c4, converted_nothing, converted_zero,
      if_neg (by omega)] at d3
    exact ⟨c2, c3, d3⟩

/-- C27, amended, instance: the line `t01232AFF0` from power-on, with the
sample constants: after the first CR the write index is 0 and one frame was
passed to `can_tx`; the second CR passes the same frame again. -/
theorem empty_line_reruns_witness :
    (cdc_byte cfg4 (feedBytes cfg4 Cdc.initial (ascii "t01232AFF0")) '\r'.toNat).slcan_str_index
      = 0 ∧
    (cdc_byte cfg4 (cdc_byte cfg4 (feedBytes cfg4 Cdc.initial (ascii "t01232AFF0")) '\r'.toNat)
      '\r'.toNat).fw =
      (can_tx cfg4
        (cdc_byte cfg4 (feedBytes cfg4 Cdc.initial (ascii "t01232AFF0")) '\r'.toNat).fw
        (parsedHeader cfg4 't'.toNat (converted (ofList (ascii "t01232AFF0") fun _ => 0) 10))
        (dataBytes (converted (ofList (ascii "t01232AFF0") fun _ => 0) 10) 6 2)).2 :=
  have h := (empty_line_reruns cfg4).2 (feedBytes cfg4 Cdc.initial (ascii "t01232AFF0"))
    (by decide) (by decide)
  ⟨h.1, h.2.2⟩

/-! ## Claims on the bounds of the encoder -/

/-- The encoder reads the data array below index `DLC` only: two arrays that
agree there give the same line. -/
theorem slcan_parse_frame_reads (cfg : Config) (buf : Mem) (h : CAN_RxHeaderTypeDef)
    (d1 d2 : Mem) (hd : ∀ i, i < h.DLC → d1 i = d2 i) :
    slcan_parse_frame cfg buf h d1 = slcan_parse_frame cfg buf h d2 := by
  rw [slcan_parse_frame_eq, slcan_parse_frame_eq]
  unfold encoded
  dsimp only
  generalize (if h.IDE = CAN_ID_EXT then cfg.SLCAN_EXT_ID_LEN else cfg.SLCAN_STD_ID_LEN) = L
  have key : ∀ (b4 : Mem) (k : Nat),
      (if L + 3 ≤ k ∧ k < L + 3 + 2 * h.DLC then
        (if (k - (L + 3)) % 2 = 0 then d1 (0 + (k - (L + 3)) / 2) / 16
         else d1 (0 + (k - (L + 3)) / 2) % 16)
       else b4 k) =
      (if L + 3 ≤ k ∧ k < L + 3 + 2 * h.DLC then
        (if (k - (L + 3)) % 2 = 0 then d2 (0 + (k - (L + 3)) / 2) / 16
         else d2 (0 + (k - (L + 3)) / 2) % 16)
       else b4 k) := by
    intro b4 k
    by_cases hk : L + 3 ≤ k ∧ k < L + 3 + 2 * h.DLC
    · have hi : 0 + (k - (L + 3)) / 2 < h.DLC := by omega
      rw [if_pos hk, if_pos hk, hd _ hi]
    · rw [if_neg hk, if_neg hk]
  simp only [key]

/-- With a length code above 8 the encoder reads the data array at index 8:
the cell of the 17th data digit holds the digit of the high nibble of that
byte.  The terminator is written after the `2 * DLC` data digits. -/
theorem slcan_parse_frame_cells (cfg : Config) (buf : Mem) (h : CAN_RxHeaderTypeDef) (d : Mem) :
    (8 < h.DLC →
      (slcan_parse_frame cfg buf h d).1
        ((if h.IDE = CAN_ID_EXT then cfg.SLCAN_EXT_ID_LEN else cfg.SLCAN_STD_ID_LEN) + 19) =
        nibbleToAscii (d 8 / 16)) ∧
    (slcan_parse_frame cfg buf h d).1
      ((if h.IDE = CAN_ID_EXT then cfg.SLCAN_EXT_ID_LEN else cfg.SLCAN_STD_ID_LEN) + 3 +
        2 * h.DLC) = '\r'.toNat := by
  rw [slcan_parse_frame_eq]
  unfold encoded
  dsimp only
  constructor
  · intro hdlc
    generalize (if h.IDE = CAN_ID_EXT then cfg.SLCAN_EXT_ID_LEN else cfg.SLCAN_STD_ID_LEN) = L
    have e1 : L + 19 ≠ L + 3 + 2 * h.DLC := by omega
    have e2 : 1 ≤ L + 19 ∧ L + 19 < L + 3 + 2 * h.DLC := by omega
    have e3 : L + 3 ≤ L + 19 ∧ L + 19 < L + 3 + 2 * h.DLC := by omega
    have e4 : (L + 19 - (L + 3)) % 2 = 0 := by omega
    have e5 : 0 + (L + 19 - (L + 3)) / 2 = 8 := by omega
    rw [write_other _ _ _ _ e1, if_pos e2, if_pos e3, if_pos e4, e5]
  · exact write_same _ _ _

/-- C28: the encoder reads the data array at every index below `DLC` and
writes `2 * DLC` data digits whatever the length code.  For a length code of at
most 8 the line depends on the data bytes below index 8 only.  For a length
code above 8, which the receive primitive can deliver, the line depends on the
byte at index 8, beyond the 8 bytes that the caller provides: the cell of the
17th data digit holds the digit of its high nibble, and some data array that
agrees with the given one below index 8 gives another line.  In all cases the
terminator is written at cell `L + 3 + 2 * DLC` and the count returned is
`L + 2 * DLC + 4`, where `L` is the identifier width: both are beyond a message
buffer of `SLCAN_MTU` bytes as soon as `SLCAN_MTU < L + 2 * DLC + 4`. -/
theorem encoder_out_of_bounds (cfg : Config) (buf : Mem) (h : CAN_RxHeaderTypeDef) (d : Mem) :
    (h.DLC ≤ 8 → ∀ d2 : Mem, (∀ i, i < 8 → d2 i = d i) →
      slcan_parse_frame cfg buf h d2 = slcan_parse_frame cfg buf h d) ∧
    (8 < h.DLC →
      (slcan_parse_frame cfg buf h d).1
        ((if h.IDE = CAN_ID_EXT then cfg.SLCAN_EXT_ID_LEN else cfg.SLCAN_STD_ID_LEN) + 19) =
        nibbleToAscii (d 8 / 16) ∧
      ∃ d2 : Mem, (∀ i, i < 8 → d2 i = d i) ∧
        slcan_parse_frame cfg buf h d2 ≠ slcan_parse_frame cfg buf h d) ∧
    (slcan_parse_frame cfg buf h d).1
      ((if h.IDE = CAN_ID_EXT then cfg.SLCAN_EXT_ID_LEN else cfg.SLCAN_STD_ID_LEN) + 3 +
        2 * h.DLC) = '\r'.toNat ∧
    (slcan_parse_frame cfg buf h d).2 =
      (if h.IDE = CAN_ID_EXT then cfg.SLCAN_EXT_ID_LEN else cfg.SLCAN_STD_ID_LEN) +
        2 * h.DLC + 4 := by
  refine ⟨?_, ?_, (slcan_parse_frame_cells cfg buf h d).2, slcan_parse_frame_count cfg buf h d⟩
  · intro hdlc d2 hd
    exact slcan_parse_frame_reads cfg buf h d2 d (fun i hi => hd i (by omega))
  · intro hdlc
    refine ⟨(slcan_parse_frame_cells cfg buf h d).1 hdlc, ?_⟩
    refine ⟨fun i => if i = 8 then (if nibbleToAscii (d 8 / 16) = 48 then 16 else 0) else d i,
      ?_, ?_⟩
    · intro i hi
      have hne : ¬ i = 8 := by omega
      exact if_neg hne
    · intro heq
      have h1 := (slcan_parse_frame_cells cfg buf h
        (fun i => if i = 8 then (if nibbleToAscii (d 8 / 16) = 48 then 16 else 0) else d i)).1 hdlc
      have h2 := (slcan_parse_frame_cells cfg buf h d).1 hdlc
      rw [heq, h2] at h1
      by_cases hz : nibbleToAscii (d 8 / 16) = 48
      · rw [hz] at h1
        simp only [hz, if_true] at h1
        exact absurd h1 (by decide)
      · simp only [hz, if_false, if_true] at h1
        exact hz (h1.trans (by decide))

/-- C28, instance: a standard frame with length code 9 and the sample
constants: the line holds the digit `5` of a data byte `0x5A` at index 8, in
cell 23, and the count is 26.  An extended frame with length code 15 returns
42, above the 30 bytes of the sample message buffer. -/
theorem encoder_out_of_bounds_witness :
    (slcan_parse_frame cfg4 (fun _ => 0) ⟨0x123, 0, CAN_ID_STD, CAN_RTR_DATA, 9⟩
      (fun i => if i = 8 then 0x5A else 0)).1 23 = '5'.toNat ∧
    (slcan_parse_frame cfg4 (fun _ => 0) ⟨0x123, 0, CAN_ID_STD, CAN_RTR_DATA, 9⟩
      (fun i => if i = 8 then 0x5A else 0)).2 = 26 ∧
    (slcan_parse_frame cfg4 (fun _ => 0) ⟨0, 0x123, CAN_ID_EXT, CAN_RTR_DATA, 15⟩
      (fun _ => 0)).2 = 42 ∧
    cfg4.SLCAN_MTU = 30 :=
  ⟨((encoder_out_of_bounds cfg4 (fun _ => 0) ⟨0x123, 0, CAN_ID_STD, CAN_RTR_DATA, 9⟩
      (fun i => if i = 8 then 0x5A else 0)).2.1 (by decide)).1,
   (encoder_out_of_bounds cfg4 (fun _ => 0) ⟨0x123, 0, CAN_ID_STD, CAN_RTR_DATA, 9⟩
      (fun i => if i = 8 then 0x5A else 0)).2.2.2,
   (encoder_out_of_bounds cfg4 (fun _ => 0) ⟨0, 0x123, CAN_ID_EXT, CAN_RTR_DATA, 15⟩
      (fun _ => 0)).2.2.2,
   rfl⟩

/-! ## Claims on the range of queued frames -/

/-- The identifier loops of the decoder keep the identifier within 32 bits. -/
theorem idAccum_lt (buf : Mem) (n : Nat) :
    ∀ (lo init : Nat), init < 2 ^ 32 →
      forUp lo n (fun msg_position v => ((v * 16) % 2 ^ 32 + buf msg_position) % 2 ^ 32) init <
        2 ^ 32 := by
  induction n with
  | zero => intro lo init h; exact h
  | succ n ih =>
    intro lo init _
    rw [forUp]
    exact ih _ _ (Nat.mod_lt _ (by decide))

/-- The bus controller never touches the transmit queue. -/
theorem controller_queue (st : Firmware) (v : Nat) (msg : List Nat) :
    (can_enable st).txqueue = st.txqueue ∧ (can_disable st).txqueue = st.txqueue ∧
    (can_set_bitrate st v).txqueue = st.txqueue ∧ (can_set_silent st v).txqueue = st.txqueue ∧
    (can_set_autoretransmit st v).txqueue = st.txqueue ∧
    (CDC_Transmit_FS st msg).txqueue = st.txqueue := by
  refine ⟨?_, ?_, ?_, ?_, ?_, rfl⟩
  · unfold can_enable
    split_ifs <;> rfl
  · unfold can_disable
    split_ifs <;> rfl
  · unfold can_set_bitrate
    split_ifs <;> rfl
  · unfold can_set_silent
    split_ifs <;> rfl
  · unfold can_set_autoretransmit
    split_ifs <;> rfl

/-- A line that is no transmit command leaves the transmit queue alone. -/
theorem slcan_parse_str_no_frame (cfg : Config) (st : Firmware) (buf : Mem) (len : Nat)
    (htag : buf 0 ∉ transmitTags) :
    (slcan_parse_str cfg st buf len).2.1.txqueue = st.txqueue := by
  unfold slcan_parse_str
  simp only [conversion_loop, converted_zero]
  simp only [transmitTags, List.mem_cons, List.mem_singleton, List.not_mem_nil, or_false,
    not_or, Char.reduceToNat] at htag
  obtain ⟨h1, h2, h3, h4⟩ := htag
  simp only [Char.reduceToNat, h1, h2, h3, h4, or_self, if_false]
  split_ifs
  · exact (controller_queue st 0 []).1
  · exact (controller_queue st 0 []).2.1
  · rfl
  · exact (controller_queue st _ []).2.2.1
  · exact (controller_queue st 1 []).2.2.2.1
  · exact (controller_queue st 0 []).2.2.2.1
  · exact (controller_queue st 1 []).2.2.2.2.1
  · exact (controller_queue st 0 []).2.2.2.2.1
  · rfl
  · rfl
  · rfl

/-- The failing inputs of C29: with the sample constants (4 and 8 identifier
digits), the line `t0FFF0` returns 0 and queues a standard frame with
identifier `0xFFF`, above `0x7FF`; the line `TFFFFFFFF0` returns 0 and queues an
extended frame with identifier `0xFFFFFFFF`, above `0x1FFFFFFF`.  With 3
identifier digits the line `tFFF0` does the same as the first. -/
theorem identifier_out_of_range_queued :
    (slcan_parse_str cfg4 Firmware.initial (ofList (ascii "t0FFF0") fun _ => 0) 6).1 = 0 ∧
    (slcan_parse_str cfg4 Firmware.initial (ofList (ascii "t0FFF0") fun _ => 0) 6).2.1.txqueue.head
      = 1 ∧
    (slcan_parse_str cfg4 Firmware.initial
      (ofList (ascii "t0FFF0") fun _ => 0) 6).2.1.txqueue.header 0 =
      ⟨0xFFF, 0, CAN_ID_STD, CAN_RTR_DATA, 0⟩ ∧
    (slcan_parse_str cfg4 Firmware.initial (ofList (ascii "TFFFFFFFF0") fun _ => 0) 10).1 = 0 ∧
    (slcan_parse_str cfg4 Firmware.initial
      (ofList (ascii "TFFFFFFFF0") fun _ => 0) 10).2.1.txqueue.header 0 =
      ⟨0, 0xFFFFFFFF, CAN_ID_EXT, CAN_RTR_DATA, 0⟩ ∧
    (slcan_parse_str cfg3 Firmware.initial
      (ofList (ascii "tFFF0") fun _ => 0) 5).2.1.txqueue.header 0 =
      ⟨0xFFF, 0, CAN_ID_STD, CAN_RTR_DATA, 0⟩ ∧
    0x7FF < 0xFFF ∧ 0x1FFFFFFF < 0xFFFFFFFF := by
  decide

/-- C29: the decoder checks the length code of a frame, not its identifier.  A
line that is no transmit command leaves the transmit queue alone.  A transmit
line whose length cell holds a value above 8 returns -1 and changes nothing.
Any other transmit line returns 0 and passes to `can_tx` a frame whose length
code is at most 8 and whose identifier is the value accumulated from the
identifier cells in 32-bit arithmetic, below `2^32` and compared with no other
bound (the other identifier field is 0): an identifier above `0x7FF` for a
standard frame, or above `0x1FFFFFFF` for an extended one, is queued as it is. -/
theorem enqueued_frame_range (cfg : Config) (st : Firmware) (buf : Mem) (len : Nat) :
    (buf 0 ∉ transmitTags → (slcan_parse_str cfg st buf len).2.1.txqueue = st.txqueue) ∧
    (buf 0 ∈ transmitTags → 8 < converted buf len (idLen cfg (buf 0) + 1) →
      (slcan_parse_str cfg st buf len).1 = -1 ∧ (slcan_parse_str cfg st buf len).2.1 = st) ∧
    (buf 0 ∈ transmitTags → converted buf len (idLen cfg (buf 0) + 1) ≤ 8 →
      (slcan_parse_str cfg st buf len).1 = 0 ∧
      (slcan_parse_str cfg st buf len).2.1 =
        (can_tx cfg st (parsedHeader cfg (buf 0) (converted buf len))
          (dataBytes (converted buf len) (idLen cfg (buf 0) + 2)
            (converted buf len (idLen cfg (buf 0) + 1)))).2 ∧
      (parsedHeader cfg (buf 0) (converted buf len)).DLC ≤ 8 ∧
      (parsedHeader cfg (buf 0) (converted buf len)).StdId < 2 ^ 32 ∧
      (parsedHeader cfg (buf 0) (converted buf len)).ExtId < 2 ^ 32 ∧
      ((parsedHeader cfg (buf 0) (converted buf len)).IDE = CAN_ID_STD →
        (parsedHeader cfg (buf 0) (converted buf len)).StdId =
          idAccum (converted buf len) cfg.SLCAN_STD_ID_LEN 0 ∧
        (parsedHeader cfg (buf 0) (converted buf len)).ExtId = 0) ∧
      ((parsedHeader cfg (buf 0) (converted buf len)).IDE = CAN_ID_EXT →
        (parsedHeader cfg (buf 0) (converted buf len)).ExtId =
          idAccum (converted buf len) cfg.SLCAN_EXT_ID_LEN 0 ∧
        (parsedHeader cfg (buf 0) (converted buf len)).StdId = 0)) := by
  refine ⟨slcan_parse_str_no_frame cfg st buf len, ?_, ?_⟩
  · intro htag hlen
    rw [slcan_parse_str_transmit cfg st buf len htag, if_pos hlen]
    exact ⟨rfl, rfl⟩
  · intro htag hlen
    rw [slcan_parse_str_transmit cfg st buf len htag, if_neg (by omega)]
    have hne : ¬ (CAN_ID_EXT = CAN_ID_STD) := by decide
    have hne2 : ¬ (CAN_ID_STD = CAN_ID_EXT) := by decide
    refine ⟨rfl, rfl, hlen, ?_, ?_, ?_, ?_⟩
    · unfold parsedHeader idAccum
      dsimp only
      split_ifs
      · decide
      · exact idAccum_lt _ _ _ _ (by decide)
    · unfold parsedHeader idAccum
      dsimp only
      split_ifs
      · exact idAccum_lt _ _ _ _ (by decide)
      · decide
    · unfold parsedHeader
      dsimp only
      split_ifs
      · intro h; exact absurd h hne
      · intro _; exact ⟨rfl, rfl⟩
    · unfold parsedHeader
      dsimp only
      split_ifs
      · intro _; exact ⟨rfl, rfl⟩
      · intro h; exact absurd h hne2

/-- C29, instance: the line `t0FFF0` at power-on with the sample constants is
passed to `can_tx` with a length code of 0 and the identifier `0xFFF`, which is
above `0x7FF`; the frame is stored in slot 0 of the transmit queue. -/
theorem enqueued_frame_range_witness :
    (slcan_parse_str cfg4 Firmware.initial (ofList (ascii "t0FFF0") fun _ => 0) 6).1 = 0 ∧
    (parsedHeader cfg4 't'.toNat (converted (ofList (ascii "t0FFF0") fun _ => 0) 6)).DLC ≤ 8 ∧
    (parsedHeader cfg4 't'.toNat (converted (ofList (ascii "t0FFF0") fun _ => 0) 6)).StdId <
      2 ^ 32 ∧
    parsedHeader cfg4 't'.toNat (converted (ofList (ascii "t0FFF0") fun _ => 0) 6) =
      ⟨0xFFF, 0, CAN_ID_STD, CAN_RTR_DATA, 0⟩ ∧
    (slcan_parse_str cfg4 Firmware.initial
      (ofList (ascii "t0FFF0") fun _ => 0) 6).2.1.txqueue.header 0 =
      ⟨0xFFF, 0, CAN_ID_STD, CAN_RTR_DATA, 0⟩ ∧
    0x7FF < 0xFFF :=
  have h := (enqueued_frame_range cfg4 Firmware.initial (ofList (ascii "t0FFF0") fun _ => 0)
    6).2.2 (by decide) (by decide)
  ⟨h.1, h.2.2.1, h.2.2.2.1, by decide, by decide, by decide⟩

end Canable
